import Mathlib

/-!
# beep: tone playback, backend selection and interrupt handling

A shallow embedding of `src/beep.c`.

Conventions of the embedding

* The process-wide globals (`console_fd`, `console_type`, `console_device`,
  `gpio_pin`) are fields of `Proc`, together with the list of observable
  events performed so far (oldest first) and the exit status once the
  process has terminated.
* Everything the operating system decides (the result of `open`, of the
  `EVIOCGSND` probe, of each tone `ioctl`/`write`, of the wiringPi setup
  calls) is read from an `Env`; the k-th call of a kind reads the k-th
  answer.  The chunks `fgets` will return from stdin are part of `Proc`.
* `getopt_long` and `sscanf` are not modelled: the command line is the list
  of options `getopt_long` returns, each numeric option with the value
  `sscanf` stored.  The functions that resolve keys and notes to frequencies
  are parameters of the parser.
* C `int` values are `Int`.  The one place where the 32-bit width changes
  what happens, the argument `1000*ms` of `usleep`, is reduced modulo `2^32`
  (two's complement wrap of the `int` product, then conversion to the 32-bit
  unsigned `useconds_t`).
* The `float` field `freq` holds the rational number the float denotes; the
  implicit conversion `float -> int` at `do_beep(parms.freq)` truncates
  toward zero.
* Diagnostics written to stderr (`fprintf(stderr, ..)`, `perror`) are not
  recorded; what goes to stdout is.
-/

namespace Beep

/-! ## Constants -/

/-- The `CLOCK_TICK_RATE` constant of line 54. -/
def CLOCK_TICK_RATE : Int := 1193180

/-- The `DEFAULT_FREQ` constant (440.0, middle A). -/
def DEFAULT_FREQ : ℚ := 440

/-- The `DEFAULT_LENGTH` constant, in milliseconds. -/
def DEFAULT_LENGTH : Int := 200

/-- The `DEFAULT_REPS` constant. -/
def DEFAULT_REPS : Int := 1

/-- The `DEFAULT_DELAY` constant, in milliseconds. -/
def DEFAULT_DELAY : Int := 100

/-- The `NO_END_DELAY` constant. -/
def NO_END_DELAY : Int := 0

/-- The `YES_END_DELAY` constant. -/
def YES_END_DELAY : Int := 1

/-- The `DEFAULT_END_DELAY` constant. -/
def DEFAULT_END_DELAY : Int := NO_END_DELAY

/-- The `NO_STDIN_BEEP` constant. -/
def NO_STDIN_BEEP : Int := 0

/-- The `LINE_STDIN_BEEP` constant. -/
def LINE_STDIN_BEEP : Int := 1

/-- The `CHAR_STDIN_BEEP` constant. -/
def CHAR_STDIN_BEEP : Int := 2

/-- The `DEFAULT_STDIN_BEEP` constant. -/
def DEFAULT_STDIN_BEEP : Int := NO_STDIN_BEEP

/-- Signal number of SIGINT on Linux. -/
def SIGINT : Int := 2

/-- Signal number of SIGTERM on Linux. -/
def SIGTERM : Int := 15

/-! ## Data model -/

/-- One playback request, `beep_parms_t` without its `next` pointer: a chain
of requests is a `List beep_parms_t` in link order. -/
structure beep_parms_t where
  freq : ℚ
  length : Int
  reps : Int
  delay : Int
  end_delay : Int
  stdin_beep : Int
  verbose : Int
  deriving DecidableEq, Repr

/-- The anonymous enum of line 97. -/
inductive BeepType where
  | BEEP_TYPE_CONSOLE
  | BEEP_TYPE_EVDEV
  | BEEP_TYPE_WIRINGPI
  deriving DecidableEq, Repr

open BeepType

/-- One step of GPIO pin configuration, as requested either by a direct
wiringPi call or by a `gpio` helper command. -/
inductive GpioOp where
  | mode_pwm (pin : Int)
  | pwm_range (period : Int)
  | pwm_write (pin : Int) (value : Int)
  | pwm_mode_ms
  | mode_in (pin : Int)
  deriving DecidableEq, Repr

/-- The command line that the unprivileged branch of `do_beep` hands to
`system()` for a configuration step (the `snprintf` formats of lines
164-181). -/
def gpio_command : GpioOp → String
  | .mode_pwm pin => "gpio -g mode " ++ toString pin ++ " pwm"
  | .pwm_range period => "gpio pwmr " ++ toString period
  | .pwm_write pin value => "gpio -g pwm " ++ toString pin ++ " " ++ toString value
  | .pwm_mode_ms => "gpio pwm-ms"
  | .mode_in pin => "gpio -g mode " ++ toString pin ++ " in"

/-- Observable actions of the process. -/
inductive Event where
  /-- `open(path, O_WRONLY)` and the descriptor it returned (-1 on failure). -/
  | open_dev (path : String) (fd : Int)
  /-- The capability probe `ioctl(fd, EVIOCGSND(0))`. -/
  | ioctl_EVIOCGSND (fd : Int)
  /-- The console tone command `ioctl(fd, KIOCSOUND, period)`. -/
  | ioctl_KIOCSOUND (fd : Int) (period : Int)
  /-- The input-event tone command: `write` of an `EV_SND`/`SND_TONE` event. -/
  | write_SND_TONE (fd : Int) (value : Int)
  /-- A direct wiringPi pin configuration call (effective uid 0). -/
  | wiringPi (op : GpioOp)
  /-- The call `system(gpio_command op)`: a pin configuration step through the
  `gpio` helper (effective uid other than 0). -/
  | gpio_helper (op : GpioOp)
  /-- Another `system(cmd)` call. -/
  | system (cmd : String)
  /-- The call `wiringPiSetupGpio()`. -/
  | wiringPiSetupGpio
  /-- The call `wiringPiSetupSys()`. -/
  | wiringPiSetupSys
  /-- The call `usleep(usec)`. -/
  | usleep (usec : Nat)
  /-- The character `'\a'` written to stdout. -/
  | bell
  /-- Other text written to stdout (echo of stdin, usage, version). -/
  | stdout (text : String)
  /-- The call `close(fd)`. -/
  | close (fd : Int)
  deriving DecidableEq, Repr

/-- Answers of the operating system and the build configuration. -/
structure Env where
  /-- Whether the program was compiled with `HAVE_WIRINGPI`. -/
  HAVE_WIRINGPI : Bool
  /-- The effective user id. -/
  geteuid : Nat
  /-- Return value of the k-th GPIO setup attempt through `wiringPiSetupGpio()`. -/
  wiringPiSetupGpio : Nat → Int
  /-- Return value of `system("gpio -v")` in the k-th GPIO setup attempt. -/
  system_gpio_v : Nat → Int
  /-- Return value of `wiringPiSetupSys()` in the k-th GPIO setup attempt. -/
  wiringPiSetupSys : Nat → Int
  /-- The value of `wpiPinToGpio(1)`. -/
  wpiPinToGpio : Int
  /-- Result of the k-th `open` call: the new descriptor, or `none` on failure. -/
  open_result : Nat → String → Option Nat
  /-- Whether the k-th `EVIOCGSND` probe returned something other than -1. -/
  probe_ok : Nat → Bool
  /-- Whether the k-th tone `ioctl`/`write` returned a negative value. -/
  emit_fails : Nat → Bool

/-- Process state: the globals of lines 101-105, what has been observed so
far, how many environment calls of each kind were made, unread stdin, and the
exit status once `exit` was called. -/
structure Proc where
  console_fd : Int
  console_type : BeepType
  console_device : Option String
  gpio_pin : Int
  trace : List Event
  n_open : Nat
  n_probe : Nat
  n_emit : Nat
  n_gpio : Nat
  stdin : List String
  exited : Option Int
  deriving DecidableEq, Repr

/-- The state at process start: the initialisers of lines 101-105. -/
def Proc.start (stdin : List String) : Proc :=
  { console_fd := -1, console_type := BEEP_TYPE_CONSOLE, console_device := none,
    gpio_pin := -1, trace := [], n_open := 0, n_probe := 0, n_emit := 0,
    n_gpio := 0, stdin := stdin, exited := none }

/-- Append one observable event. -/
def Proc.log (p : Proc) (e : Event) : Proc :=
  { p with trace := p.trace ++ [e] }

/-- Append several observable events. -/
def Proc.logs (p : Proc) (es : List Event) : Proc :=
  { p with trace := p.trace ++ es }

/-! ## Conversions -/

/-- The C conversion `float -> int`: truncation toward zero. -/
def float_to_int (q : ℚ) : Int := Int.tdiv q.num q.den

/-- The value `usleep` receives for the C expression `1000*ms`: the `int`
product wrapped to 32 bits and converted to the unsigned `useconds_t`. -/
def usleep_arg (ms : Int) : Nat := ((1000 * ms) % 4294967296).toNat

/-! ## `do_beep` (lines 130-187) -/

/-- The `period` computed on line 131. -/
def console_period (freq : Int) : Int :=
  if freq ≠ 0 then Int.tdiv CLOCK_TICK_RATE freq else freq

/-- The pin configuration steps of the GPIO branch (lines 153-184). -/
def gpio_ops (gpio_pin : Int) (freq : Int) : List GpioOp :=
  if freq ≠ 0 then
    let period := Int.tdiv 600000 freq
    [.mode_pwm gpio_pin, .pwm_range period, .pwm_write gpio_pin (Int.tdiv period 2),
      .pwm_mode_ms]
  else
    [.mode_in gpio_pin]

/-- The function `do_beep`. -/
def do_beep (env : Env) (freq : Int) (p : Proc) : Proc :=
  let period := console_period freq
  match p.console_type with
  | BEEP_TYPE_CONSOLE =>
    let p1 := { p.log (.ioctl_KIOCSOUND p.console_fd period) with n_emit := p.n_emit + 1 }
    if env.emit_fails p.n_emit then p1.log .bell else p1
  | BEEP_TYPE_EVDEV =>
    let p1 := { p.log (.write_SND_TONE p.console_fd freq) with n_emit := p.n_emit + 1 }
    if env.emit_fails p.n_emit then p1.log .bell else p1
  | BEEP_TYPE_WIRINGPI =>
    if env.HAVE_WIRINGPI then
      if env.geteuid = 0 then
        p.logs ((gpio_ops p.gpio_pin freq).map Event.wiringPi)
      else
        p.logs ((gpio_ops p.gpio_pin freq).map Event.gpio_helper)
    else p

/-! ## `play_beep` (lines 521-569) -/

/-- The call `usleep(1000*ms)`. -/
def usleep_ms (ms : Int) (p : Proc) : Proc := p.log (.usleep (usleep_arg ms))

/-- One repetition, the loop body of lines 560-565, at loop counter `i`. -/
def play_beep_rep (env : Env) (parms : beep_parms_t) (i : Int) (p : Proc) : Proc :=
  let p1 := do_beep env (float_to_int parms.freq) p
  let p2 := usleep_ms parms.length p1
  let p3 := do_beep env 0 p2
  if parms.end_delay ≠ 0 ∨ i + 1 < parms.reps then usleep_ms parms.delay p3 else p3

/-- The playback loop of lines 559-566, started at loop counter `i`.  The
first argument bounds the number of iterations still allowed; `play_beep`
passes `reps.toNat`, which the loop never exhausts. -/
def play_beep_loop (env : Env) (parms : beep_parms_t) : Nat → Int → Proc → Proc
  | 0, _, p => p
  | fuel + 1, i, p =>
    if i < parms.reps then play_beep_loop env parms fuel (i + 1) (play_beep_rep env parms i p)
    else p

/-- The function `setup_gpio` (lines 107-127): its return value and the state
after it. -/
def setup_gpio (env : Env) (p : Proc) : Int × Proc :=
  if p.gpio_pin = -1 then
    let r : Int × Proc :=
      if env.geteuid = 0 then
        (env.wiringPiSetupGpio p.n_gpio,
          { p.log .wiringPiSetupGpio with n_gpio := p.n_gpio + 1 })
      else
        let err := env.system_gpio_v p.n_gpio
        let p1 := { p.log (.system "gpio -v") with n_gpio := p.n_gpio + 1 }
        if err = 0 then (env.wiringPiSetupSys p.n_gpio, p1.log .wiringPiSetupSys)
        else (err, p1)
    if r.1 ≠ 0 then (1, r.2)
    else (0, { r.2 with gpio_pin := env.wpiPinToGpio })
  else (0, p)

/-- The assignment `console_fd = open(path, O_WRONLY)`. -/
def open_console (env : Env) (path : String) (p : Proc) : Proc :=
  let fd : Int := match env.open_result p.n_open path with
    | some n => (n : Int)
    | none => -1
  { p.log (.open_dev path fd) with console_fd := fd, n_open := p.n_open + 1 }

/-- The fallback of lines 537-538: `/dev/tty0`, then `/dev/vc/0` if that
failed. -/
def open_default_console (env : Env) (p : Proc) : Proc :=
  let p1 := open_console env "/dev/tty0" p
  if p1.console_fd = -1 then open_console env "/dev/vc/0" p1 else p1

/-- Lines 529-538 of `play_beep`: try to snag the console. -/
def play_beep_open (env : Env) (p : Proc) : Proc :=
  match p.console_device with
  | some dev => open_console env dev p
  | none =>
    if env.HAVE_WIRINGPI then
      let r := setup_gpio env p
      if r.1 = 0 then { r.2 with console_type := BEEP_TYPE_WIRINGPI }
      else open_default_console env r.2
    else open_default_console env p

/-- Lines 540-553 of `play_beep`: bail out when nothing was opened, else
probe the descriptor and set `console_type`. -/
def play_beep_classify (env : Env) (p : Proc) : Proc :=
  if p.console_fd = -1 then
    if p.console_type ≠ BEEP_TYPE_WIRINGPI then
      { p.log .bell with exited := some 1 }
    else p
  else
    let p1 := { p.log (.ioctl_EVIOCGSND p.console_fd) with n_probe := p.n_probe + 1 }
    if env.probe_ok p.n_probe then { p1 with console_type := BEEP_TYPE_EVDEV }
    else { p1 with console_type := BEEP_TYPE_CONSOLE }

/-- Lines 529-553 of `play_beep`: the backend selection. -/
def play_beep_select (env : Env) (p : Proc) : Proc :=
  play_beep_classify env (play_beep_open env p)

/-- The function `play_beep`. -/
def play_beep (env : Env) (parms : beep_parms_t) (p : Proc) : Proc :=
  let p1 := play_beep_select env p
  match p1.exited with
  | some _ => p1
  | none =>
    let p2 := play_beep_loop env parms parms.reps.toNat 0 p1
    p2.log (.close p2.console_fd)

/-! ## `handle_signal` (lines 192-215) -/

/-- The function `handle_signal`.  Freeing `console_device` has no observable
effect; for a signal other than SIGINT and SIGTERM the handler returns. -/
def handle_signal (env : Env) (signum : Int) (p : Proc) : Proc :=
  if signum = SIGINT ∨ signum = SIGTERM then
    if p.console_fd ≥ 0 ∨ (env.HAVE_WIRINGPI = true ∧ p.gpio_pin ≥ 0) then
      let p1 := do_beep env 0 p
      let p2 := if p1.console_fd ≥ 0 then p1.log (.close p1.console_fd) else p1
      { p2 with exited := some signum }
    else
      { p with exited := some signum }
  else p

/-! ## `parse_command_line` (lines 396-519) and `main` (lines 573-631) -/

/-- The frequency resolvers `parse_command_line` calls.  They compute in
`float` arithmetic or scan note names, and the parser only stores what they
return, so the parser is given them as functions. -/
structure FreqFns where
  key_to_freq : Int → Int
  sci_note_to_freq : String → Int
  abc_note_to_freq : String → Int

/-- One option as `getopt_long` returns it.  A numeric option carries the
value `sscanf` stored from its argument, `none` when `sscanf` stored nothing
(the variable then keeps its initial value -1). -/
inductive Opt where
  | f (argfreq : Option ℚ)
  | k (argval : Option Int)
  | N (optarg : String)
  | F (optarg : String)
  | l (argval : Option Int)
  | r (argval : Option Int)
  | d (argval : Option Int)
  | D (argval : Option Int)
  | s
  | c
  /-- The options `-v`, `-V` and `--version`. -/
  | V
  /-- The options `-n` and `--new`. -/
  | n
  /-- The options `--verbose` and `--debug`. -/
  | X
  /-- The options `-e` and `--device`. -/
  | e (optarg : String)
  /-- The options `-h`, `--help`, and whatever `getopt_long` does not know. -/
  | h
  deriving DecidableEq, Repr

/-- The function `usage_bail`. -/
def usage_bail (executable_name : String) (p : Proc) : Proc :=
  let p1 := p.log (.stdout ("Usage:\n" ++ executable_name ++
    " [-f freq] [-l length] [-r reps] [-d delay] [-D delay] [-s] [-c] " ++
    "[--verbose | --debug] [-e device]\n"))
  let p2 := p1.log (.stdout (executable_name ++ " [Options...] [-n] [--new] [Options...] ... \n"))
  let p3 := p2.log (.stdout (executable_name ++ " [-h] [--help]\n"))
  let p4 := p3.log (.stdout (executable_name ++ " [-v] [-V] [--version]\n"))
  { p4 with exited := some 1 }

/-- The local state of `parse_command_line` between two options: the
requests already linked before the node `result` points to (first request
first), that node, the flag `note_format_sci`, and the process. -/
structure ParseState where
  linked : List beep_parms_t
  result : beep_parms_t
  note_format_sci : Bool
  proc : Proc

/-- The node that `-n` allocates (lines 495-503) after the node `result`. -/
def new_parms (result : beep_parms_t) : beep_parms_t :=
  { freq := 0, length := DEFAULT_LENGTH, reps := DEFAULT_REPS, delay := DEFAULT_DELAY,
    end_delay := DEFAULT_END_DELAY, stdin_beep := DEFAULT_STDIN_BEEP,
    verbose := result.verbose }

/-- The default frequency filled in when none was given (lines 493-494 and
517-518). -/
def default_freq (result : beep_parms_t) : beep_parms_t :=
  if result.freq = 0 then { result with freq := DEFAULT_FREQ } else result

/-- One pass through the `switch` of lines 411-515. -/
def parse_option (fns : FreqFns) (executable_name : String) (st : ParseState) (opt : Opt) :
    ParseState :=
  let bail : ParseState := { st with proc := usage_bail executable_name st.proc }
  let set_int : Option Int → (Int → beep_parms_t) → ParseState := fun argval update =>
    match argval with
    | some v => if v < 0 then bail else { st with result := update v }
    | none => bail
  match opt with
  | .f argfreq =>
    match argfreq with
    | some v =>
      if v ≥ 20000 ∨ v ≤ 0 then bail else { st with result := { st.result with freq := v } }
    | none => bail
  | .k argval => set_int argval (fun v => { st.result with freq := (fns.key_to_freq v : ℚ) })
  | .N optarg =>
    let argval := if st.note_format_sci then fns.sci_note_to_freq optarg
      else fns.abc_note_to_freq optarg
    { st with result := { st.result with freq := (argval : ℚ) } }
  | .F optarg =>
    if optarg = "sci" then { st with note_format_sci := true }
    else if optarg = "abc" then { st with note_format_sci := false }
    else st
  | .l argval => set_int argval (fun v => { st.result with length := v })
  | .r argval => set_int argval (fun v => { st.result with reps := v })
  | .d argval =>
    set_int argval (fun v => { st.result with delay := v, end_delay := NO_END_DELAY })
  | .D argval =>
    set_int argval (fun v => { st.result with delay := v, end_delay := YES_END_DELAY })
  | .s => { st with result := { st.result with stdin_beep := LINE_STDIN_BEEP } }
  | .c => { st with result := { st.result with stdin_beep := CHAR_STDIN_BEEP } }
  | .V => { st with proc := { st.proc.log (.stdout "beep-1.3\n") with exited := some 0 } }
  | .n =>
    { st with linked := st.linked ++ [default_freq st.result], result := new_parms st.result }
  | .X => { st with result := { st.result with verbose := 1 } }
  | .e optarg => { st with proc := { st.proc with console_device := some optarg } }
  | .h => bail

/-- The `while` loop of lines 407-516 over the options of the command line;
it ends as soon as the process has exited. -/
def parse_options (fns : FreqFns) (executable_name : String) :
    List Opt → ParseState → ParseState
  | [], st => st
  | opt :: rest, st =>
    let st1 := parse_option fns executable_name st opt
    match st1.proc.exited with
    | some _ => st1
    | none => parse_options fns executable_name rest st1

/-- The chain `parse_command_line` leaves behind in a final state: the
linked requests, then the last node, whose frequency lines 517-518 default
when the loop has ended without an exit. -/
def ParseState.chain (st : ParseState) : List beep_parms_t :=
  match st.proc.exited with
  | some _ => st.linked ++ [st.result]
  | none => st.linked ++ [default_freq st.result]

/-- The function `parse_command_line`, called on the node `result`: the chain
of requests it leaves behind, first request first, and the process. -/
def parse_command_line (fns : FreqFns) (executable_name : String) (opts : List Opt)
    (result : beep_parms_t) (p : Proc) : List beep_parms_t × Proc :=
  let st := parse_options fns executable_name opts
    { linked := [], result := result, note_format_sci := true, proc := p }
  (st.chain, st.proc)

/-- The `for` loop of lines 608-612: echo each character, beep after it. -/
def main_chars (env : Env) (parms : beep_parms_t) : List Char → Proc → Proc
  | [], p => p
  | ch :: rest, p =>
    let p1 := play_beep env parms (p.log (.stdout (String.singleton ch)))
    match p1.exited with
    | some _ => p1
    | none => main_chars env parms rest p1

/-- The `while(fgets(..))` loop of lines 606-617 over the chunks `fgets`
returns until end of input. -/
def main_stdin (env : Env) (parms : beep_parms_t) : List String → Proc → Proc
  | [], p => { p with stdin := [] }
  | sin :: rest, p =>
    let p0 := { p with stdin := rest }
    let p1 :=
      if parms.stdin_beep = CHAR_STDIN_BEEP then main_chars env parms sin.toList p0
      else play_beep env parms (p0.log (.stdout sin))
    match p1.exited with
    | some _ => p1
    | none => main_stdin env parms rest p1

/-- The outermost `while(parms)` loop of lines 593-625 over the chain. -/
def main_loop (env : Env) : List beep_parms_t → Proc → Proc
  | [], p => p
  | parms :: next, p =>
    let p1 :=
      if parms.stdin_beep ≠ 0 then main_stdin env parms p.stdin p
      else play_beep env parms p
    match p1.exited with
    | some _ => p1
    | none => main_loop env next p1

/-- The node `main` allocates on lines 576-584. -/
def main_parms : beep_parms_t :=
  { freq := 0, length := DEFAULT_LENGTH, reps := DEFAULT_REPS, delay := DEFAULT_DELAY,
    end_delay := DEFAULT_END_DELAY, stdin_beep := DEFAULT_STDIN_BEEP, verbose := 0 }

/-- The function `main`, run to the end without a signal: the final state,
whose `exited` field is the exit status. -/
def main (env : Env) (fns : FreqFns) (executable_name : String) (opts : List Opt)
    (stdin : List String) : Proc :=
  let r := parse_command_line fns executable_name opts main_parms (Proc.start stdin)
  match r.2.exited with
  | some _ => r.2
  | none =>
    let p := main_loop env r.1 r.2
    match p.exited with
    | some _ => p
    | none => { p with exited := some 0 }

/-- The parse state in which `main` calls `parse_command_line`. -/
def ParseState.initial (stdin : List String) : ParseState :=
  { linked := [], result := main_parms, note_format_sci := true, proc := Proc.start stdin }

/-! ## Trace vocabulary used by the statements -/

/-- Hardware tone commands: what a backend receives to start or stop a tone. -/
def Event.isTone : Event → Bool
  | .ioctl_KIOCSOUND _ _ => true
  | .write_SND_TONE _ _ => true
  | .wiringPi _ => true
  | .gpio_helper _ => true
  | _ => false

/-- Timed waits. -/
def Event.isWait : Event → Bool
  | .usleep _ => true
  | _ => false

/-- Emission and wait events. -/
def Event.isToneOrWait (e : Event) : Bool := e.isTone || e.isWait

/-- Total blocking time of a trace, in microseconds. -/
def blocking_usec : List Event → Nat
  | [] => 0
  | .usleep usec :: rest => usec + blocking_usec rest
  | _ :: rest => blocking_usec rest

/-- The events a state transformer has added to the trace of `p`. -/
def new_events (p q : Proc) : List Event := q.trace.drop p.trace.length

/-- The hardware commands by which the backend selected in `p` emits
frequency `freq` (0 for silence): one tone `ioctl` on the console, one
`SND_TONE` event on an input-event device, the pin configuration steps on a
GPIO pin (none in a build without wiringPi). -/
def emission (env : Env) (p : Proc) (freq : Int) : List Event :=
  match p.console_type with
  | BEEP_TYPE_CONSOLE => [.ioctl_KIOCSOUND p.console_fd (console_period freq)]
  | BEEP_TYPE_EVDEV => [.write_SND_TONE p.console_fd freq]
  | BEEP_TYPE_WIRINGPI =>
    if env.HAVE_WIRINGPI then
      if env.geteuid = 0 then (gpio_ops p.gpio_pin freq).map Event.wiringPi
      else (gpio_ops p.gpio_pin freq).map Event.gpio_helper
    else []

/-- Number of fallible tone calls one `do_beep` makes on the backend of `p`
(the GPIO branch checks no return value). -/
def emit_calls (p : Proc) : Nat :=
  match p.console_type with
  | BEEP_TYPE_WIRINGPI => 0
  | _ => 1

/-- What one `do_beep(freq)` adds to the trace when it is the tone call
number `k`: the emission, then the fallback bell if that call failed. -/
def beep_events (env : Env) (p : Proc) (freq : Int) (k : Nat) : List Event :=
  emission env p freq ++
    (if emit_calls p = 1 ∧ env.emit_fails k = true then [Event.bell] else [])

/-- What repetition `i` of a request adds to the trace, `k` being the number
of tone calls made before it: emit(freq), wait(length), emit(0), and
wait(delay) when the trailing delay is set or `i` is not the last repetition. -/
def rep_events (env : Env) (p : Proc) (parms : beep_parms_t) (i : Int) (k : Nat) :
    List Event :=
  beep_events env p (float_to_int parms.freq) k ++ [Event.usleep (usleep_arg parms.length)] ++
    beep_events env p 0 (k + emit_calls p) ++
    (if parms.end_delay ≠ 0 ∨ i + 1 < parms.reps then [Event.usleep (usleep_arg parms.delay)]
     else [])

/-- What the repetitions `i, i+1, .., reps-1` add to the trace (at most `n`
of them). -/
def loop_events (env : Env) (p : Proc) (parms : beep_parms_t) : Nat → Int → Nat → List Event
  | 0, _, _ => []
  | n + 1, i, k =>
    if i < parms.reps then
      rep_events env p parms i k ++ loop_events env p parms n (i + 1) (k + 2 * emit_calls p)
    else []

/-- The events of a whole request on the backend selected in `p`, worded as
the specification does: for each `i` in `0 .. reps-1`, in order, the events
of repetition `i`. -/
def request_events (env : Env) (p : Proc) (parms : beep_parms_t) : List Event :=
  (List.range parms.reps.toNat).flatMap
    (fun i => rep_events env p parms (i : Int) (p.n_emit + 2 * emit_calls p * i))

/-- Two states with the same selected backend (kind, descriptor, pin). -/
def same_backend (p q : Proc) : Prop :=
  q.console_type = p.console_type ∧ q.console_fd = p.console_fd ∧ q.gpio_pin = p.gpio_pin

/-- The tone commands and waits of one repetition, as the claim words them:
emit(freq), wait(length), emit(0), then wait(delay) if and only if the
trailing delay is set or `i` is not the last repetition. -/
def rep_tone_wait (env : Env) (p : Proc) (parms : beep_parms_t) (i : Int) : List Event :=
  emission env p (float_to_int parms.freq) ++ [Event.usleep (usleep_arg parms.length)] ++
    emission env p 0 ++
    (if parms.end_delay ≠ 0 ∨ i + 1 < parms.reps then [Event.usleep (usleep_arg parms.delay)]
     else [])

/-- Events of backend selection: opening a device, the capability probe, the
wiringPi setup calls, and the fallback bell. -/
def Event.isSelection : Event → Bool
  | .open_dev _ _ => true
  | .ioctl_EVIOCGSND _ => true
  | .wiringPiSetupGpio => true
  | .wiringPiSetupSys => true
  | .system _ => true
  | .bell => true
  | _ => false

/-- A state in which `play_beep` is blocked in one of its timed waits: the
process is running and either a console or input-event handle is open, or the
GPIO backend is selected and its pin is claimed. -/
def in_wait (env : Env) (p : Proc) : Prop :=
  p.exited = none ∧
    ((p.console_type ≠ BEEP_TYPE_WIRINGPI ∧ 0 ≤ p.console_fd) ∨
     (p.console_type = BEEP_TYPE_WIRINGPI ∧ env.HAVE_WIRINGPI = true ∧ 0 ≤ p.gpio_pin))

/-- The hardware command that silences the backend selected in `p`: period 0
on the console, tone value 0 on an input-event device, the pin put back to
plain input on GPIO. -/
def silence (env : Env) (p : Proc) : Event :=
  match p.console_type with
  | BEEP_TYPE_CONSOLE => .ioctl_KIOCSOUND p.console_fd 0
  | BEEP_TYPE_EVDEV => .write_SND_TONE p.console_fd 0
  | BEEP_TYPE_WIRINGPI =>
    if env.geteuid = 0 then .wiringPi (.mode_in p.gpio_pin) else .gpio_helper (.mode_in p.gpio_pin)

/-- The last hardware tone command of a trace, if there is one. -/
def last_tone (tr : List Event) : Option Event := (tr.filter Event.isTone).getLast?

/-- The three mutually exclusive backends, with the handle each one owns. -/
inductive Backend where
  | console (fd : Int)
  | input_event (fd : Int)
  | gpio (pin : Int)
  deriving DecidableEq, Repr

/-- The backend a process has selected: none once it has bailed out. -/
def selected_backend (p : Proc) : Option Backend :=
  match p.exited with
  | some _ => none
  | none =>
    match p.console_type with
    | BEEP_TYPE_CONSOLE => some (.console p.console_fd)
    | BEEP_TYPE_EVDEV => some (.input_event p.console_fd)
    | BEEP_TYPE_WIRINGPI => some (.gpio p.gpio_pin)

/-- The device paths a trace opens, in order. -/
def opened_paths (tr : List Event) : List String :=
  tr.filterMap (fun e => match e with
    | .open_dev path _ => some path
    | _ => none)

/-- Backend selection as the specification words it, a function of the
explicit device path, of whether GPIO is compiled in and its setup succeeds,
of the result of each `open` and of the input-event probe: the paths opened,
in order, and the one backend selected (none when every `open` failed). -/
def select_backend_spec (explicit_device : Option String) (gpio_ok : Bool) (gpio_pin : Int)
    (open_result : Nat → String → Option Nat) (probe_ok : Bool) :
    List String × Option Backend :=
  let classify : Nat → Backend := fun fd =>
    if probe_ok then Backend.input_event fd else Backend.console fd
  match explicit_device with
  | some path => ([path], (open_result 0 path).map classify)
  | none =>
    if gpio_ok then ([], some (Backend.gpio gpio_pin))
    else
      match open_result 0 "/dev/tty0" with
      | some fd => (["/dev/tty0"], some (classify fd))
      | none => (["/dev/tty0", "/dev/vc/0"], (open_result 1 "/dev/vc/0").map classify)

/-- The state in which `main` calls `play_beep` for the first time: the
globals as initialised, `console_device` as the command line set it. -/
def Proc.first_call (device : Option String) (stdin : List String) : Proc :=
  { Proc.start stdin with console_device := device }

/-- The states in which `main` may call `play_beep` in a process whose
command line set `console_device` to `device`: the first call, a call after
an earlier `play_beep` has returned, a call after stdin was echoed. -/
inductive reachable (env : Env) (device : Option String) : Proc → Prop where
  | first (stdin : List String) : reachable env device (Proc.first_call device stdin)
  | play (parms : beep_parms_t) (p : Proc) :
      reachable env device p → reachable env device (play_beep env parms p)
  | echo (text : String) (p : Proc) :
      reachable env device p → reachable env device (p.log (.stdout text))

/-- The same machine with every tone `ioctl`/`write` succeeding. -/
def no_failures (env : Env) : Env :=
  { env with emit_fails := fun _ => false }

/-- Number of failing tone calls among the `n` calls numbered `k, k+1, ..`. -/
def failed_calls (env : Env) (k : Nat) : Nat → Nat
  | 0 => 0
  | n + 1 => (if env.emit_fails k = true then 1 else 0) + failed_calls env (k + 1) n

/-- Whether an event is something else than the fallback bell. -/
def Event.notBell : Event → Bool
  | .bell => false
  | _ => true

/-- Number of fallback bells in a trace. -/
def bells : List Event → Nat
  | [] => 0
  | .bell :: rest => 1 + bells rest
  | _ :: rest => bells rest

/-- The tone commands and waits of one request on the backend selected in
`s`, as C1 words them: those of the repetitions `0 .. reps-1`, in order. -/
def request_tone_wait (env : Env) (s : Proc) (parms : beep_parms_t) : List Event :=
  (List.range parms.reps.toNat).flatMap (fun i => rep_tone_wait env s parms (i : Int))

/-- Concatenation, in chain order, of the tone commands and waits of the
requests of a chain played from state `p`, each on the backend selected for
it. -/
def chain_tone_wait_all (env : Env) : List beep_parms_t → Proc → List Event
  | [], _ => []
  | parms :: next, p =>
    request_tone_wait env (play_beep_select env p) parms ++
      chain_tone_wait_all env next (play_beep env parms p)

/-- The same concatenation, ended before the first request whose backend
selection bails out. -/
def chain_tone_wait (env : Env) : List beep_parms_t → Proc → List Event
  | [], _ => []
  | parms :: next, p =>
    match (play_beep_select env p).exited with
    | some _ => []
    | none =>
      request_tone_wait env (play_beep_select env p) parms ++
        chain_tone_wait env next (play_beep env parms p)

/-- The parse state with the requests `before` linked in front of it. -/
def ParseState.shift (before : List beep_parms_t) (st : ParseState) : ParseState :=
  { st with linked := before ++ st.linked }

/-- The parse state in which the options after a `-n` are read: nothing
linked yet in front of the fresh node. -/
def ParseState.after_new (st : ParseState) : ParseState :=
  { linked := [], result := new_parms st.result, note_format_sci := st.note_format_sci,
    proc := st.proc }

/-! ## Sample environments, states and requests -/

/-- A machine without wiringPi on which every `open` returns descriptor 3,
the descriptor is a console (the `EVIOCGSND` probe fails) and every tone
call succeeds. -/
def env_console : Env :=
  { HAVE_WIRINGPI := false, geteuid := 1000, wiringPiSetupGpio := fun _ => -1,
    system_gpio_v := fun _ => 127, wiringPiSetupSys := fun _ => -1, wpiPinToGpio := 18,
    open_result := fun _ _ => some 3, probe_ok := fun _ => false, emit_fails := fun _ => false }

/-- A console on descriptor 3, already selected, nothing observed yet. -/
def console_state : Proc :=
  { Proc.start [] with console_fd := 3 }

/-- The request every `beep` without options plays. -/
def default_request : beep_parms_t :=
  { freq := DEFAULT_FREQ, length := DEFAULT_LENGTH, reps := DEFAULT_REPS, delay := DEFAULT_DELAY,
    end_delay := DEFAULT_END_DELAY, stdin_beep := DEFAULT_STDIN_BEEP, verbose := 0 }

/-- A request whose tone length in milliseconds no longer fits 32 bits once
multiplied by 1000: `beep -l 4294968`. -/
def long_tone_request : beep_parms_t :=
  { default_request with length := 4294968 }

/-- The command line `beep -l 4294968`. -/
def long_tone_options : List Opt := [.l (some 4294968)]

/-- The command line `beep -l 100 -r 3 -D 5000000`. -/
def long_delay_options : List Opt := [.l (some 100), .r (some 3), .D (some 5000000)]

/-- A request whose delay in milliseconds no longer fits 32 bits once
multiplied by 1000: `beep -l 100 -r 3 -D 5000000`. -/
def long_delay_request : beep_parms_t :=
  { default_request with length := 100, reps := 3, delay := 5000000, end_delay := YES_END_DELAY }

/-- A request with no repetition: `beep -r 0`. -/
def no_reps_request : beep_parms_t :=
  { default_request with reps := 0 }

/-- A machine with wiringPi, run as root, on which the GPIO setup succeeds and
pin 18 is claimed. -/
def env_gpio : Env :=
  { HAVE_WIRINGPI := true, geteuid := 0, wiringPiSetupGpio := fun _ => 0,
    system_gpio_v := fun _ => 0, wiringPiSetupSys := fun _ => 0, wpiPinToGpio := 18,
    open_result := fun _ _ => none, probe_ok := fun _ => false, emit_fails := fun _ => false }

/-- The sample console state in the middle of a tone: `do_beep(440)` was the
last thing done. -/
def console_beeping : Proc :=
  do_beep env_console 440 console_state

/-- A machine on which no device can be opened. -/
def env_no_device : Env :=
  { env_console with open_result := fun _ _ => none }

/-- The state after `beep` has played its first default request on the
sample console machine. -/
def after_first_request : Proc :=
  play_beep env_console default_request (Proc.first_call none [])

/-- A console machine on which the second and the third tone call fail. -/
def env_flaky : Env :=
  { env_console with emit_fails := fun k => decide (k = 1 ∨ k = 2) }

/-- Two beeps: `beep -r 2`. -/
def two_reps_request : beep_parms_t :=
  { default_request with reps := 2 }

/-- Sample resolvers: the values do not matter where no `-k`/`-N` is given. -/
def sample_fns : FreqFns :=
  { key_to_freq := fun _ => 440, sci_note_to_freq := fun _ => 440,
    abc_note_to_freq := fun _ => 440 }

/-- A console machine whose device can be opened once only: every `open`
after the first fails. -/
def env_unplugged : Env :=
  { env_console with open_result := fun k _ => if k = 0 then some 3 else none }

/-- The command line `beep -l 50 -n -r 2`. -/
def two_request_options : List Opt := [.l (some 50), .n, .r (some 2)]

/-- The sample console machine, on which the tone `ioctl` issued on the
already closed descriptor (the third tone call of the process) fails. -/
def env_closed_descriptor : Env :=
  { env_console with emit_fails := fun k => decide (k = 2) }

/-! ## Vocabulary for the statements about the parser -/

/-- The value set by the last option of a list that sets one, `sets o`
being what the option `o` sets (`none` when it sets nothing). -/
def last_set {α : Type} (sets : Opt → Option α) : List Opt → Option α
  | [] => none
  | o :: rest =>
    match last_set sets rest with
    | some v => some v
    | none => sets o

/-- The length an accepted option sets: `-l`. -/
def Opt.sets_length : Opt → Option Int
  | .l (some v) => some v
  | _ => none

/-- The repetition count an accepted option sets: `-r`. -/
def Opt.sets_reps : Opt → Option Int
  | .r (some v) => some v
  | _ => none

/-- The delay and trailing-delay flag an accepted option sets together:
`-d` clears the flag, `-D` sets it. -/
def Opt.sets_delay : Opt → Option (Int × Int)
  | .d (some v) => some (v, NO_END_DELAY)
  | .D (some v) => some (v, YES_END_DELAY)
  | _ => none

/-- The stdin mode an option sets: `-s` and `-c`. -/
def Opt.sets_stdin_beep : Opt → Option Int
  | .s => some LINE_STDIN_BEEP
  | .c => some CHAR_STDIN_BEEP
  | _ => none

/-- The verbose flag an option sets: `--verbose` and `--debug`. -/
def Opt.sets_verbose : Opt → Option Int
  | .X => some 1
  | _ => none

/-- Whether an option sets the frequency: `-f`, `-k` and `-N`. -/
def Opt.sets_freq : Opt → Bool
  | .f _ => true
  | .k _ => true
  | .N _ => true
  | _ => false

/-- The command line `beep -l 50 -D 10 -r 4 -l 70 -d 20 -r 2`. -/
def overriding_options : List Opt :=
  [.l (some 50), .D (some 10), .r (some 4), .l (some 70), .d (some 20), .r (some 2)]

/-- How a request relates to the options given for it: every field no option
sets has its default, the verbose flag is inherited, and the frequency is the
default when no option sets it. -/
def request_has_defaults (b : List Opt) (inherited_verbose : Int) (r : beep_parms_t) : Prop :=
  r.length = (last_set Opt.sets_length b).getD DEFAULT_LENGTH
  ∧ r.reps = (last_set Opt.sets_reps b).getD DEFAULT_REPS
  ∧ (r.delay, r.end_delay) = (last_set Opt.sets_delay b).getD (DEFAULT_DELAY, DEFAULT_END_DELAY)
  ∧ r.stdin_beep = (last_set Opt.sets_stdin_beep b).getD DEFAULT_STDIN_BEEP
  ∧ r.verbose = (last_set Opt.sets_verbose b).getD inherited_verbose
  ∧ ((∀ o ∈ b, o.sets_freq = false) → r.freq = DEFAULT_FREQ)

/-! ## The two GPIO branches of `do_beep`, call by call (lines 153-184) -/

/-- The pin modes `do_beep` passes to `pinMode`. -/
inductive PinMode where
  | INPUT
  | PWM_OUTPUT
  deriving DecidableEq, Repr

/-- The wiringPi library calls of the privileged branch. -/
inductive WiringPiCall where
  | pinMode (pin : Int) (mode : PinMode)
  | pwmSetRange (range : Int)
  | pwmWrite (pin : Int) (value : Int)
  /-- The call `pwmSetMode(PWM_MODE_MS)`. -/
  | pwmSetMode_MS
  deriving DecidableEq, Repr

/-- The pin configuration step a wiringPi call requests. -/
def WiringPiCall.config : WiringPiCall → GpioOp
  | .pinMode pin .PWM_OUTPUT => .mode_pwm pin
  | .pinMode pin .INPUT => .mode_in pin
  | .pwmSetRange range => .pwm_range range
  | .pwmWrite pin value => .pwm_write pin value
  | .pwmSetMode_MS => .pwm_mode_ms

/-- The privileged branch (`!geteuid()`, lines 156-160 and 176-177): the
wiringPi calls it makes, in order. -/
def gpio_privileged (gpio_pin : Int) (freq : Int) : List WiringPiCall :=
  if freq ≠ 0 then
    let period := Int.tdiv 600000 freq
    [.pinMode gpio_pin .PWM_OUTPUT, .pwmSetRange period,
      .pwmWrite gpio_pin (Int.tdiv period 2), .pwmSetMode_MS]
  else
    [.pinMode gpio_pin .INPUT]

/-- The unprivileged branch (lines 162-173 and 179-182): the command lines
it formats with `snprintf` and hands to `system`, in order. -/
def gpio_unprivileged (gpio_pin : Int) (freq : Int) : List String :=
  if freq ≠ 0 then
    let period := Int.tdiv 600000 freq
    ["gpio -g mode " ++ toString gpio_pin ++ " pwm",
     "gpio pwmr " ++ toString period,
     "gpio -g pwm " ++ toString gpio_pin ++ " " ++ toString (Int.tdiv period 2),
     "gpio pwm-ms"]
  else
    ["gpio -g mode " ++ toString gpio_pin ++ " in"]

/-! ## `do_beep` with its divisions checked -/

/-- C integer division: `none` for the undefined division by zero. -/
def c_div (a b : Int) : Option Int :=
  if b = 0 then none else some (Int.tdiv a b)

/-- The function `do_beep` again, every `/` of the source being a `c_div`:
the state after the call together with the divisions performed (dividend and
divisor, in order), or `none` when a divisor is 0. -/
def do_beep_checked (env : Env) (freq : Int) (p : Proc) : Option (Proc × List (Int × Int)) :=
  let first : Option (Int × List (Int × Int)) :=
    if freq ≠ 0 then (c_div CLOCK_TICK_RATE freq).map (fun q => (q, [(CLOCK_TICK_RATE, freq)]))
    else some (freq, [])
  first.bind fun (period, divs) =>
    match p.console_type with
    | BEEP_TYPE_CONSOLE =>
      let p1 := { p.log (.ioctl_KIOCSOUND p.console_fd period) with n_emit := p.n_emit + 1 }
      some (if env.emit_fails p.n_emit then p1.log .bell else p1, divs)
    | BEEP_TYPE_EVDEV =>
      let p1 := { p.log (.write_SND_TONE p.console_fd freq) with n_emit := p.n_emit + 1 }
      some (if env.emit_fails p.n_emit then p1.log .bell else p1, divs)
    | BEEP_TYPE_WIRINGPI =>
      if env.HAVE_WIRINGPI then
        if freq ≠ 0 then
          (c_div 600000 freq).bind fun period =>
            (c_div period 2).map fun half =>
              let ops : List GpioOp :=
                [.mode_pwm p.gpio_pin, .pwm_range period, .pwm_write p.gpio_pin half,
                  .pwm_mode_ms]
              (if env.geteuid = 0 then p.logs (ops.map Event.wiringPi)
                else p.logs (ops.map Event.gpio_helper),
               divs ++ [(600000, freq), (period, 2)])
        else
          some (if env.geteuid = 0 then p.logs [Event.wiringPi (.mode_in p.gpio_pin)]
            else p.logs [Event.gpio_helper (.mode_in p.gpio_pin)], divs)
      else some (p, divs)

/-! ## `float` arithmetic for `pow12root2` and `key_to_freq` (lines 228-241)

A finite `float` is `mant * 2^exp`.  Products and quotients are rounded to
the 24 significant bits of IEEE-754 binary32, to nearest, ties to even; the
exponent range is not limited (no overflow to infinity, no subnormals). -/

/-- A finite `float` value, `mant * 2^exp`. -/
structure Float32 where
  mant : Int
  exp : Int
  deriving DecidableEq, Repr

/-- Number of binary digits of `n`, by halving (at most `fuel` times). -/
def bit_length_aux : Nat → Nat → Nat
  | 0, _ => 0
  | fuel + 1, n => if n = 0 then 0 else bit_length_aux fuel (n / 2) + 1

/-- Number of binary digits of `n`. -/
def bit_length (n : Nat) : Nat := bit_length_aux n n

/-- The `float` nearest to `mant * 2^exp`, ties to even. -/
def round_to_float (mant : Int) (exp : Int) : Float32 :=
  let n := mant.natAbs
  let len := bit_length n
  if len ≤ 24 then ⟨mant, exp⟩
  else
    let s := len - 24
    let q := n / 2 ^ s
    let r := n % 2 ^ s
    let half := 2 ^ (s - 1)
    let q1 := if r > half ∨ (r = half ∧ q % 2 = 1) then q + 1 else q
    ⟨if mant < 0 then -(q1 : Int) else q1, exp + s⟩

/-- The `float` product `x * y`. -/
def float_mul (x y : Float32) : Float32 :=
  round_to_float (x.mant * y.mant) (x.exp + y.exp)

/-- The `float` quotient `x / y` for `y` other than 0: the quotient is taken
to at least 26 bits, with one more bit that records a remainder, and rounded. -/
def float_div (x y : Float32) : Float32 :=
  let a := x.mant.natAbs
  let b := y.mant.natAbs
  let k := 26 + bit_length b
  let q := (a * 2 ^ k) / b
  let r := (a * 2 ^ k) % b
  let m := 2 * q + (if r = 0 then 0 else 1)
  round_to_float (if (x.mant < 0) = (y.mant < 0) then (m : Int) else -(m : Int))
    (x.exp - y.exp - k - 1)

/-- The function `roundf` (nearest integer, halves away from zero), followed
by the conversion of its integral result to `int`. -/
def roundf_to_int (x : Float32) : Int :=
  if 0 ≤ x.exp then x.mant * 2 ^ x.exp.toNat
  else
    let d := 2 ^ (-x.exp).toNat
    let q := (2 * x.mant.natAbs + d) / (2 * d)
    if x.mant < 0 then -(q : Int) else q

/-- The constant `1.0594630943592952645f`: the `float` nearest to the
decimal is `8887421 / 2^23`. -/
def TWELFTH_ROOT_OF_TWO : Float32 := ⟨8887421, -23⟩

/-- The function `pow12root2` for `n ≥ 0`: `n` factors, multiplied up from
`1.0f` as the recursion returns. -/
def pow12root2_up : Nat → Float32
  | 0 => ⟨1, 0⟩
  | n + 1 => float_mul TWELFTH_ROOT_OF_TWO (pow12root2_up n)

/-- The function `pow12root2`. -/
def pow12root2 (n : Int) : Float32 :=
  if n < 0 then float_div ⟨1, 0⟩ (pow12root2_up (-n).toNat)
  else pow12root2_up n.toNat

/-- The function `key_to_freq`. -/
def key_to_freq (key : Int) : Int :=
  roundf_to_int (float_mul ⟨440, 0⟩ (pow12root2 (key - 49)))

/-! ## Note names (lines 243-367) -/

/-- A C `int` result: the value wrapped to 32 bits, two's complement. -/
def c_int (x : Int) : Int := (x + 2147483648) % 4294967296 - 2147483648

/-- The character a `char*` points at: the first one, or NUL at the end of
the string. -/
def c_head (s : List Char) : Char := s.headD (Char.ofNat 0)

/-- The function `note_to_index`. -/
def note_to_index (raw_note : Char) : Int :=
  if raw_note = 'C' then 0
  else if raw_note = 'D' then 2
  else if raw_note = 'E' then 4
  else if raw_note = 'F' then 5
  else if raw_note = 'G' then 7
  else if raw_note = 'A' then 9
  else if raw_note = 'B' then 11
  else -1

/-- The function `isspace` of the C locale: space, tab, line feed, vertical
tab, form feed, carriage return. -/
def isspace (c : Char) : Bool :=
  c.toNat = 32 || (9 ≤ c.toNat && c.toNat ≤ 13)

/-- The value of the decimal digits a string starts with, `acc` being the
value of the digits already read. -/
def digits_value : List Char → Nat → Nat
  | [], acc => acc
  | c :: rest, acc =>
    if c.isDigit then digits_value rest (10 * acc + (c.toNat - 48)) else acc

/-- What `sscanf(s, "%d", &v)` does: input failure (it returns `EOF`),
matching failure (it returns 0), or a stored value (it returns 1). -/
inductive Scanned where
  | eof
  | no_match
  | stored (value : Int)
  deriving DecidableEq, Repr

/-- The call `sscanf(s, "%d", &v)`: white space is skipped, an optional sign
and then decimal digits are read.  The end of the string before anything was
read is an input failure; a sign without a digit after it, also at the end of
the string, is a matching failure.  The stored value is the value of the
digits (a number outside the range of `int` is not modelled). -/
def sscanf_d (s : List Char) : Scanned :=
  match s.dropWhile isspace with
  | [] => .eof
  | c :: rest =>
    if c = '-' ∨ c = '+' then
      match rest with
      | [] => .no_match
      | d :: _ =>
        if d.isDigit then
          .stored (if c = '-' then -(digits_value rest 0 : Int) else (digits_value rest 0 : Int))
        else .no_match
    else if c.isDigit then .stored (digits_value (c :: rest) 0 : Int)
    else .no_match

/-- The `key` that `sci_note_to_freq` computes on line 299, `none` when the
function returns -1 before. -/
def sci_note_key (note : List Char) : Option Int :=
  let note_index := note_to_index (c_head note)
  if note_index = -1 then none
  else
    let notep := note.tail
    let adj : Int := if c_head notep = '#' then 1 else if c_head notep = 'b' then -1 else 0
    let notep1 := if c_head notep = '#' ∨ c_head notep = 'b' then notep.tail else notep
    match sscanf_d notep1 with
    | .no_match => none
    | .eof => some (c_int (-8 + 12 * 4 + note_index + adj))
    | .stored octave =>
      if octave < 0 then none else some (c_int (-8 + 12 * octave + note_index + adj))

/-- The function `sci_note_to_freq`. -/
def sci_note_to_freq (note : String) : Int :=
  match sci_note_key note.toList with
  | none => -1
  | some key => key_to_freq key

/-- The `while(*++notep)` loop of lines 342-357 over the characters after
the note letter: the octave after the marks. -/
def abc_octave : List Char → Int → Int
  | [], octave => octave
  | c :: rest, octave =>
    abc_octave rest
      (if c = Char.ofNat 39 then octave + 1 else if c = ',' then octave - 1 else octave)

/-- The `key` that `abc_note_to_freq` computes on line 360, `none` when the
function returns -1 before. -/
def abc_note_key (note : List Char) : Option Int :=
  let adj : Int := if c_head note = '^' then 1 else if c_head note = '_' then -1 else 0
  let notep := if c_head note = '^' ∨ c_head note = '_' then note.tail else note
  let note_index :=
    if (c_head notep).isLower then note_to_index (c_head notep).toUpper
    else note_to_index (c_head notep)
  let octave : Int := if (c_head notep).isLower then 2 + 1 else 2
  if note_index < 0 then none
  else some (c_int (-8 + 12 * abc_octave notep.tail octave + note_index + adj))

/-- The function `abc_note_to_freq`. -/
def abc_note_to_freq (note : String) : Int :=
  match abc_note_key note.toList with
  | none => -1
  | some key => key_to_freq key

/-- The resolvers of the program itself. -/
def beep_fns : FreqFns :=
  { key_to_freq := key_to_freq, sci_note_to_freq := sci_note_to_freq,
    abc_note_to_freq := abc_note_to_freq }

/-- The command line `beep -N X`. -/
def bad_note_options : List Opt := [.N "X"]

/-- The command line `beep -k 116`. -/
def high_key_options : List Opt := [.k (some 116)]

/-- Length, repetition count and delay of a request are not negative. -/
def request_nonneg (r : beep_parms_t) : Prop :=
  0 ≤ r.length ∧ 0 ≤ r.reps ∧ 0 ≤ r.delay

/-- The frequency of a request lies strictly between 0 and 20000 Hz. -/
def freq_in_range (r : beep_parms_t) : Prop :=
  0 < r.freq ∧ r.freq < 20000

/-! ## Vocabulary for note names -/

/-- The seven note letters. -/
def note_letters : List Char := ['C', 'D', 'E', 'F', 'G', 'A', 'B']

/-- An accidental of a note name: none, sharp or flat. -/
inductive Accidental where
  | natural
  | sharp
  | flat
  deriving DecidableEq, Repr

/-- The number of keys an accidental adds. -/
def Accidental.adj : Accidental → Int
  | .natural => 0
  | .sharp => 1
  | .flat => -1

/-- The accidental as written in scientific notation, after the letter. -/
def Accidental.sci : Accidental → List Char
  | .natural => []
  | .sharp => ['#']
  | .flat => ['b']

/-- The accidental as written in abc notation, before the letter. -/
def Accidental.abc : Accidental → List Char
  | .natural => []
  | .sharp => ['^']
  | .flat => ['_']

/-- The scientific-notation note of a letter, an accidental and the
characters of an octave. -/
def sci_note (L : Char) (a : Accidental) (octave : List Char) : String :=
  String.mk (L :: a.sci ++ octave)

/-- A note resolves to a key: `sci_note_to_freq` computes this key and
returns the frequency of it. -/
def sci_resolves (note : String) (key : Int) : Prop :=
  sci_note_key note.toList = some key ∧ sci_note_to_freq note = key_to_freq key

/-- The mark that raises an abc note by an octave, the apostrophe. -/
def octave_up : Char := Char.ofNat 39

/-- The mark that lowers an abc note by an octave. -/
def octave_down : Char := ','

/-- The letters of abc notation: the seven note letters, in upper case and
in lower case. -/
def abc_letters : List Char := note_letters ++ note_letters.map Char.toLower

/-- The abc-notation note of an accidental, a letter (in lower case if
`lower`) and the characters after it. -/
def abc_note (a : Accidental) (L : Char) (lower : Bool) (marks : List Char) : String :=
  String.mk (a.abc ++ (if lower then L.toLower else L) :: marks)

/-- An abc note resolves to a key: `abc_note_to_freq` computes this key and
returns the frequency of it. -/
def abc_resolves (note : String) (key : Int) : Prop :=
  abc_note_key note.toList = some key ∧ abc_note_to_freq note = key_to_freq key

/-- A machine with wiringPi, run as an ordinary user, on which the `gpio`
helper is missing at the first GPIO setup attempt and present from the
second on.  Every `open` returns descriptor 3, a console; the tone calls
made after the descriptor was closed (the third call onwards) fail. -/
def env_gpio_late : Env :=
  { HAVE_WIRINGPI := true, geteuid := 1000, wiringPiSetupGpio := fun _ => -1,
    system_gpio_v := fun k => if k = 0 then 127 else 0, wiringPiSetupSys := fun _ => 0,
    wpiPinToGpio := 18, open_result := fun _ _ => some 3, probe_ok := fun _ => false,
    emit_fails := fun k => decide (2 ≤ k) }

/-- The state after `beep -n` has played its first request on that machine:
the GPIO setup failed, the console was used and closed. -/
def after_failed_setup : Proc :=
  play_beep env_gpio_late default_request (Proc.first_call none [])

/-- The command line `beep -n`. -/
def new_request_options : List Opt := [.n]

/-! # Theorems -/

/-! ## Basic facts about `do_beep` and the playback loop -/

theorem do_beep_eq (env : Env) (freq : Int) (p : Proc) :
    do_beep env freq p =
      { p with trace := p.trace ++ beep_events env p freq p.n_emit,
               n_emit := p.n_emit + emit_calls p } := by
  obtain ⟨fd, ty, dev, pin, tr, no, np, ne, ng, sin, ex⟩ := p
  cases ty
  · by_cases hf : env.emit_fails ne = true <;>
      simp [do_beep, beep_events, emission, emit_calls, Proc.log, hf]
  · by_cases hf : env.emit_fails ne = true <;>
      simp [do_beep, beep_events, emission, emit_calls, Proc.log, hf]
  · by_cases hw : env.HAVE_WIRINGPI = true <;> by_cases he : env.geteuid = 0 <;>
      simp [do_beep, beep_events, emission, emit_calls, Proc.logs, hw, he]

theorem emission_same (env : Env) {p q : Proc} (h : same_backend p q) (freq : Int) :
    emission env q freq = emission env p freq := by
  obtain ⟨h1, h2, h3⟩ := h
  simp [emission, h1, h2, h3]

theorem emit_calls_same {p q : Proc} (h : same_backend p q) : emit_calls q = emit_calls p := by
  obtain ⟨h1, _, _⟩ := h
  simp [emit_calls, h1]

theorem beep_events_same (env : Env) {p q : Proc} (h : same_backend p q) (freq : Int) (k : Nat) :
    beep_events env q freq k = beep_events env p freq k := by
  simp [beep_events, emission_same env h, emit_calls_same h]

theorem rep_events_same (env : Env) {p q : Proc} (h : same_backend p q) (parms : beep_parms_t)
    (i : Int) (k : Nat) : rep_events env q parms i k = rep_events env p parms i k := by
  simp [rep_events, beep_events_same env h, emit_calls_same h]

theorem loop_events_same (env : Env) {p q : Proc} (h : same_backend p q) (parms : beep_parms_t) :
    ∀ (n : Nat) (i : Int) (k : Nat),
      loop_events env q parms n i k = loop_events env p parms n i k := by
  intro n
  induction n with
  | zero => intro i k; rfl
  | succ n ih =>
    intro i k
    simp [loop_events, rep_events_same env h, emit_calls_same h, ih]

theorem same_backend_update (p : Proc) (t : List Event) (k : Nat) :
    same_backend p { p with trace := t, n_emit := k } := ⟨rfl, rfl, rfl⟩

/-- One repetition changes nothing but the trace and the count of tone calls,
and what it adds to the trace is `rep_events`. -/
theorem play_beep_rep_eq (env : Env) (parms : beep_parms_t) (i : Int) (p : Proc) :
    play_beep_rep env parms i p =
      { p with trace := p.trace ++ rep_events env p parms i p.n_emit,
               n_emit := p.n_emit + 2 * emit_calls p } := by
  have hs := same_backend_update p
  simp only [play_beep_rep, do_beep_eq, usleep_ms, Proc.log]
  by_cases hd : parms.end_delay ≠ 0 ∨ i + 1 < parms.reps
  · simp only [if_pos hd, rep_events, beep_events_same env (hs _ _), emit_calls_same (hs _ _),
      List.append_assoc, two_mul, Nat.add_assoc]
  · simp only [if_neg hd, rep_events, beep_events_same env (hs _ _), emit_calls_same (hs _ _),
      List.append_assoc, two_mul, Nat.add_assoc, List.append_nil]

/-- The playback loop changes nothing but the trace and the count of tone
calls, and what it adds to the trace is `loop_events`. -/
theorem play_beep_loop_eq (env : Env) (parms : beep_parms_t) :
    ∀ (n : Nat) (i : Int) (p : Proc),
      play_beep_loop env parms n i p =
        { p with trace := p.trace ++ loop_events env p parms n i p.n_emit,
                 n_emit := p.n_emit + 2 * emit_calls p * min n (parms.reps - i).toNat } := by
  intro n
  induction n with
  | zero => intro i p; simp [play_beep_loop, loop_events]
  | succ n ih =>
    intro i p
    by_cases hi : i < parms.reps
    · have hmin : min (n + 1) (parms.reps - i).toNat
          = 1 + min n (parms.reps - (i + 1)).toNat := by omega
      have hs := same_backend_update p (p.trace ++ rep_events env p parms i p.n_emit)
        (p.n_emit + 2 * emit_calls p)
      rw [play_beep_loop, if_pos hi, play_beep_rep_eq, ih, loop_events_same env hs,
        emit_calls_same hs, hmin]
      simp only [loop_events, if_pos hi, List.append_assoc, Nat.mul_add, Nat.mul_one,
        Nat.add_assoc]
    · have hz : (parms.reps - i).toNat = 0 := by omega
      simp [play_beep_loop, loop_events, hi, hz]

/-- With enough iterations allowed, the loop produces the events of the
repetitions `i .. reps-1` in order. -/
theorem loop_events_eq_flatMap (env : Env) (p : Proc) (parms : beep_parms_t) :
    ∀ (n : Nat) (i : Int) (k : Nat), (parms.reps - i).toNat ≤ n →
      loop_events env p parms n i k =
        (List.range (parms.reps - i).toNat).flatMap
          (fun j => rep_events env p parms (i + (j : Int)) (k + 2 * emit_calls p * j)) := by
  intro n
  induction n with
  | zero =>
    intro i k h
    have hz : (parms.reps - i).toNat = 0 := by omega
    simp [loop_events, hz]
  | succ n ih =>
    intro i k h
    by_cases hi : i < parms.reps
    · obtain ⟨m, hm⟩ : ∃ m, (parms.reps - i).toNat = m + 1 := ⟨(parms.reps - i).toNat - 1, by omega⟩
      have hm1 : (parms.reps - (i + 1)).toNat = m := by omega
      rw [loop_events, if_pos hi, ih (i + 1) _ (by omega), hm, hm1, List.range_succ_eq_map]
      simp only [List.flatMap_cons, List.flatMap_map, Nat.cast_zero, add_zero, Nat.mul_zero,
        Nat.add_zero]
      congr 1
      apply List.flatMap_congr
      intro j _
      simp only [Function.comp, Nat.cast_succ]
      congr 1
      · ring
      · rw [Nat.mul_succ]; omega
    · have hz : (parms.reps - i).toNat = 0 := by omega
      simp [loop_events, hi, hz]

/-- The loop as `play_beep` runs it: it adds exactly `request_events`. -/
theorem play_beep_loop_request (env : Env) (parms : beep_parms_t) (p : Proc) :
    play_beep_loop env parms parms.reps.toNat 0 p =
      { p with trace := p.trace ++ request_events env p parms,
               n_emit := p.n_emit + 2 * emit_calls p * parms.reps.toNat } := by
  rw [play_beep_loop_eq, loop_events_eq_flatMap env p parms _ 0 _ (by simp)]
  simp [request_events]

/-- Allowing more iterations than `reps` changes nothing: the loop has ended
by itself. -/
theorem play_beep_loop_fuel (env : Env) (parms : beep_parms_t) (p : Proc) (extra : Nat) :
    play_beep_loop env parms (parms.reps.toNat + extra) 0 p =
      play_beep_loop env parms parms.reps.toNat 0 p := by
  rw [play_beep_loop_eq, play_beep_loop_eq,
    loop_events_eq_flatMap env p parms _ 0 _ (by simp),
    loop_events_eq_flatMap env p parms _ 0 _ (by simp)]
  simp

/-! ## Tone commands, waits and blocking time of the loop events -/

theorem emission_isTone (env : Env) (p : Proc) (freq : Int) :
    ∀ e ∈ emission env p freq, e.isTone = true := by
  intro e he
  unfold emission at he
  cases h : p.console_type <;> simp only [h] at he
  · simp at he; subst he; rfl
  · simp at he; subst he; rfl
  · by_cases hw : env.HAVE_WIRINGPI = true <;> by_cases hu : env.geteuid = 0 <;>
      simp [hw, hu] at he <;> obtain ⟨op, _, rfl⟩ := he <;> rfl

theorem filter_emission (env : Env) (p : Proc) (freq : Int) :
    (emission env p freq).filter Event.isToneOrWait = emission env p freq := by
  rw [List.filter_eq_self]
  intro e he
  simp [Event.isToneOrWait, emission_isTone env p freq e he]

theorem filter_beep_events (env : Env) (p : Proc) (freq : Int) (k : Nat) :
    (beep_events env p freq k).filter Event.isToneOrWait = emission env p freq := by
  unfold beep_events
  rw [List.filter_append, filter_emission]
  split <;> simp [Event.isToneOrWait, Event.isTone, Event.isWait]

theorem filter_rep_events (env : Env) (p : Proc) (parms : beep_parms_t) (i : Int) (k : Nat) :
    (rep_events env p parms i k).filter Event.isToneOrWait = rep_tone_wait env p parms i := by
  unfold rep_events rep_tone_wait
  simp only [List.filter_append, filter_beep_events]
  split <;> simp [Event.isToneOrWait, Event.isTone, Event.isWait]

/-- The tone commands and waits of the whole playback loop are those of the
repetitions `0 .. reps-1`, in order, and nothing else. -/
theorem play_beep_loop_tone_wait (env : Env) (parms : beep_parms_t) (p : Proc) :
    (new_events p (play_beep_loop env parms parms.reps.toNat 0 p)).filter Event.isToneOrWait =
      (List.range parms.reps.toNat).flatMap (fun i => rep_tone_wait env p parms (i : Int)) := by
  rw [play_beep_loop_request]
  simp only [new_events, List.drop_left, request_events, List.filter_flatMap, filter_rep_events]

theorem blocking_usec_append (a b : List Event) :
    blocking_usec (a ++ b) = blocking_usec a + blocking_usec b := by
  induction a with
  | nil => simp [blocking_usec]
  | cons e a ih => cases e <;> simp [blocking_usec, ih, Nat.add_assoc]

theorem blocking_usec_of_no_wait (l : List Event) (h : ∀ e ∈ l, e.isWait = false) :
    blocking_usec l = 0 := by
  induction l with
  | nil => rfl
  | cons e l ih =>
    have he := h e (List.mem_cons_self _ _)
    have hl := ih (fun x hx => h x (List.mem_cons_of_mem _ hx))
    cases e <;> simp_all [blocking_usec, Event.isWait]

theorem blocking_usec_beep_events (env : Env) (p : Proc) (freq : Int) (k : Nat) :
    blocking_usec (beep_events env p freq k) = 0 := by
  apply blocking_usec_of_no_wait
  intro e he
  unfold beep_events at he
  rcases List.mem_append.1 he with h | h
  · have := emission_isTone env p freq e h
    cases e <;> simp_all [Event.isTone, Event.isWait]
  · split at h <;> simp at h
    subst h; rfl

theorem blocking_usec_rep_events (env : Env) (p : Proc) (parms : beep_parms_t) (i : Int)
    (k : Nat) :
    blocking_usec (rep_events env p parms i k) =
      usleep_arg parms.length +
        (if parms.end_delay ≠ 0 ∨ i + 1 < parms.reps then usleep_arg parms.delay else 0) := by
  unfold rep_events
  simp only [blocking_usec_append, blocking_usec_beep_events]
  split <;> simp [blocking_usec]

/-- Blocking time of the repetitions `i .. reps-1`: every repetition waits
for the tone length, and every repetition but the last (or every one when the
trailing delay is set) waits for the delay. -/
theorem blocking_usec_loop_events (env : Env) (p : Proc) (parms : beep_parms_t) :
    ∀ (n : Nat) (i : Int) (k : Nat), (parms.reps - i).toNat ≤ n →
      blocking_usec (loop_events env p parms n i k) =
        (parms.reps - i).toNat * usleep_arg parms.length +
          (if parms.end_delay ≠ 0 then (parms.reps - i).toNat
           else (parms.reps - i).toNat - 1) * usleep_arg parms.delay := by
  intro n
  induction n with
  | zero =>
    intro i k h
    have hz : (parms.reps - i).toNat = 0 := by omega
    simp [loop_events, hz, blocking_usec]
  | succ n ih =>
    intro i k h
    by_cases hi : i < parms.reps
    · obtain ⟨m, hm⟩ : ∃ m, (parms.reps - i).toNat = m + 1 := ⟨(parms.reps - i).toNat - 1, by omega⟩
      have hm1 : (parms.reps - (i + 1)).toNat = m := by omega
      rw [loop_events, if_pos hi, blocking_usec_append, blocking_usec_rep_events,
        ih (i + 1) _ (by omega), hm, hm1]
      by_cases hd : parms.end_delay ≠ 0
      · simp only [hd, true_or, if_true, ne_eq, not_false_eq_true]
        ring
      · have hd0 : parms.end_delay = 0 := by simpa using hd
        by_cases hl : i + 1 < parms.reps
        · obtain ⟨m2, rfl⟩ : ∃ m2, m = m2 + 1 := ⟨m - 1, by omega⟩
          simp only [hd0, hl, ne_eq, not_true_eq_false, false_or, if_true, if_false,
            Nat.add_sub_cancel]
          ring
        · have : m = 0 := by omega
          subst this
          simp [hd0, hl]
    · have hz : (parms.reps - i).toNat = 0 := by omega
      simp [loop_events, hi, hz, blocking_usec]

/-- Total blocking time of the playback loop, in microseconds. -/
theorem play_beep_loop_blocking (env : Env) (parms : beep_parms_t) (p : Proc) :
    blocking_usec (new_events p (play_beep_loop env parms parms.reps.toNat 0 p)) =
      parms.reps.toNat * usleep_arg parms.length +
        (if parms.end_delay ≠ 0 then parms.reps.toNat else parms.reps.toNat - 1) *
          usleep_arg parms.delay := by
  rw [play_beep_loop_eq]
  simp only [new_events, List.drop_left]
  rw [blocking_usec_loop_events env p parms _ 0 _ (by simp)]
  simp

/-- As long as `1000*ms` fits the 32 bits of `useconds_t`, `usleep` is asked
for exactly `ms` milliseconds. -/
theorem usleep_arg_exact (ms : Int) (h0 : 0 ≤ ms) (h1 : ms ≤ 4294967) :
    (usleep_arg ms : Int) = 1000 * ms := by
  unfold usleep_arg
  rw [Int.toNat_of_nonneg (Int.emod_nonneg _ (by norm_num))]
  exact Int.emod_eq_of_lt (by omega) (by omega)

/-- Within the range in which `1000*ms` fits the `usleep` argument, the
waits of a repetition last exactly `length` and `delay` milliseconds. -/
theorem rep_tone_wait_in_range (env : Env) (p : Proc) (parms : beep_parms_t) (i : Int)
    (hl0 : 0 ≤ parms.length) (hl1 : parms.length ≤ 4294967)
    (hd0 : 0 ≤ parms.delay) (hd1 : parms.delay ≤ 4294967) :
    rep_tone_wait env p parms i =
      emission env p (float_to_int parms.freq) ++ [Event.usleep (1000 * parms.length).toNat] ++
        emission env p 0 ++
        (if parms.end_delay ≠ 0 ∨ i + 1 < parms.reps then
          [Event.usleep (1000 * parms.delay).toNat] else []) := by
  have h1 : usleep_arg parms.length = (1000 * parms.length).toNat := by
    have := usleep_arg_exact parms.length hl0 hl1
    omega
  have h2 : usleep_arg parms.delay = (1000 * parms.delay).toNat := by
    have := usleep_arg_exact parms.delay hd0 hd1
    omega
  rw [rep_tone_wait, h1, h2]

/-- Within that range the total blocking time of a request with `reps = N > 0`
is `N*length + (N-1)*delay` milliseconds, or `N*length + N*delay` with the
trailing delay. -/
theorem play_beep_loop_blocking_in_range (env : Env) (parms : beep_parms_t) (p : Proc)
    (hr : 0 < parms.reps)
    (hl0 : 0 ≤ parms.length) (hl1 : parms.length ≤ 4294967)
    (hd0 : 0 ≤ parms.delay) (hd1 : parms.delay ≤ 4294967) :
    (blocking_usec (new_events p (play_beep_loop env parms parms.reps.toNat 0 p)) : Int) =
      1000 * (parms.reps * parms.length +
        (if parms.end_delay ≠ 0 then parms.reps else parms.reps - 1) * parms.delay) := by
  rw [play_beep_loop_blocking]
  have h1 := usleep_arg_exact parms.length hl0 hl1
  have h2 := usleep_arg_exact parms.delay hd0 hd1
  have h3 : ((parms.reps.toNat : Nat) : Int) = parms.reps := Int.toNat_of_nonneg (by omega)
  have h4 : ((parms.reps.toNat - 1 : Nat) : Int) = parms.reps - 1 := by omega
  by_cases he : parms.end_delay ≠ 0
  · simp only [he, if_true, ne_eq, not_false_eq_true]
    push_cast
    rw [h1, h2, h3]
    ring
  · simp only [he, if_false]
    rw [Nat.cast_add, Nat.cast_mul, Nat.cast_mul, h1, h2, h3, h4]
    ring

/-! ## C1, C2: the playback loop -/

/-- C1, at `beep -l 4294968`, the request {freq=440, length=4294968, reps=1,
delay=100, end_delay=false}, on a console: the playback loop performs
emit(440), a wait of 704 microseconds and emit(0).  The wait is not the
4294968 milliseconds of the request, because `1000*parms.length` does not fit
the 32 bits of the `usleep` argument. -/
theorem C1_long_tone_wait_wraps :
    (parse_command_line sample_fns "beep" long_tone_options main_parms (Proc.start [])).1
      = [long_tone_request]
    ∧ (main env_console sample_fns "beep" long_tone_options []).trace
      = [.open_dev "/dev/tty0" 3, .ioctl_EVIOCGSND 3,
         .ioctl_KIOCSOUND 3 2711, .usleep 704, .ioctl_KIOCSOUND 3 0, .close 3]
    ∧ new_events console_state
        (play_beep_loop env_console long_tone_request long_tone_request.reps.toNat 0
          console_state)
      = [.ioctl_KIOCSOUND 3 2711, .usleep 704, .ioctl_KIOCSOUND 3 0]
    ∧ (704 : Int) ≠ 1000 * long_tone_request.length := by
  decide

/-- C2, at `beep -l 100 -r 3 -D 5000000`, the request {freq=440, length=100,
reps=3, delay=5000000, end_delay=true}, on a console: the blocking waits of
`play_beep` add up to 2115398112 microseconds, not to the 3*100 + 3*5000000
milliseconds of the request, because `1000*parms.delay` does not fit the 32
bits of the `usleep` argument. -/
theorem C2_long_delay_blocking_wraps :
    (parse_command_line sample_fns "beep" long_delay_options main_parms (Proc.start [])).1
      = [long_delay_request]
    ∧ blocking_usec (main env_console sample_fns "beep" long_delay_options []).trace
      = 2115398112
    ∧ blocking_usec (new_events (Proc.start [])
        (play_beep env_console long_delay_request (Proc.start []))) = 2115398112
    ∧ (2115398112 : Int) ≠
        1000 * (long_delay_request.reps * long_delay_request.length
          + long_delay_request.reps * long_delay_request.delay) := by
  decide

/-! ## C3: the console period -/

/-- C3, refuted as stated: for the frequency 440 Hz the console backend is
sent the period 2711, while `CLOCK_TICK_RATE / 440` rounds to 2712. -/
theorem C3_period_440_not_rounded :
    new_events console_state (do_beep env_console 440 console_state)
      = [.ioctl_KIOCSOUND 3 2711]
    ∧ round ((CLOCK_TICK_RATE : ℚ) / 440) = 2712 := by
  refine ⟨by decide, ?_⟩
  rw [round_eq, Int.floor_eq_iff]
  norm_num [CLOCK_TICK_RATE]

/-- C3, amended: on the console backend `do_beep` sends the period
`floor(CLOCK_TICK_RATE / f)` (the quotient truncated, not rounded) for every
frequency `0 < f < 20000`, and the period 0 for the frequency 0; the fallback
bell follows when the `ioctl` fails. -/
theorem C3_console_period_floor (env : Env) (p : Proc) (f : Int)
    (hc : p.console_type = BEEP_TYPE_CONSOLE) (h0 : 0 < f) (h1 : f < 20000) :
    (do_beep env f p).trace =
        p.trace ++ Event.ioctl_KIOCSOUND p.console_fd ⌊(CLOCK_TICK_RATE : ℚ) / (f : ℚ)⌋ ::
          (if env.emit_fails p.n_emit = true then [Event.bell] else [])
    ∧ (do_beep env 0 p).trace =
        p.trace ++ Event.ioctl_KIOCSOUND p.console_fd 0 ::
          (if env.emit_fails p.n_emit = true then [Event.bell] else []) := by
  have hfloor : ⌊(CLOCK_TICK_RATE : ℚ) / (f : ℚ)⌋ = Int.tdiv CLOCK_TICK_RATE f := by
    obtain ⟨n, rfl⟩ : ∃ n : Nat, f = n := ⟨f.toNat, by omega⟩
    rw [Int.tdiv_eq_ediv (by decide) (by omega)]
    exact_mod_cast Rat.floor_intCast_div_natCast CLOCK_TICK_RATE n
  have hne : f ≠ 0 := by omega
  simp [do_beep_eq, beep_events, emission, emit_calls, hc, console_period, hne, hfloor]

/-- C3, amended, at the default frequency 440 Hz on a console. -/
theorem C3_console_period_floor_witness :
    (do_beep env_console 440 console_state).trace =
        console_state.trace ++
          Event.ioctl_KIOCSOUND console_state.console_fd ⌊(CLOCK_TICK_RATE : ℚ) / ((440 : Int) : ℚ)⌋ ::
          (if env_console.emit_fails console_state.n_emit = true then [Event.bell] else [])
    ∧ (do_beep env_console 0 console_state).trace =
        console_state.trace ++ Event.ioctl_KIOCSOUND console_state.console_fd 0 ::
          (if env_console.emit_fails console_state.n_emit = true then [Event.bell] else []) :=
  C3_console_period_floor env_console console_state 440 rfl (by decide) (by decide)

/-! ## Backend selection only adds selection events -/

theorem new_events_of_append (p q : Proc) (es : List Event) (h : q.trace = p.trace ++ es) :
    new_events p q = es := by
  simp [new_events, h]

/-- The trace of `q` is the trace of `p` followed by events that all
satisfy `Q`. -/
theorem adds_refl (Q : Event → Bool) (p : Proc) :
    ∃ es, p.trace = p.trace ++ es ∧ ∀ e ∈ es, Q e = true :=
  ⟨[], by simp, by simp⟩

theorem adds_trans (Q : Event → Bool) {p q r : Proc}
    (h1 : ∃ es, q.trace = p.trace ++ es ∧ ∀ e ∈ es, Q e = true)
    (h2 : ∃ es, r.trace = q.trace ++ es ∧ ∀ e ∈ es, Q e = true) :
    ∃ es, r.trace = p.trace ++ es ∧ ∀ e ∈ es, Q e = true := by
  obtain ⟨a, ha, hqa⟩ := h1
  obtain ⟨b, hb, hqb⟩ := h2
  refine ⟨a ++ b, by rw [hb, ha, List.append_assoc], ?_⟩
  intro e he
  rcases List.mem_append.1 he with h | h
  · exact hqa e h
  · exact hqb e h

theorem adds_one (Q : Event → Bool) (p q : Proc) (e : Event) (h : q.trace = p.trace ++ [e])
    (he : Q e = true) : ∃ es, q.trace = p.trace ++ es ∧ ∀ x ∈ es, Q x = true :=
  ⟨[e], h, by simpa using he⟩

theorem setup_gpio_trace (env : Env) (p : Proc) :
    ∃ es, (setup_gpio env p).2.trace = p.trace ++ es ∧ ∀ e ∈ es, e.isSelection = true := by
  unfold setup_gpio
  by_cases hp : p.gpio_pin = -1
  · by_cases hu : env.geteuid = 0
    · by_cases h1 : env.wiringPiSetupGpio p.n_gpio = 0 <;>
        simp only [hp, hu, h1, if_true, if_false, ne_eq, not_true_eq_false, not_false_eq_true] <;>
        exact adds_one _ _ _ .wiringPiSetupGpio rfl rfl
    · by_cases h1 : env.system_gpio_v p.n_gpio = 0
      · by_cases h2 : env.wiringPiSetupSys p.n_gpio = 0 <;>
          simp only [hp, hu, h1, h2, if_true, if_false, ne_eq, not_true_eq_false,
            not_false_eq_true] <;>
          exact ⟨[.system "gpio -v", .wiringPiSetupSys], by simp [Proc.log],
            by simp [Event.isSelection]⟩
      · simp only [hp, hu, h1, if_true, if_false, ne_eq, not_true_eq_false, not_false_eq_true]
        exact adds_one _ _ _ (.system "gpio -v") rfl rfl
  · simp only [hp, if_false]
    exact adds_refl _ _

theorem open_console_trace (env : Env) (path : String) (p : Proc) :
    ∃ es, (open_console env path p).trace = p.trace ++ es ∧
      ∀ e ∈ es, e.isSelection = true :=
  adds_one _ _ _ _ rfl rfl

theorem open_default_console_trace (env : Env) (p : Proc) :
    ∃ es, (open_default_console env p).trace = p.trace ++ es ∧
      ∀ e ∈ es, e.isSelection = true := by
  unfold open_default_console
  by_cases h : (open_console env "/dev/tty0" p).console_fd = -1
  · simp only [h, if_true]
    exact adds_trans _ (open_console_trace env _ p) (open_console_trace env _ _)
  · simp only [h, if_false]
    exact open_console_trace env _ p

theorem play_beep_open_trace (env : Env) (p : Proc) :
    ∃ es, (play_beep_open env p).trace = p.trace ++ es ∧ ∀ e ∈ es, e.isSelection = true := by
  unfold play_beep_open
  cases hd : p.console_device with
  | some dev => exact open_console_trace env dev p
  | none =>
    by_cases hw : env.HAVE_WIRINGPI = true
    · by_cases hr : (setup_gpio env p).1 = 0
      · simp only [hw, hr, if_true]
        exact setup_gpio_trace env p
      · simp only [hw, hr, if_true, if_false]
        exact adds_trans _ (setup_gpio_trace env p) (open_default_console_trace env _)
    · simp only [hw, if_false]
      exact open_default_console_trace env p

theorem play_beep_classify_trace (env : Env) (p : Proc) :
    ∃ es, (play_beep_classify env p).trace = p.trace ++ es ∧
      ∀ e ∈ es, e.isSelection = true := by
  unfold play_beep_classify
  by_cases h : p.console_fd = -1
  · by_cases ht : p.console_type ≠ BEEP_TYPE_WIRINGPI
    · simp only [h, ht, if_true, ne_eq, not_false_eq_true]
      exact adds_one _ _ _ .bell rfl rfl
    · simp only [h, ht, if_true, if_false]
      exact adds_refl _ _
  · by_cases hp : env.probe_ok p.n_probe = true <;> simp only [h, hp, if_true, if_false] <;>
      exact adds_one _ _ _ (.ioctl_EVIOCGSND p.console_fd) rfl rfl

theorem play_beep_select_trace (env : Env) (p : Proc) :
    ∃ es, (play_beep_select env p).trace = p.trace ++ es ∧
      ∀ e ∈ es, e.isSelection = true :=
  adds_trans _ (play_beep_open_trace env p) (play_beep_classify_trace env _)

theorem isSelection_not_tone_wait (e : Event) (h : e.isSelection = true) :
    e.isToneOrWait = false := by
  cases e <;> simp_all [Event.isSelection, Event.isToneOrWait, Event.isTone, Event.isWait]

theorem play_beep_of_exited (env : Env) (parms : beep_parms_t) (p : Proc) (st : Int)
    (h : (play_beep_select env p).exited = some st) :
    play_beep env parms p = play_beep_select env p := by
  simp only [play_beep, h]

theorem play_beep_of_running (env : Env) (parms : beep_parms_t) (p : Proc)
    (h : (play_beep_select env p).exited = none) :
    play_beep env parms p =
      (play_beep_loop env parms parms.reps.toNat 0 (play_beep_select env p)).log
        (.close (play_beep_loop env parms parms.reps.toNat 0
          (play_beep_select env p)).console_fd) := by
  simp only [play_beep, h]

/-! ## C4: a request without repetitions -/

/-- C4: for every request with `reps = 0`, in every state and environment,
the playback loop of `play_beep` runs no repetition (it returns the state
unchanged, so `do_beep` is never called), and nothing `play_beep` adds to the
trace is a tone command or a wait: its total blocking time is 0. -/
theorem C4_no_reps_no_emission (env : Env) (parms : beep_parms_t) (p : Proc)
    (h : parms.reps = 0) :
    (∀ q : Proc, play_beep_loop env parms parms.reps.toNat 0 q = q)
    ∧ (play_beep env parms p).trace = p.trace ++ new_events p (play_beep env parms p)
    ∧ (new_events p (play_beep env parms p)).filter Event.isToneOrWait = []
    ∧ blocking_usec (new_events p (play_beep env parms p)) = 0 := by
  have hloop : ∀ q : Proc, play_beep_loop env parms parms.reps.toNat 0 q = q := by
    intro q; simp [h, play_beep_loop]
  obtain ⟨es, hes, hsel⟩ := play_beep_select_trace env p
  have key : ∃ l, (play_beep env parms p).trace = p.trace ++ l ∧
      ∀ e ∈ l, e.isToneOrWait = false := by
    cases hx : (play_beep_select env p).exited with
    | some st =>
      rw [play_beep_of_exited env parms p st hx]
      exact ⟨es, hes, fun e he => isSelection_not_tone_wait e (hsel e he)⟩
    | none =>
      rw [play_beep_of_running env parms p hx]
      refine ⟨es ++ [.close (play_beep_select env p).console_fd], ?_, ?_⟩
      · simp [hloop, Proc.log, hes]
      · intro e he
        rcases List.mem_append.1 he with h1 | h1
        · exact isSelection_not_tone_wait e (hsel e h1)
        · simp at h1; subst h1; rfl
  obtain ⟨l, hl, hq⟩ := key
  have hn := new_events_of_append p _ l hl
  refine ⟨hloop, by rw [hn]; exact hl, ?_, ?_⟩
  · rw [hn, List.filter_eq_nil_iff]
    intro e he
    simp [hq e he]
  · rw [hn]
    apply blocking_usec_of_no_wait
    intro e he
    have := hq e he
    simp [Event.isToneOrWait] at this
    exact this.2

/-- C4 at `beep -r 0` on the sample console machine. -/
theorem C4_no_reps_no_emission_witness :
    (∀ q : Proc, play_beep_loop env_console no_reps_request no_reps_request.reps.toNat 0 q = q)
    ∧ (play_beep env_console no_reps_request (Proc.start [])).trace =
        (Proc.start []).trace ++
          new_events (Proc.start []) (play_beep env_console no_reps_request (Proc.start []))
    ∧ (new_events (Proc.start [])
        (play_beep env_console no_reps_request (Proc.start []))).filter Event.isToneOrWait = []
    ∧ blocking_usec (new_events (Proc.start [])
        (play_beep env_console no_reps_request (Proc.start []))) = 0 :=
  C4_no_reps_no_emission env_console no_reps_request (Proc.start []) rfl

/-! ## C5: interruption during a wait -/

theorem silence_isTone (env : Env) (p : Proc) : (silence env p).isTone = true := by
  unfold silence
  cases p.console_type <;> simp only []
  · rfl
  · rfl
  · split <;> rfl

theorem emission_zero_of_in_wait (env : Env) (p : Proc) (h : in_wait env p) :
    emission env p 0 = [silence env p] := by
  obtain ⟨_, h | ⟨ht, hw, _⟩⟩ := h
  · unfold emission silence
    cases hty : p.console_type with
    | BEEP_TYPE_CONSOLE => simp [console_period]
    | BEEP_TYPE_EVDEV => simp
    | BEEP_TYPE_WIRINGPI => exact absurd hty h.1
  · unfold emission silence
    by_cases hu : env.geteuid = 0 <;> simp [ht, hw, hu, gpio_ops]

/-- C5: in every state in which `play_beep` is blocked in a timed wait, and
for SIGINT and SIGTERM, `handle_signal` adds to the trace the silence command
of the selected backend (then the fallback bell if that command failed, then
the `close` of an open descriptor) and exits with the signal number; the
silence command is the last hardware tone command of the whole run. -/
theorem C5_signal_silences_last (env : Env) (p : Proc) (signum : Int)
    (hs : signum = SIGINT ∨ signum = SIGTERM) (hw : in_wait env p) :
    (handle_signal env signum p).exited = some signum
    ∧ (handle_signal env signum p).trace =
        p.trace ++ [silence env p] ++
          (if emit_calls p = 1 ∧ env.emit_fails p.n_emit = true then [Event.bell] else []) ++
          (if 0 ≤ p.console_fd then [Event.close p.console_fd] else [])
    ∧ last_tone (handle_signal env signum p).trace = some (silence env p) := by
  have hopen : p.console_fd ≥ 0 ∨ (env.HAVE_WIRINGPI = true ∧ p.gpio_pin ≥ 0) := by
    obtain ⟨_, h | ⟨_, h1, h2⟩⟩ := hw
    · exact Or.inl h.2
    · exact Or.inr ⟨h1, h2⟩
  have htr : (handle_signal env signum p).trace =
      p.trace ++ [silence env p] ++
        (if emit_calls p = 1 ∧ env.emit_fails p.n_emit = true then [Event.bell] else []) ++
        (if 0 ≤ p.console_fd then [Event.close p.console_fd] else []) := by
    simp only [handle_signal, hs, hopen, if_true, do_beep_eq, beep_events,
      emission_zero_of_in_wait env p hw]
    by_cases hfd : 0 ≤ p.console_fd
    · simp [hfd, Proc.log]
    · simp [hfd]
  refine ⟨?_, htr, ?_⟩
  · simp only [handle_signal, hs, hopen, if_true]
  · rw [htr, last_tone]
    simp only [List.filter_append]
    have h1 : ([silence env p]).filter Event.isTone = [silence env p] := by
      simp [silence_isTone]
    have h2 : (if emit_calls p = 1 ∧ env.emit_fails p.n_emit = true then [Event.bell]
        else []).filter Event.isTone = [] := by
      split <;> simp [Event.isTone]
    have h3 : (if 0 ≤ p.console_fd then [Event.close p.console_fd] else []).filter
        Event.isTone = [] := by
      split <;> simp [Event.isTone]
    rw [h1, h2, h3]
    simp

/-- C5 for SIGINT arriving while the sample console sounds 440 Hz. -/
theorem C5_signal_silences_last_witness :
    (handle_signal env_console SIGINT console_beeping).exited = some SIGINT
    ∧ (handle_signal env_console SIGINT console_beeping).trace =
        console_beeping.trace ++ [silence env_console console_beeping] ++
          (if emit_calls console_beeping = 1 ∧
              env_console.emit_fails console_beeping.n_emit = true then [Event.bell] else []) ++
          (if 0 ≤ console_beeping.console_fd then [Event.close console_beeping.console_fd]
           else [])
    ∧ last_tone (handle_signal env_console SIGINT console_beeping).trace =
        some (silence env_console console_beeping) :=
  C5_signal_silences_last env_console console_beeping SIGINT (Or.inl rfl)
    ⟨by decide, Or.inl ⟨by decide, by decide⟩⟩

/-! ## C6: backend selection -/

/-- Backend selection in the first `play_beep` call, compared with the
function the specification describes. -/
theorem select_first_call_spec (env : Env) (device : Option String) (stdin : List String) :
    (opened_paths (play_beep_select env (Proc.first_call device stdin)).trace,
      selected_backend (play_beep_select env (Proc.first_call device stdin)))
    = select_backend_spec device
        (env.HAVE_WIRINGPI && decide ((setup_gpio env (Proc.first_call device stdin)).1 = 0))
        env.wpiPinToGpio env.open_result (env.probe_ok 0) := by
  cases device with
  | some path =>
    cases ho : env.open_result 0 path <;> cases hp : env.probe_ok 0 <;>
      simp [play_beep_select, play_beep_open, play_beep_classify, open_console, Proc.first_call,
        Proc.start, Proc.log, select_backend_spec, opened_paths, selected_backend, ho, hp]
  | none =>
    have hdef : ∀ p0 : Proc, p0.console_type = BEEP_TYPE_CONSOLE → p0.exited = none →
        p0.n_open = 0 → p0.n_probe = 0 → opened_paths p0.trace = [] →
        (opened_paths (play_beep_classify env (open_default_console env p0)).trace,
          selected_backend (play_beep_classify env (open_default_console env p0)))
        = select_backend_spec none false env.wpiPinToGpio env.open_result (env.probe_ok 0) := by
      intro p0 hty hex hno hnp hop
      obtain ⟨fd, ty, dev, pin, tr, no, np, ne, ng, sin, ex⟩ := p0
      simp only at hty hex hno hnp hop
      subst hty hex hno hnp
      have hop2 : ∀ l : List Event, opened_paths (tr ++ l) = opened_paths l := by
        intro l
        unfold opened_paths at hop ⊢
        rw [List.filterMap_append, hop, List.nil_append]
      cases ho : env.open_result 0 "/dev/tty0" <;> cases ho1 : env.open_result 1 "/dev/vc/0" <;>
        cases hp : env.probe_ok 0 <;>
        simp [play_beep_classify, open_default_console, open_console, Proc.log,
          select_backend_spec, selected_backend, ho, ho1, hp, hop2] <;>
        simp [opened_paths]
    by_cases hw : env.HAVE_WIRINGPI = true
    · by_cases hu : env.geteuid = 0
      · by_cases h1 : env.wiringPiSetupGpio 0 = 0
        · simp [play_beep_select, play_beep_open, play_beep_classify, setup_gpio,
            Proc.first_call, Proc.start, Proc.log, select_backend_spec, opened_paths,
            selected_backend, hw, hu, h1]
        · have hs : setup_gpio env (Proc.first_call none stdin) =
              (1, { (Proc.first_call none stdin).log .wiringPiSetupGpio with n_gpio := 1 }) := by
            simp [setup_gpio, Proc.first_call, Proc.start, Proc.log, hu, h1]
          simp only [play_beep_select, play_beep_open, hs, hw]
          simpa using hdef _ rfl rfl rfl rfl (by simp [opened_paths, Proc.first_call, Proc.start, Proc.log])
      · by_cases h2 : env.system_gpio_v 0 = 0
        · by_cases h3 : env.wiringPiSetupSys 0 = 0
          · simp [play_beep_select, play_beep_open, play_beep_classify, setup_gpio,
              Proc.first_call, Proc.start, Proc.log, select_backend_spec, opened_paths,
              selected_backend, hw, hu, h2, h3]
          · have hs : setup_gpio env (Proc.first_call none stdin) =
                (1, { ((Proc.first_call none stdin).log (.system "gpio -v")).log
                  .wiringPiSetupSys with n_gpio := 1 }) := by
              simp [setup_gpio, Proc.first_call, Proc.start, Proc.log, hu, h2, h3]
            simp only [play_beep_select, play_beep_open, hs, hw]
            simpa using hdef _ rfl rfl rfl rfl
              (by simp [opened_paths, Proc.first_call, Proc.start, Proc.log])
        · have hs : setup_gpio env (Proc.first_call none stdin) =
              (1, { (Proc.first_call none stdin).log (.system "gpio -v") with n_gpio := 1 }) := by
            simp [setup_gpio, Proc.first_call, Proc.start, Proc.log, hu, h2]
          simp only [play_beep_select, play_beep_open, hs, hw]
          simpa using hdef _ rfl rfl rfl rfl
            (by simp [opened_paths, Proc.first_call, Proc.start, Proc.log])
    · have hw2 : env.HAVE_WIRINGPI = false := by simpa using hw
      simp only [play_beep_select, play_beep_open, hw2, Bool.false_and]
      exact hdef _ rfl rfl rfl rfl (by simp [opened_paths, Proc.first_call, Proc.start])

theorem opened_paths_append (a b : List Event) :
    opened_paths (a ++ b) = opened_paths a ++ opened_paths b := by
  simp [opened_paths, List.filterMap_append]

/-- What `setup_gpio` leaves alone, and that it opens nothing. -/
theorem setup_gpio_frame (env : Env) (p : Proc) :
    (setup_gpio env p).2.console_fd = p.console_fd
    ∧ (setup_gpio env p).2.console_type = p.console_type
    ∧ (setup_gpio env p).2.n_open = p.n_open
    ∧ (setup_gpio env p).2.n_probe = p.n_probe
    ∧ (setup_gpio env p).2.exited = p.exited
    ∧ ∃ es, (setup_gpio env p).2.trace = p.trace ++ es ∧ opened_paths es = [] := by
  unfold setup_gpio
  by_cases hp : p.gpio_pin = -1
  · by_cases hu : env.geteuid = 0
    · by_cases h1 : env.wiringPiSetupGpio p.n_gpio = 0 <;>
        simp only [hp, hu, h1, if_true, if_false, ne_eq, not_true_eq_false, not_false_eq_true] <;>
        exact ⟨rfl, rfl, rfl, rfl, rfl, [.wiringPiSetupGpio], rfl, rfl⟩
    · by_cases h1 : env.system_gpio_v p.n_gpio = 0
      · by_cases h2 : env.wiringPiSetupSys p.n_gpio = 0 <;>
          simp only [hp, hu, h1, h2, if_true, if_false, ne_eq, not_true_eq_false,
            not_false_eq_true] <;>
          exact ⟨rfl, rfl, rfl, rfl, rfl, [.system "gpio -v", .wiringPiSetupSys],
            by simp [Proc.log], rfl⟩
      · simp only [hp, hu, h1, if_true, if_false, ne_eq, not_false_eq_true]
        exact ⟨rfl, rfl, rfl, rfl, rfl, [.system "gpio -v"], rfl, rfl⟩
  · rw [if_neg hp]
    exact ⟨rfl, rfl, rfl, rfl, rfl, [], by simp, rfl⟩

/-- The fallback to the default consoles, compared with the function the
specification describes, in a state whose trace since `base` opened nothing. -/
theorem select_default_spec (env : Env) (p0 : Proc) (base es : List Event) (pin : Int)
    (hty : p0.console_type ≠ BEEP_TYPE_WIRINGPI) (hex : p0.exited = none)
    (htr : p0.trace = base ++ es) (hop : opened_paths es = []) :
    (opened_paths ((play_beep_classify env (open_default_console env p0)).trace.drop base.length),
      selected_backend (play_beep_classify env (open_default_console env p0)))
    = select_backend_spec none false pin (fun k => env.open_result (p0.n_open + k))
        (env.probe_ok p0.n_probe) := by
  obtain ⟨fd, ty, dev, pin0, tr, no, np, ne, ng, sin, ex⟩ := p0
  simp only at hty hex htr
  subst hex htr
  have hd : ∀ l : List Event,
      opened_paths (List.drop base.length (base ++ (es ++ l))) = opened_paths l := by
    intro l
    rw [List.drop_left, opened_paths_append, hop, List.nil_append]
  have hd2 : ∀ l : List Event, opened_paths (es ++ l) = opened_paths l := by
    intro l
    rw [opened_paths_append, hop, List.nil_append]
  cases ty
  · cases ho : env.open_result no "/dev/tty0" <;> cases ho1 : env.open_result (no + 1) "/dev/vc/0" <;>
      cases hp : env.probe_ok np <;>
      simp [play_beep_classify, open_default_console, open_console, Proc.log,
        select_backend_spec, selected_backend, ho, ho1, hp, hd, hd2] <;>
      simp [opened_paths]
  · cases ho : env.open_result no "/dev/tty0" <;> cases ho1 : env.open_result (no + 1) "/dev/vc/0" <;>
      cases hp : env.probe_ok np <;>
      simp [play_beep_classify, open_default_console, open_console, Proc.log,
        select_backend_spec, selected_backend, ho, ho1, hp, hd, hd2] <;>
      simp [opened_paths]
  · exact absurd rfl hty

/-- Backend selection in any `play_beep` call, compared with the function
the specification describes (with the `open` and probe answers of this call).
The two agree unless the call is entered with something stale that the code
never resets: the descriptor of an earlier call while the GPIO setup succeeds
(`hfd` excludes it), or the GPIO type of an earlier call while GPIO is not
selected (`hty` excludes it). -/
theorem select_spec_unless_stale (env : Env) (p : Proc) (hx : p.exited = none)
    (hfd : p.console_device = none → env.HAVE_WIRINGPI = true →
      (setup_gpio env p).1 = 0 → p.console_fd = -1)
    (hty : p.console_type = BEEP_TYPE_WIRINGPI →
      p.console_device = none ∧ env.HAVE_WIRINGPI = true ∧ (setup_gpio env p).1 = 0) :
    (opened_paths (new_events p (play_beep_select env p)),
      selected_backend (play_beep_select env p))
    = select_backend_spec p.console_device
        (env.HAVE_WIRINGPI && decide ((setup_gpio env p).1 = 0))
        (setup_gpio env p).2.gpio_pin (fun k => env.open_result (p.n_open + k))
        (env.probe_ok p.n_probe) := by
  obtain ⟨f1, f2, f3, f4, f5, es, f6, f7⟩ := setup_gpio_frame env p
  cases hd : p.console_device with
  | some path =>
    have hty2 : p.console_type ≠ BEEP_TYPE_WIRINGPI := by
      intro h
      have := (hty h).1
      rw [hd] at this
      exact absurd this (by simp)
    obtain ⟨fd, ty, dev, pin0, tr, no, np, ne, ng, sin, ex⟩ := p
    simp only at hx hd hty2
    subst hx hd
    cases ty
    · cases ho : env.open_result no path <;> cases hp : env.probe_ok np <;>
        simp [play_beep_select, play_beep_open, play_beep_classify, open_console, Proc.log,
          select_backend_spec, opened_paths, selected_backend, new_events, ho, hp]
    · cases ho : env.open_result no path <;> cases hp : env.probe_ok np <;>
        simp [play_beep_select, play_beep_open, play_beep_classify, open_console, Proc.log,
          select_backend_spec, opened_paths, selected_backend, new_events, ho, hp]
    · exact absurd rfl hty2
  | none =>
    by_cases hw : env.HAVE_WIRINGPI = true
    · by_cases hs : (setup_gpio env p).1 = 0
      · have hfd2 := hfd hd hw hs
        have hsel : play_beep_select env p
            = { (setup_gpio env p).2 with console_type := BEEP_TYPE_WIRINGPI } := by
          simp only [play_beep_select, play_beep_open, hd, hw, hs, if_true, play_beep_classify]
          rw [if_pos (by simpa [f1] using hfd2)]
          simp
        rw [hsel]
        simp [new_events, f6, opened_paths_append, f7, selected_backend, f5, hx,
          select_backend_spec, hw, hs]
      · have hty2 : p.console_type ≠ BEEP_TYPE_WIRINGPI := fun h => hs (hty h).2.2
        have hsel : play_beep_select env p
            = play_beep_classify env (open_default_console env (setup_gpio env p).2) := by
          simp only [play_beep_select, play_beep_open, hd, hw, hs, if_true, if_false]
        have h := select_default_spec env (setup_gpio env p).2 p.trace es
          (setup_gpio env p).2.gpio_pin (by rw [f2]; exact hty2) (by rw [f5]; exact hx) f6 f7
        rw [f3, f4] at h
        rw [hsel]
        simpa [new_events, hw, hs] using h
    · have hw2 : env.HAVE_WIRINGPI = false := by simpa using hw
      have hty2 : p.console_type ≠ BEEP_TYPE_WIRINGPI := fun h => hw (hty h).2.1
      have hsel : play_beep_select env p
          = play_beep_classify env (open_default_console env p) := by
        simp only [play_beep_select, play_beep_open, hd, hw2, Bool.false_eq_true, if_false]
      have h := select_default_spec env p p.trace [] (setup_gpio env p).2.gpio_pin hty2 hx
        (by simp) rfl
      rw [hsel]
      simpa [new_events, hw2] using h

set_option maxRecDepth 100000 in
/-- C6, at the second request of `beep -n` on a machine where the GPIO setup
fails before the first request and succeeds before the second: the state
between the two requests is one in which `main` calls `play_beep`, with
`console_fd` still 3 after `close(3)`.  There the GPIO setup succeeds, so the
selection the specification describes opens nothing and selects the GPIO
backend on pin 18; the code sets the GPIO type, then, `console_fd` not being
-1, probes the closed descriptor 3 and selects the console backend on it, and
sends the tone commands of the second request to the closed descriptor. -/
theorem C6_stale_descriptor_overrides_gpio :
    reachable env_gpio_late none after_failed_setup
    ∧ after_failed_setup.exited = none
    ∧ after_failed_setup.console_fd = 3
    ∧ after_failed_setup.trace.getLast? = some (.close 3)
    ∧ (setup_gpio env_gpio_late after_failed_setup).1 = 0
    ∧ select_backend_spec after_failed_setup.console_device
        (env_gpio_late.HAVE_WIRINGPI
          && decide ((setup_gpio env_gpio_late after_failed_setup).1 = 0))
        (setup_gpio env_gpio_late after_failed_setup).2.gpio_pin
        (fun k => env_gpio_late.open_result (after_failed_setup.n_open + k))
        (env_gpio_late.probe_ok after_failed_setup.n_probe)
      = ([], some (.gpio 18))
    ∧ new_events after_failed_setup (play_beep_select env_gpio_late after_failed_setup)
      = [.system "gpio -v", .wiringPiSetupSys, .ioctl_EVIOCGSND 3]
    ∧ selected_backend (play_beep_select env_gpio_late after_failed_setup)
      = some (.console 3)
    ∧ (main env_gpio_late beep_fns "beep" new_request_options []).trace
      = [.system "gpio -v", .open_dev "/dev/tty0" 3, .ioctl_EVIOCGSND 3,
         .ioctl_KIOCSOUND 3 2711, .usleep 200000, .ioctl_KIOCSOUND 3 0, .close 3,
         .system "gpio -v", .wiringPiSetupSys, .ioctl_EVIOCGSND 3,
         .ioctl_KIOCSOUND 3 2711, .bell, .usleep 200000, .ioctl_KIOCSOUND 3 0, .bell,
         .close 3]
    ∧ (main env_gpio_late beep_fns "beep" new_request_options []).exited = some 0 :=
  ⟨reachable.play _ _ (reachable.first []), by decide, by decide, by decide, by decide,
    by decide, by decide, by decide, by decide, by decide⟩

/-! ## C7: an explicit device that cannot be opened -/

theorem play_beep_select_explicit (env : Env) (p : Proc) (path : String)
    (hd : p.console_device = some path) :
    play_beep_select env p = play_beep_classify env (open_console env path p) := by
  simp only [play_beep_select, play_beep_open, hd]

theorem play_beep_loop_device (env : Env) (parms : beep_parms_t) (n : Nat) (i : Int) (p : Proc) :
    (play_beep_loop env parms n i p).console_device = p.console_device ∧
    (play_beep_loop env parms n i p).console_type = p.console_type := by
  rw [play_beep_loop_eq]
  exact ⟨rfl, rfl⟩

/-- With an explicit device the GPIO backend is never selected, in any state
in which `play_beep` is called. -/
theorem explicit_device_invariant (env : Env) (path : String) (p : Proc)
    (h : reachable env (some path) p) :
    p.console_device = some path ∧ p.console_type ≠ BEEP_TYPE_WIRINGPI := by
  induction h with
  | first stdin => exact ⟨rfl, by simp [Proc.first_call, Proc.start]⟩
  | echo text p _ ih => exact ih
  | play parms p _ ih =>
    obtain ⟨hd, ht⟩ := ih
    have hsel : (play_beep_select env p).console_device = some path ∧
        (play_beep_select env p).console_type ≠ BEEP_TYPE_WIRINGPI := by
      rw [play_beep_select_explicit env p path hd]
      unfold play_beep_classify open_console
      simp only [Proc.log]
      split_ifs <;> simp_all
    cases hx : (play_beep_select env p).exited with
    | some st => rw [play_beep_of_exited env parms p st hx]; exact hsel
    | none =>
      rw [play_beep_of_running env parms p hx]
      obtain ⟨h1, h2⟩ := play_beep_loop_device env parms parms.reps.toNat 0
        (play_beep_select env p)
      exact ⟨by simpa [Proc.log, h1] using hsel.1, by simpa [Proc.log, h2] using hsel.2⟩

/-- C7: whenever `play_beep` is called in a process given an explicit device
path and the `open` of that path fails, all that `play_beep` does is that one
`open` followed by one terminal bell on stdout (no GPIO setup, no other
`open`, no probe, no tone command, no wait), and the process exits with
status 1. -/
theorem C7_explicit_device_open_failure (env : Env) (path : String) (parms : beep_parms_t)
    (p : Proc) (hr : reachable env (some path) p)
    (hfail : env.open_result p.n_open path = none) :
    (play_beep env parms p).trace = p.trace ++ [.open_dev path (-1), .bell]
    ∧ new_events p (play_beep env parms p) = [.open_dev path (-1), .bell]
    ∧ (play_beep env parms p).exited = some 1 := by
  obtain ⟨hd, ht⟩ := explicit_device_invariant env path p hr
  have hsel : play_beep_select env p =
      { (open_console env path p).log .bell with exited := some 1 } := by
    rw [play_beep_select_explicit env p path hd]
    simp [play_beep_classify, open_console, hfail, Proc.log, ht]
  have hplay : play_beep env parms p = play_beep_select env p :=
    play_beep_of_exited env parms p 1 (by rw [hsel])
  have htr : (play_beep env parms p).trace = p.trace ++ [.open_dev path (-1), .bell] := by
    rw [hplay, hsel]
    simp [open_console, hfail, Proc.log]
  exact ⟨htr, new_events_of_append _ _ _ htr, by rw [hplay, hsel]⟩

/-- C7 at `beep -e /dev/input/event0` on a machine where no device opens. -/
theorem C7_explicit_device_open_failure_witness :
    (play_beep env_no_device default_request
        (Proc.first_call (some "/dev/input/event0") [])).trace =
      (Proc.first_call (some "/dev/input/event0") []).trace ++
        [.open_dev "/dev/input/event0" (-1), .bell]
    ∧ new_events (Proc.first_call (some "/dev/input/event0") [])
        (play_beep env_no_device default_request
          (Proc.first_call (some "/dev/input/event0") [])) =
      [.open_dev "/dev/input/event0" (-1), .bell]
    ∧ (play_beep env_no_device default_request
        (Proc.first_call (some "/dev/input/event0") [])).exited = some 1 :=
  C7_explicit_device_open_failure env_no_device "/dev/input/event0" default_request
    (Proc.first_call (some "/dev/input/event0") []) (reachable.first []) rfl

/-! ## C8: selection happens in every `play_beep` call -/

/-- What a successful selection on a console or input-event device looks
like: the last two events are the successful `open` and the probe of the
handle it returned, and the kind is what the probe says. -/
theorem play_beep_select_handle (env : Env) (p : Proc)
    (hty : p.console_type ≠ BEEP_TYPE_WIRINGPI)
    (hdev : p.console_device ≠ none ∨ env.HAVE_WIRINGPI = false)
    (hrun : (play_beep_select env p).exited = none) :
    (∃ pre path, (play_beep_select env p).trace =
        p.trace ++ pre ++ [.open_dev path (play_beep_select env p).console_fd,
          .ioctl_EVIOCGSND (play_beep_select env p).console_fd])
    ∧ 0 ≤ (play_beep_select env p).console_fd
    ∧ (play_beep_select env p).console_type ≠ BEEP_TYPE_WIRINGPI := by
  have hcl : ∀ (q : Proc) (path : String) (fd : Nat) (pre : List Event),
      q.console_type ≠ BEEP_TYPE_WIRINGPI →
      env.open_result q.n_open path = some fd →
      q.trace = p.trace ++ pre →
      (∃ pre path', (play_beep_classify env (open_console env path q)).trace =
        p.trace ++ pre ++
          [.open_dev path' (play_beep_classify env (open_console env path q)).console_fd,
           .ioctl_EVIOCGSND (play_beep_classify env (open_console env path q)).console_fd])
      ∧ 0 ≤ (play_beep_classify env (open_console env path q)).console_fd
      ∧ (play_beep_classify env (open_console env path q)).console_type ≠
          BEEP_TYPE_WIRINGPI := by
    intro q path fd pre hq ho htr
    have hne : ((fd : Int) = -1) = False := eq_false (by omega)
    by_cases hp : env.probe_ok q.n_probe = true <;>
      simp only [play_beep_classify, open_console, ho, Proc.log, hne, if_false, hp, if_true,
        htr] <;>
      exact ⟨⟨pre, path, by simp⟩, by simp, by simp⟩
  have hfail : ∀ (q : Proc) (path : String), q.console_type ≠ BEEP_TYPE_WIRINGPI →
      env.open_result q.n_open path = none →
      (play_beep_classify env (open_console env path q)).exited = some 1 := by
    intro q path hq ho
    simp [play_beep_classify, open_console, ho, Proc.log, hq]
  cases hd : p.console_device with
  | some path =>
    rw [play_beep_select_explicit env p path hd] at hrun ⊢
    cases ho : env.open_result p.n_open path with
    | none => rw [hfail p path hty ho] at hrun; cases hrun
    | some fd => exact hcl p path fd [] hty ho (by simp)
  | none =>
    have hw : env.HAVE_WIRINGPI = false := by
      rcases hdev with h | h
      · exact absurd hd h
      · exact h
    have hsel : play_beep_select env p =
        play_beep_classify env (open_default_console env p) := by
      simp [play_beep_select, play_beep_open, hd, hw]
    rw [hsel] at hrun ⊢
    cases ho : env.open_result p.n_open "/dev/tty0" with
    | some fd =>
      have hdc : open_default_console env p = open_console env "/dev/tty0" p := by
        have hne : ((fd : Int) = -1) = False := eq_false (by omega)
        simp [open_default_console, open_console, ho, hne]
      rw [hdc]
      exact hcl p _ fd [] hty ho (by simp)
    | none =>
      have hdc : open_default_console env p =
          open_console env "/dev/vc/0" (open_console env "/dev/tty0" p) := by
        simp [open_default_console, open_console, ho]
      rw [hdc] at hrun ⊢
      cases ho1 : env.open_result (open_console env "/dev/tty0" p).n_open "/dev/vc/0" with
      | none =>
        rw [hfail (open_console env "/dev/tty0" p) "/dev/vc/0" hty ho1] at hrun
        cases hrun
      | some fd =>
        exact hcl (open_console env "/dev/tty0" p) "/dev/vc/0" fd [.open_dev "/dev/tty0" (-1)]
          hty ho1
          (by simp [open_console, ho, Proc.log])

theorem bells_append (a b : List Event) : bells (a ++ b) = bells a + bells b := by
  induction a with
  | nil => simp [bells]
  | cons e a ih => cases e <;> simp [bells, ih, Nat.add_assoc]

theorem emission_notBell (env : Env) (p : Proc) (freq : Int) :
    (emission env p freq).filter Event.notBell = emission env p freq ∧
    bells (emission env p freq) = 0 := by
  have h : ∀ l : List Event, (∀ e ∈ l, e.isTone = true) →
      l.filter Event.notBell = l ∧ bells l = 0 := by
    intro l
    induction l with
    | nil => intro _; exact ⟨rfl, rfl⟩
    | cons e l ih =>
      intro hl
      have he := hl e (List.mem_cons_self _ _)
      obtain ⟨h1, h2⟩ := ih (fun x hx => hl x (List.mem_cons_of_mem _ hx))
      cases e <;> simp_all [Event.isTone, Event.notBell, bells]
  exact h _ (emission_isTone env p freq)

theorem beep_events_no_failures (env : Env) (p : Proc) (freq : Int) (k : Nat) :
    beep_events (no_failures env) p freq k = emission env p freq := by
  simp [beep_events, no_failures, emission]

theorem beep_events_notBell (env : Env) (p : Proc) (freq : Int) (k : Nat) :
    (beep_events env p freq k).filter Event.notBell = emission env p freq := by
  unfold beep_events
  rw [List.filter_append, (emission_notBell env p freq).1]
  split <;> simp [Event.notBell]

theorem beep_events_bells (env : Env) (p : Proc) (freq : Int) (k : Nat)
    (hc : p.console_type ≠ BEEP_TYPE_WIRINGPI) :
    bells (beep_events env p freq k) = if env.emit_fails k = true then 1 else 0 := by
  have h1 : emit_calls p = 1 := by
    unfold emit_calls
    cases h : p.console_type <;> simp_all
  unfold beep_events
  rw [bells_append, (emission_notBell env p freq).2, h1]
  by_cases hf : env.emit_fails k = true <;> simp [hf, bells]

theorem rep_events_notBell (env : Env) (p : Proc) (parms : beep_parms_t) (i : Int) (k : Nat) :
    (rep_events env p parms i k).filter Event.notBell =
      rep_events (no_failures env) p parms i k := by
  unfold rep_events
  simp only [List.filter_append, beep_events_notBell, beep_events_no_failures]
  split <;> simp [Event.notBell]

theorem rep_events_bells (env : Env) (p : Proc) (parms : beep_parms_t) (i : Int) (k : Nat)
    (hc : p.console_type ≠ BEEP_TYPE_WIRINGPI) :
    bells (rep_events env p parms i k) = failed_calls env k 2 := by
  have h1 : emit_calls p = 1 := by
    unfold emit_calls
    cases h : p.console_type <;> simp_all
  unfold rep_events
  have hd : bells (if parms.end_delay ≠ 0 ∨ i + 1 < parms.reps then
      [Event.usleep (usleep_arg parms.delay)] else []) = 0 := by
    split <;> rfl
  simp only [bells_append, beep_events_bells env p _ _ hc, h1, failed_calls, hd]
  simp [bells]

theorem failed_calls_add (env : Env) (k a b : Nat) :
    failed_calls env k (a + b) = failed_calls env k a + failed_calls env (k + a) b := by
  induction a generalizing k with
  | zero => simp [failed_calls]
  | succ a ih =>
    have : a + 1 + b = (a + b) + 1 := by omega
    rw [this, failed_calls, failed_calls, ih (k + 1)]
    have h2 : k + 1 + a = k + (a + 1) := by omega
    rw [h2, Nat.add_assoc]

theorem loop_events_notBell (env : Env) (p : Proc) (parms : beep_parms_t) :
    ∀ (n : Nat) (i : Int) (k : Nat),
      (loop_events env p parms n i k).filter Event.notBell =
        loop_events (no_failures env) p parms n i k := by
  intro n
  induction n with
  | zero => intro i k; simp [loop_events]
  | succ n ih =>
    intro i k
    by_cases hi : i < parms.reps
    · simp only [loop_events, if_pos hi, List.filter_append, rep_events_notBell, ih]
    · simp [loop_events, hi]

theorem loop_events_bells (env : Env) (p : Proc) (parms : beep_parms_t)
    (hc : p.console_type ≠ BEEP_TYPE_WIRINGPI) :
    ∀ (n : Nat) (i : Int) (k : Nat), (parms.reps - i).toNat ≤ n →
      bells (loop_events env p parms n i k) =
        failed_calls env k (2 * (parms.reps - i).toNat) := by
  have h1 : emit_calls p = 1 := by
    unfold emit_calls
    cases h : p.console_type <;> simp_all
  intro n
  induction n with
  | zero =>
    intro i k h
    have hz : (parms.reps - i).toNat = 0 := by omega
    simp [loop_events, hz, bells, failed_calls]
  | succ n ih =>
    intro i k h
    by_cases hi : i < parms.reps
    · obtain ⟨m, hm⟩ : ∃ m, (parms.reps - i).toNat = m + 1 := ⟨(parms.reps - i).toNat - 1, by omega⟩
      have hm1 : (parms.reps - (i + 1)).toNat = m := by omega
      have h2 : 2 * (m + 1) = 2 + 2 * m := by omega
      rw [loop_events, if_pos hi, bells_append, rep_events_bells env p parms i k hc,
        ih (i + 1) _ (by omega), hm, hm1, h1, h2, failed_calls_add]
    · have hz : (parms.reps - i).toNat = 0 := by omega
      simp [loop_events, hi, hz, bells, failed_calls]

/-- C10: on a console or input-event backend, and for every pattern of
failing tone calls, the playback loop adds to the trace exactly what it adds
when every call succeeds, plus one terminal bell for each failed call (placed
right after the failed command, as `request_events` spells out): removing the
bells gives the trace of the run without failures, so no repetition, tone
command or wait is skipped or added, and the number of bells is the number of
failed calls among the `2 * reps` tone calls of the request. -/
theorem C10_emission_failure_is_isolated (env : Env) (parms : beep_parms_t) (p : Proc)
    (hc : p.console_type ≠ BEEP_TYPE_WIRINGPI) :
    new_events p (play_beep_loop env parms parms.reps.toNat 0 p) = request_events env p parms
    ∧ (new_events p (play_beep_loop env parms parms.reps.toNat 0 p)).filter Event.notBell =
        new_events p (play_beep_loop (no_failures env) parms parms.reps.toNat 0 p)
    ∧ (new_events p (play_beep_loop env parms parms.reps.toNat 0 p)).filter Event.isToneOrWait =
        (new_events p (play_beep_loop (no_failures env) parms parms.reps.toNat 0 p)).filter
          Event.isToneOrWait
    ∧ bells (new_events p (play_beep_loop env parms parms.reps.toNat 0 p)) =
        failed_calls env p.n_emit (2 * parms.reps.toNat)
    ∧ bells (new_events p (play_beep_loop (no_failures env) parms parms.reps.toNat 0 p)) = 0 := by
  have hnew : ∀ e : Env, new_events p (play_beep_loop e parms parms.reps.toNat 0 p) =
      loop_events e p parms parms.reps.toNat 0 p.n_emit := by
    intro e
    rw [play_beep_loop_eq]
    simp [new_events]
  have hz : ∀ k n, failed_calls (no_failures env) k n = 0 := by
    intro k n
    induction n generalizing k with
    | zero => rfl
    | succ n ih =>
      rw [failed_calls, ih]
      rfl
  refine ⟨?_, ?_, ?_, ?_, ?_⟩
  · rw [play_beep_loop_request]; simp [new_events]
  · rw [hnew, hnew, loop_events_notBell]
  · rw [play_beep_loop_tone_wait, play_beep_loop_tone_wait]
    rfl
  · rw [hnew, loop_events_bells env p parms hc _ 0 _ (by simp)]
    simp
  · rw [hnew, loop_events_bells (no_failures env) p parms hc _ 0 _ (by simp), hz]

/-- C10 at `beep -r 2` on a console whose second and third tone call fail. -/
theorem C10_emission_failure_is_isolated_witness :
    new_events console_state
        (play_beep_loop env_flaky two_reps_request two_reps_request.reps.toNat 0 console_state)
      = request_events env_flaky console_state two_reps_request
    ∧ (new_events console_state
        (play_beep_loop env_flaky two_reps_request two_reps_request.reps.toNat 0
          console_state)).filter Event.notBell =
        new_events console_state
          (play_beep_loop (no_failures env_flaky) two_reps_request
            two_reps_request.reps.toNat 0 console_state)
    ∧ (new_events console_state
        (play_beep_loop env_flaky two_reps_request two_reps_request.reps.toNat 0
          console_state)).filter Event.isToneOrWait =
        (new_events console_state
          (play_beep_loop (no_failures env_flaky) two_reps_request
            two_reps_request.reps.toNat 0 console_state)).filter Event.isToneOrWait
    ∧ bells (new_events console_state
        (play_beep_loop env_flaky two_reps_request two_reps_request.reps.toNat 0
          console_state)) =
        failed_calls env_flaky console_state.n_emit (2 * two_reps_request.reps.toNat)
    ∧ bells (new_events console_state
        (play_beep_loop (no_failures env_flaky) two_reps_request
          two_reps_request.reps.toNat 0 console_state)) = 0 :=
  C10_emission_failure_is_isolated env_flaky two_reps_request console_state (by decide)

/-! ## C9: chained requests -/

/-- C9, refuted as stated: `beep -n` specifies two default requests, but on a
machine where the device opens only once the second request is never played;
the run ends with status 1 after the tone commands and waits of the first
request, which is not the concatenation of the traces of both requests. -/
theorem C9_second_request_not_played :
    (parse_command_line sample_fns "beep" [.n] main_parms (Proc.start [])).1
      = [default_request, default_request]
    ∧ (main env_unplugged sample_fns "beep" [.n] []).trace
      = [.open_dev "/dev/tty0" 3, .ioctl_EVIOCGSND 3,
         .ioctl_KIOCSOUND 3 2711, .usleep 200000, .ioctl_KIOCSOUND 3 0, .close 3,
         .open_dev "/dev/tty0" (-1), .open_dev "/dev/vc/0" (-1), .bell]
    ∧ (main env_unplugged sample_fns "beep" [.n] []).exited = some 1
    ∧ (main env_unplugged sample_fns "beep" [.n] []).trace.filter Event.isToneOrWait
      ≠ chain_tone_wait_all env_unplugged [default_request, default_request] (Proc.start []) := by
  decide

theorem parse_options_append (fns : FreqFns) (name : String) (a b : List Opt) :
    ∀ st : ParseState, st.proc.exited = none →
      parse_options fns name (a ++ b) st =
        match (parse_options fns name a st).proc.exited with
        | some _ => parse_options fns name a st
        | none => parse_options fns name b (parse_options fns name a st) := by
  induction a with
  | nil => intro st h; simp [parse_options, h]
  | cons o a ih =>
    intro st _
    cases hx : (parse_option fns name st o).proc.exited with
    | some v => simp [parse_options, hx]
    | none => simp only [List.cons_append, parse_options, hx]; exact ih _ hx

theorem parse_option_shift (fns : FreqFns) (name : String) (before : List beep_parms_t)
    (st : ParseState) (o : Opt) :
    parse_option fns name (st.shift before) o = (parse_option fns name st o).shift before := by
  cases o with
  | f a =>
    cases a with
    | none => rfl
    | some v => simp only [parse_option, ParseState.shift]; split <;> rfl
  | k a =>
    cases a with
    | none => rfl
    | some v => simp only [parse_option, ParseState.shift]; split <;> rfl
  | l a =>
    cases a with
    | none => rfl
    | some v => simp only [parse_option, ParseState.shift]; split <;> rfl
  | r a =>
    cases a with
    | none => rfl
    | some v => simp only [parse_option, ParseState.shift]; split <;> rfl
  | d a =>
    cases a with
    | none => rfl
    | some v => simp only [parse_option, ParseState.shift]; split <;> rfl
  | D a =>
    cases a with
    | none => rfl
    | some v => simp only [parse_option, ParseState.shift]; split <;> rfl
  | F a => simp only [parse_option, ParseState.shift]; split_ifs <;> rfl
  | n => simp [parse_option, ParseState.shift]
  | N a => rfl
  | s => rfl
  | c => rfl
  | V => rfl
  | X => rfl
  | e a => rfl
  | h => rfl

theorem parse_options_shift (fns : FreqFns) (name : String) (before : List beep_parms_t)
    (opts : List Opt) :
    ∀ st : ParseState,
      parse_options fns name opts (st.shift before) =
        (parse_options fns name opts st).shift before := by
  induction opts with
  | nil => intro st; rfl
  | cons o opts ih =>
    intro st
    simp only [parse_options, parse_option_shift]
    have hx : ((parse_option fns name st o).shift before).proc.exited =
        (parse_option fns name st o).proc.exited := rfl
    rw [hx]
    cases (parse_option fns name st o).proc.exited with
    | some v => rfl
    | none => exact ih _

theorem chain_shift (before : List beep_parms_t) (st : ParseState) :
    (st.shift before).chain = before ++ st.chain := by
  unfold ParseState.chain ParseState.shift
  cases st.proc.exited <;> simp

/-- The requests given before a `-n` come first in the chain, in the order
in which they were given, and the requests given after it follow. -/
theorem parse_options_new (fns : FreqFns) (name : String) (a b : List Opt)
    (st : ParseState) (h0 : st.proc.exited = none)
    (ha : (parse_options fns name a st).proc.exited = none) :
    (parse_options fns name (a ++ Opt.n :: b) st).chain =
      (parse_options fns name a st).chain ++
        (parse_options fns name b (parse_options fns name a st).after_new).chain := by
  rw [parse_options_append fns name a _ st h0]
  simp only [ha]
  have hn : parse_option fns name (parse_options fns name a st) Opt.n =
      (parse_options fns name a st).after_new.shift
        ((parse_options fns name a st).linked ++
          [default_freq (parse_options fns name a st).result]) := by
    simp [parse_option, ParseState.shift, ParseState.after_new]
  have hx : (parse_option fns name (parse_options fns name a st) Opt.n).proc.exited = none := by
    rw [hn]; exact ha
  simp only [parse_options, hx]
  rw [hn, parse_options_shift, chain_shift]
  simp [ParseState.chain, ha]

theorem play_beep_exited (env : Env) (parms : beep_parms_t) (p : Proc) :
    (play_beep env parms p).exited = (play_beep_select env p).exited := by
  cases hx : (play_beep_select env p).exited with
  | some st => rw [play_beep_of_exited env parms p st hx, hx]
  | none =>
    rw [play_beep_of_running env parms p hx, play_beep_loop_eq]
    exact hx

/-- What one `play_beep` call adds to the trace, reduced to tone commands
and waits: nothing when the selection bails out, else the events of the
request on the selected backend. -/
theorem play_beep_tone_wait (env : Env) (parms : beep_parms_t) (p : Proc) :
    (play_beep env parms p).trace = p.trace ++ new_events p (play_beep env parms p)
    ∧ (new_events p (play_beep env parms p)).filter Event.isToneOrWait =
        match (play_beep_select env p).exited with
        | some _ => []
        | none => request_tone_wait env (play_beep_select env p) parms := by
  obtain ⟨es, hes, hsel⟩ := play_beep_select_trace env p
  have hes0 : es.filter Event.isToneOrWait = [] := by
    rw [List.filter_eq_nil_iff]
    intro e he
    simp [isSelection_not_tone_wait e (hsel e he)]
  cases hx : (play_beep_select env p).exited with
  | some st =>
    rw [play_beep_of_exited env parms p st hx]
    rw [new_events_of_append p _ es hes]
    exact ⟨hes, hes0⟩
  | none =>
    have htr : (play_beep env parms p).trace =
        p.trace ++ (es ++ request_events env (play_beep_select env p) parms ++
          [.close (play_beep_select env p).console_fd]) := by
      rw [play_beep_of_running env parms p hx, play_beep_loop_request]
      simp [Proc.log, hes]
    rw [new_events_of_append p _ _ htr]
    refine ⟨htr, ?_⟩
    simp only [List.filter_append, hes0, List.nil_append, request_events, List.filter_flatMap,
      filter_rep_events, request_tone_wait]
    simp [Event.isToneOrWait, Event.isTone, Event.isWait]

/-- The chain loop of `main`, for requests without stdin triggers: the tone
commands and waits it adds are those of the requests, in chain order, up to
the first request whose backend selection bails out. -/
theorem main_loop_tone_wait (env : Env) :
    ∀ (chain : List beep_parms_t) (p : Proc), (∀ r ∈ chain, r.stdin_beep = NO_STDIN_BEEP) →
      (main_loop env chain p).trace = p.trace ++ new_events p (main_loop env chain p)
      ∧ (new_events p (main_loop env chain p)).filter Event.isToneOrWait =
          chain_tone_wait env chain p := by
  intro chain
  induction chain with
  | nil => intro p _; simp [main_loop, new_events, chain_tone_wait]
  | cons r next ih =>
    intro p hns
    have hr : r.stdin_beep = 0 := hns r (List.mem_cons_self _ _)
    obtain ⟨h1, h2⟩ := play_beep_tone_wait env r p
    have hex := play_beep_exited env r p
    simp only [main_loop, hr, ne_eq, not_true_eq_false, if_false, chain_tone_wait]
    cases hx : (play_beep_select env p).exited with
    | some st =>
      rw [hx] at hex h2
      simp only [hex]
      exact ⟨h1, h2⟩
    | none =>
      rw [hx] at hex h2
      simp only [hex]
      obtain ⟨i1, i2⟩ := ih (play_beep env r p) (fun q hq => hns q (List.mem_cons_of_mem _ hq))
      have htr : (main_loop env next (play_beep env r p)).trace =
          p.trace ++ (new_events p (play_beep env r p) ++
            new_events (play_beep env r p) (main_loop env next (play_beep env r p))) := by
        rw [i1]
        conv_lhs => rw [h1]
        rw [List.append_assoc]
      rw [new_events_of_append p _ _ htr]
      exact ⟨htr, by rw [List.filter_append, h2, i2]⟩

/-- When the chain loop ends without an exit, every request was played. -/
theorem chain_tone_wait_complete (env : Env) :
    ∀ (chain : List beep_parms_t) (p : Proc), (∀ r ∈ chain, r.stdin_beep = NO_STDIN_BEEP) →
      (main_loop env chain p).exited = none →
      chain_tone_wait env chain p = chain_tone_wait_all env chain p := by
  intro chain
  induction chain with
  | nil => intro p _ _; rfl
  | cons r next ih =>
    intro p hns hrun
    have hr : r.stdin_beep = 0 := hns r (List.mem_cons_self _ _)
    have hex := play_beep_exited env r p
    simp only [main_loop, hr, ne_eq, not_true_eq_false, if_false] at hrun
    simp only [chain_tone_wait, chain_tone_wait_all]
    cases hx : (play_beep_select env p).exited with
    | some st =>
      rw [hx] at hex
      simp only [hex] at hrun
      cases hrun
    | none =>
      rw [hx] at hex
      simp only [hex] at hrun
      simp only []
      rw [ih (play_beep env r p) (fun q hq => hns q (List.mem_cons_of_mem _ hq)) hrun]

theorem parse_option_running (fns : FreqFns) (name : String) (st : ParseState) (o : Opt)
    (h : (parse_option fns name st o).proc.exited = none) :
    (parse_option fns name st o).proc.trace = st.proc.trace ∧ st.proc.exited = none := by
  cases o with
  | f a =>
    cases a with
    | none => exact absurd h (by simp [parse_option, usage_bail])
    | some v =>
      simp only [parse_option] at h ⊢
      split at h
      · exact absurd h (by simp [usage_bail])
      · rw [if_neg (by assumption)]; exact ⟨rfl, h⟩
  | k a =>
    cases a with
    | none => exact absurd h (by simp [parse_option, usage_bail])
    | some v =>
      simp only [parse_option] at h ⊢
      split at h
      · exact absurd h (by simp [usage_bail])
      · rw [if_neg (by assumption)]; exact ⟨rfl, h⟩
  | l a =>
    cases a with
    | none => exact absurd h (by simp [parse_option, usage_bail])
    | some v =>
      simp only [parse_option] at h ⊢
      split at h
      · exact absurd h (by simp [usage_bail])
      · rw [if_neg (by assumption)]; exact ⟨rfl, h⟩
  | r a =>
    cases a with
    | none => exact absurd h (by simp [parse_option, usage_bail])
    | some v =>
      simp only [parse_option] at h ⊢
      split at h
      · exact absurd h (by simp [usage_bail])
      · rw [if_neg (by assumption)]; exact ⟨rfl, h⟩
  | d a =>
    cases a with
    | none => exact absurd h (by simp [parse_option, usage_bail])
    | some v =>
      simp only [parse_option] at h ⊢
      split at h
      · exact absurd h (by simp [usage_bail])
      · rw [if_neg (by assumption)]; exact ⟨rfl, h⟩
  | D a =>
    cases a with
    | none => exact absurd h (by simp [parse_option, usage_bail])
    | some v =>
      simp only [parse_option] at h ⊢
      split at h
      · exact absurd h (by simp [usage_bail])
      · rw [if_neg (by assumption)]; exact ⟨rfl, h⟩
  | F a =>
    simp only [parse_option] at h ⊢
    split_ifs at h ⊢ <;> exact ⟨rfl, h⟩
  | N a => exact ⟨rfl, h⟩
  | s => exact ⟨rfl, h⟩
  | c => exact ⟨rfl, h⟩
  | V => exact absurd h (by simp [parse_option])
  | n => exact ⟨rfl, h⟩
  | X => exact ⟨rfl, h⟩
  | e a => exact ⟨rfl, h⟩
  | h => exact absurd h (by simp [parse_option, usage_bail])

/-- A parse that ends without an exit has written nothing to stdout. -/
theorem parse_options_running (fns : FreqFns) (name : String) (opts : List Opt) :
    ∀ st : ParseState, st.proc.exited = none →
      (parse_options fns name opts st).proc.exited = none →
      (parse_options fns name opts st).proc.trace = st.proc.trace := by
  induction opts with
  | nil => intro st _ _; rfl
  | cons o opts ih =>
    intro st h0 h
    simp only [parse_options] at h ⊢
    cases hx : (parse_option fns name st o).proc.exited with
    | some v => rw [hx] at h; simp only [] at h; rw [hx] at h; cases h
    | none =>
      rw [hx] at h
      simp only [] at h ⊢
      rw [ih _ hx h]
      exact (parse_option_running fns name st o hx).1

/-- A parse that ends without an exit had not exited after any of its
leading options. -/
theorem parse_options_running_left (fns : FreqFns) (name : String) (a b : List Opt)
    (st : ParseState) (h0 : st.proc.exited = none)
    (h : (parse_options fns name (a ++ b) st).proc.exited = none) :
    (parse_options fns name a st).proc.exited = none := by
  rw [parse_options_append fns name a b st h0] at h
  cases hx : (parse_options fns name a st).proc.exited with
  | none => rfl
  | some v => rw [hx] at h; simp only [] at h; rw [hx] at h; cases h

theorem setup_gpio_exited (env : Env) (p : Proc) :
    (setup_gpio env p).2.exited = p.exited := by
  simp only [setup_gpio]
  split_ifs <;> rfl

theorem open_default_console_exited (env : Env) (p : Proc) :
    (open_default_console env p).exited = p.exited := by
  simp only [open_default_console]
  split_ifs <;> rfl

theorem play_beep_open_exited (env : Env) (p : Proc) :
    (play_beep_open env p).exited = p.exited := by
  unfold play_beep_open
  cases p.console_device with
  | some dev => rfl
  | none =>
    simp only []
    split_ifs
    · exact setup_gpio_exited env p
    · rw [open_default_console_exited]; exact setup_gpio_exited env p
    · exact open_default_console_exited env p

/-- The only exit inside `play_beep` is the `exit(1)` of a failed open. -/
theorem play_beep_select_status (env : Env) (p : Proc) (h : p.exited = none) :
    (play_beep_select env p).exited = none ∨ (play_beep_select env p).exited = some 1 := by
  have ho := play_beep_open_exited env p
  rw [h] at ho
  unfold play_beep_select play_beep_classify
  split_ifs
  · exact Or.inr rfl
  · exact Or.inl ho
  · exact Or.inl ho
  · exact Or.inl ho

theorem main_loop_status (env : Env) :
    ∀ (chain : List beep_parms_t) (p : Proc), (∀ r ∈ chain, r.stdin_beep = NO_STDIN_BEEP) →
      p.exited = none →
      (main_loop env chain p).exited = none ∨ (main_loop env chain p).exited = some 1 := by
  intro chain
  induction chain with
  | nil => intro p _ h; exact Or.inl h
  | cons r next ih =>
    intro p hns h
    have hr : r.stdin_beep = 0 := hns r (List.mem_cons_self _ _)
    have hex := play_beep_exited env r p
    simp only [main_loop, hr, ne_eq, not_true_eq_false, if_false]
    rcases play_beep_select_status env p h with hx | hx
    · rw [hx] at hex
      simp only [hex]
      exact ih _ (fun q hq => hns q (List.mem_cons_of_mem _ hq)) hex
    · rw [hx] at hex
      simp [hex]

/-- C9, amended: for every command line that `parse_command_line` accepts
and that requests no stdin triggers, (1) the requests given before a `-n` are
linked before those given after it, each group in command-line order; (2) the
tone commands and waits of the whole run are the concatenation, in chain
order, of those of the individual requests, up to the first request whose
backend open fails: the run ends there, with status 1; (3) when the run ends
with status 0, no open has failed and the concatenation runs over all the
requests. -/
theorem C9_chain_played_in_order (env : Env) (fns : FreqFns) (name : String)
    (opts : List Opt) (stdin : List String)
    (hparse : (parse_command_line fns name opts main_parms (Proc.start stdin)).2.exited = none)
    (hns : ∀ r ∈ (parse_command_line fns name opts main_parms (Proc.start stdin)).1,
      r.stdin_beep = NO_STDIN_BEEP) :
    (∀ a b, opts = a ++ Opt.n :: b →
      (parse_command_line fns name opts main_parms (Proc.start stdin)).1 =
        (parse_command_line fns name a main_parms (Proc.start stdin)).1 ++
          (parse_options fns name b
            (parse_options fns name a (ParseState.initial stdin)).after_new).chain)
    ∧ (main env fns name opts stdin).trace.filter Event.isToneOrWait =
        chain_tone_wait env (parse_command_line fns name opts main_parms (Proc.start stdin)).1
          (parse_command_line fns name opts main_parms (Proc.start stdin)).2
    ∧ ((main env fns name opts stdin).exited = some 0 ∨
        (main env fns name opts stdin).exited = some 1)
    ∧ ((main env fns name opts stdin).exited = some 0 →
        (main env fns name opts stdin).trace.filter Event.isToneOrWait =
          chain_tone_wait_all env
            (parse_command_line fns name opts main_parms (Proc.start stdin)).1
            (parse_command_line fns name opts main_parms (Proc.start stdin)).2) := by
  have htr0 : (parse_command_line fns name opts main_parms (Proc.start stdin)).2.trace = [] :=
    parse_options_running fns name opts (ParseState.initial stdin) rfl hparse
  obtain ⟨h1, h2⟩ := main_loop_tone_wait env _
    (parse_command_line fns name opts main_parms (Proc.start stdin)).2 hns
  rw [htr0, List.nil_append] at h1
  have hmain : (main env fns name opts stdin).trace =
      (main_loop env (parse_command_line fns name opts main_parms (Proc.start stdin)).1
        (parse_command_line fns name opts main_parms (Proc.start stdin)).2).trace := by
    simp only [main, hparse]
    cases (main_loop env (parse_command_line fns name opts main_parms (Proc.start stdin)).1
        (parse_command_line fns name opts main_parms (Proc.start stdin)).2).exited <;> rfl
  have hfilter : (main env fns name opts stdin).trace.filter Event.isToneOrWait =
      chain_tone_wait env (parse_command_line fns name opts main_parms (Proc.start stdin)).1
        (parse_command_line fns name opts main_parms (Proc.start stdin)).2 := by
    rw [hmain, h1, h2]
  refine ⟨?_, hfilter, ?_, ?_⟩
  · intro a b hab
    subst hab
    have ha := parse_options_running_left fns name a (Opt.n :: b) (ParseState.initial stdin)
      rfl hparse
    exact parse_options_new fns name a b (ParseState.initial stdin) rfl ha
  · simp only [main, hparse]
    rcases main_loop_status env _ _ hns hparse with hx | hx
    · simp [hx]
    · simp [hx]
  · intro h0
    rw [hfilter]
    apply chain_tone_wait_complete env _ _ hns
    simp only [main, hparse] at h0
    rcases main_loop_status env _ _ hns hparse with hx | hx
    · exact hx
    · simp [hx] at h0

/-- C9, amended, at `beep -l 50 -n -r 2` on the sample console machine. -/
theorem C9_chain_played_in_order_witness :
    (∀ a b, two_request_options = a ++ Opt.n :: b →
      (parse_command_line sample_fns "beep" two_request_options main_parms (Proc.start [])).1 =
        (parse_command_line sample_fns "beep" a main_parms (Proc.start [])).1 ++
          (parse_options sample_fns "beep" b
            (parse_options sample_fns "beep" a (ParseState.initial [])).after_new).chain)
    ∧ (main env_console sample_fns "beep" two_request_options []).trace.filter
          Event.isToneOrWait =
        chain_tone_wait env_console
          (parse_command_line sample_fns "beep" two_request_options main_parms (Proc.start [])).1
          (parse_command_line sample_fns "beep" two_request_options main_parms (Proc.start [])).2
    ∧ ((main env_console sample_fns "beep" two_request_options []).exited = some 0 ∨
        (main env_console sample_fns "beep" two_request_options []).exited = some 1)
    ∧ ((main env_console sample_fns "beep" two_request_options []).exited = some 0 →
        (main env_console sample_fns "beep" two_request_options []).trace.filter
            Event.isToneOrWait =
          chain_tone_wait_all env_console
            (parse_command_line sample_fns "beep" two_request_options main_parms
              (Proc.start [])).1
            (parse_command_line sample_fns "beep" two_request_options main_parms
              (Proc.start [])).2) :=
  C9_chain_played_in_order env_console sample_fns "beep" two_request_options []
    (by decide) (by decide)

/-! ## The states of C5 are those of the timed waits -/

/-- After a successful selection on a console or input-event machine the
process is in a state of the kind C5 speaks about. -/
theorem in_wait_of_select_handle (env : Env) (p : Proc)
    (hty : p.console_type ≠ BEEP_TYPE_WIRINGPI)
    (hdev : p.console_device ≠ none ∨ env.HAVE_WIRINGPI = false)
    (hrun : (play_beep_select env p).exited = none) :
    in_wait env (play_beep_select env p) := by
  obtain ⟨_, h2, h3⟩ := play_beep_select_handle env p hty hdev hrun
  exact ⟨hrun, Or.inl ⟨h3, h2⟩⟩

/-- After a successful GPIO setup in the first `play_beep` call, with a pin
number that is not negative, the process is in such a state too. -/
theorem in_wait_of_select_gpio (env : Env) (stdin : List String)
    (hw : env.HAVE_WIRINGPI = true)
    (hs : (setup_gpio env (Proc.first_call none stdin)).1 = 0)
    (hpin : 0 ≤ env.wpiPinToGpio) :
    in_wait env (play_beep_select env (Proc.first_call none stdin)) := by
  have h := select_first_call_spec env none stdin
  simp only [hw, hs, decide_True, Bool.and_self, select_backend_spec, if_true] at h
  have hb := (Prod.mk.injEq _ _ _ _).mp h |>.2
  unfold selected_backend at hb
  cases hx : (play_beep_select env (Proc.first_call none stdin)).exited with
  | some v => rw [hx] at hb; cases hb
  | none =>
    rw [hx] at hb
    cases hty : (play_beep_select env (Proc.first_call none stdin)).console_type with
    | BEEP_TYPE_CONSOLE => rw [hty] at hb; cases hb
    | BEEP_TYPE_EVDEV => rw [hty] at hb; cases hb
    | BEEP_TYPE_WIRINGPI =>
      rw [hty] at hb
      simp only [Option.some.injEq, Backend.gpio.injEq] at hb
      exact ⟨hx, Or.inr ⟨hty, hw, by rw [hb]; exact hpin⟩⟩

/-- The steps of the playback loop keep the process in such a state. -/
theorem in_wait_play_beep_loop (env : Env) (parms : beep_parms_t) (n : Nat) (i : Int)
    (p : Proc) (h : in_wait env p) : in_wait env (play_beep_loop env parms n i p) := by
  rw [play_beep_loop_eq]
  exact h

theorem in_wait_do_beep (env : Env) (freq : Int) (p : Proc) (h : in_wait env p) :
    in_wait env (do_beep env freq p) := by
  rw [do_beep_eq]
  exact h

theorem in_wait_usleep_ms (env : Env) (ms : Int) (p : Proc) (h : in_wait env p) :
    in_wait env (usleep_ms ms p) := h

/-! ## C11: exit status -/

/-- Before the first playback of a process `handle_signal` issues no hardware
command and closes nothing: it only exits with the signal number. -/
theorem handle_signal_before_first_call (env : Env) (device : Option String)
    (stdin : List String) (signum : Int) (hs : signum = SIGINT ∨ signum = SIGTERM) :
    handle_signal env signum (Proc.first_call device stdin) =
      { Proc.first_call device stdin with exited := some signum } := by
  simp [handle_signal, hs, Proc.first_call, Proc.start]

/-- C14, at `beep -n` interrupted by SIGINT between its two requests, after
`play_beep` has closed descriptor 3 (the last event of the trace): the
handler still issues the silence command on descriptor 3 and closes it a
second time, and prints the fallback bell when that `ioctl` on the closed
descriptor fails; `close` has not reset `console_fd` to -1. -/
theorem C14_signal_after_close_still_emits :
    after_first_request.trace =
      [.open_dev "/dev/tty0" 3, .ioctl_EVIOCGSND 3,
       .ioctl_KIOCSOUND 3 2711, .usleep 200000, .ioctl_KIOCSOUND 3 0, .close 3]
    ∧ after_first_request.console_fd = 3
    ∧ new_events after_first_request (handle_signal env_console SIGINT after_first_request)
      = [.ioctl_KIOCSOUND 3 0, .close 3]
    ∧ new_events after_first_request
        (handle_signal env_closed_descriptor SIGINT after_first_request)
      = [.ioctl_KIOCSOUND 3 0, .bell, .close 3]
    ∧ (handle_signal env_console SIGINT after_first_request).exited = some SIGINT := by
  decide

/-! ## C15: the last option that sets a field decides it -/

/-- An accepted parse is the plain left-to-right fold of `parse_option`. -/
theorem parse_options_eq_foldl (fns : FreqFns) (name : String) (opts : List Opt) :
    ∀ st : ParseState, (parse_options fns name opts st).proc.exited = none →
      parse_options fns name opts st = opts.foldl (parse_option fns name) st := by
  induction opts with
  | nil => intro st _; rfl
  | cons o rest ih =>
    intro st h
    simp only [parse_options] at h ⊢
    cases hx : (parse_option fns name st o).proc.exited with
    | some v => rw [hx] at h; simp only [] at h; rw [hx] at h; cases h
    | none =>
      rw [hx] at h
      simp only [List.foldl_cons] at h ⊢
      exact ih _ h

/-- If every accepted option other than `-n` leaves a field as `sets` says,
the field ends with the value of the last option that sets it. -/
theorem last_set_decides {α : Type} (fns : FreqFns) (name : String)
    (field : beep_parms_t → α) (sets : Opt → Option α)
    (hstep : ∀ (st : ParseState) (o : Opt), o ≠ Opt.n →
      (parse_option fns name st o).proc.exited = none →
      field (parse_option fns name st o).result = (sets o).getD (field st.result))
    (opts : List Opt) :
    ∀ st : ParseState, (∀ o ∈ opts, o ≠ Opt.n) →
      (parse_options fns name opts st).proc.exited = none →
      field (parse_options fns name opts st).result =
        (last_set sets opts).getD (field st.result) := by
  induction opts with
  | nil => intro st _ _; rfl
  | cons o rest ih =>
    intro st hone h
    simp only [parse_options] at h ⊢
    cases hx : (parse_option fns name st o).proc.exited with
    | some v => rw [hx] at h; simp only [] at h; rw [hx] at h; cases h
    | none =>
      rw [hx] at h
      simp only [] at h ⊢
      rw [ih _ (fun q hq => hone q (List.mem_cons_of_mem _ hq)) h,
        hstep st o (hone o (List.mem_cons_self _ _)) hx]
      simp only [last_set]
      cases last_set sets rest <;> rfl

theorem parse_option_length (fns : FreqFns) (name : String) (st : ParseState) (o : Opt)
    (hn : o ≠ Opt.n) (h : (parse_option fns name st o).proc.exited = none) :
    (parse_option fns name st o).result.length =
      (Opt.sets_length o).getD st.result.length := by
  cases o with
  | n => exact absurd rfl hn
  | V => simp [parse_option] at h
  | h => simp [parse_option, usage_bail] at h
  | F a => simp only [parse_option, Opt.sets_length]; split_ifs <;> rfl
  | f a | k a | l a | r a | d a | D a =>
    cases a <;> simp only [parse_option, Opt.sets_length] at h ⊢ <;> (try split_ifs at h ⊢) <;>
      first | rfl | (simp [usage_bail] at h)
  | N a | e a => rfl
  | s | c | X => rfl

theorem parse_option_reps (fns : FreqFns) (name : String) (st : ParseState) (o : Opt)
    (hn : o ≠ Opt.n) (h : (parse_option fns name st o).proc.exited = none) :
    (parse_option fns name st o).result.reps =
      (Opt.sets_reps o).getD st.result.reps := by
  cases o with
  | n => exact absurd rfl hn
  | V => simp [parse_option] at h
  | h => simp [parse_option, usage_bail] at h
  | F a => simp only [parse_option, Opt.sets_reps]; split_ifs <;> rfl
  | f a | k a | l a | r a | d a | D a =>
    cases a <;> simp only [parse_option, Opt.sets_reps] at h ⊢ <;> (try split_ifs at h ⊢) <;>
      first | rfl | (simp [usage_bail] at h)
  | N a | e a => rfl
  | s | c | X => rfl

theorem parse_option_delay (fns : FreqFns) (name : String) (st : ParseState) (o : Opt)
    (hn : o ≠ Opt.n) (h : (parse_option fns name st o).proc.exited = none) :
    ((parse_option fns name st o).result.delay, (parse_option fns name st o).result.end_delay) =
      (Opt.sets_delay o).getD (st.result.delay, st.result.end_delay) := by
  cases o with
  | n => exact absurd rfl hn
  | V => simp [parse_option] at h
  | h => simp [parse_option, usage_bail] at h
  | F a => simp only [parse_option, Opt.sets_delay]; split_ifs <;> rfl
  | f a | k a | l a | r a | d a | D a =>
    cases a <;> simp only [parse_option, Opt.sets_delay] at h ⊢ <;> (try split_ifs at h ⊢) <;>
      first | rfl | (simp [usage_bail] at h)
  | N a | e a => rfl
  | s | c | X => rfl

theorem parse_option_stdin_beep (fns : FreqFns) (name : String) (st : ParseState) (o : Opt)
    (hn : o ≠ Opt.n) (h : (parse_option fns name st o).proc.exited = none) :
    (parse_option fns name st o).result.stdin_beep =
      (Opt.sets_stdin_beep o).getD st.result.stdin_beep := by
  cases o with
  | n => exact absurd rfl hn
  | V => simp [parse_option] at h
  | h => simp [parse_option, usage_bail] at h
  | F a => simp only [parse_option, Opt.sets_stdin_beep]; split_ifs <;> rfl
  | f a | k a | l a | r a | d a | D a =>
    cases a <;> simp only [parse_option, Opt.sets_stdin_beep] at h ⊢ <;> (try split_ifs at h ⊢) <;> rfl
  | N a | e a => rfl
  | s | c | X => rfl

theorem parse_option_verbose (fns : FreqFns) (name : String) (st : ParseState) (o : Opt)
    (hn : o ≠ Opt.n) (h : (parse_option fns name st o).proc.exited = none) :
    (parse_option fns name st o).result.verbose =
      (Opt.sets_verbose o).getD st.result.verbose := by
  cases o with
  | n => exact absurd rfl hn
  | V => simp [parse_option] at h
  | h => simp [parse_option, usage_bail] at h
  | F a => simp only [parse_option, Opt.sets_verbose]; split_ifs <;> rfl
  | f a | k a | l a | r a | d a | D a =>
    cases a <;> simp only [parse_option, Opt.sets_verbose] at h ⊢ <;> (try split_ifs at h ⊢) <;> rfl
  | N a | e a => rfl
  | s | c | X => rfl

theorem parse_option_freq (fns : FreqFns) (name : String) (st : ParseState) (o : Opt)
    (hn : o ≠ Opt.n) (hf : o.sets_freq = false)
    (h : (parse_option fns name st o).proc.exited = none) :
    (parse_option fns name st o).result.freq = st.result.freq := by
  cases o with
  | n => exact absurd rfl hn
  | V => simp [parse_option] at h
  | h => simp [parse_option, usage_bail] at h
  | F a => simp only [parse_option]; split_ifs <;> rfl
  | f a | k a | N a => simp [Opt.sets_freq] at hf
  | l a | r a | d a | D a =>
    cases a with
    | none => rfl
    | some v => simp only [parse_option]; split_ifs <;> rfl
  | e a => rfl
  | s | c | X => rfl

/-- Options that do not set the frequency leave it as it was. -/
theorem parse_options_freq (fns : FreqFns) (name : String) (opts : List Opt) :
    ∀ st : ParseState, (∀ o ∈ opts, o ≠ Opt.n) → (∀ o ∈ opts, o.sets_freq = false) →
      (parse_options fns name opts st).proc.exited = none →
      (parse_options fns name opts st).result.freq = st.result.freq := by
  induction opts with
  | nil => intro st _ _ _; rfl
  | cons o rest ih =>
    intro st hone hnf h
    simp only [parse_options] at h ⊢
    cases hx : (parse_option fns name st o).proc.exited with
    | some v => rw [hx] at h; simp only [] at h; rw [hx] at h; cases h
    | none =>
      rw [hx] at h
      simp only [] at h ⊢
      rw [ih _ (fun q hq => hone q (List.mem_cons_of_mem _ hq))
        (fun q hq => hnf q (List.mem_cons_of_mem _ hq)) h]
      exact parse_option_freq fns name st o (hone o (List.mem_cons_self _ _))
        (hnf o (List.mem_cons_self _ _)) hx

/-- C15: within one request (a list of options without `-n`) that
`parse_command_line` accepts, the parse is the left-to-right fold of the
option switch, and the request ends with the length of the last `-l`, the
repetition count of the last `-r`, and the delay and the trailing-delay flag
of the last `-d`/`-D` option together, the flag being set exactly when that
option is `-D`; a field no option sets keeps the value it had. -/
theorem C15_last_option_decides (fns : FreqFns) (name : String) (opts : List Opt)
    (st : ParseState) (hone : ∀ o ∈ opts, o ≠ Opt.n)
    (hacc : (parse_options fns name opts st).proc.exited = none) :
    parse_options fns name opts st = opts.foldl (parse_option fns name) st
    ∧ (parse_options fns name opts st).result.length =
        (last_set Opt.sets_length opts).getD st.result.length
    ∧ (parse_options fns name opts st).result.reps =
        (last_set Opt.sets_reps opts).getD st.result.reps
    ∧ ((parse_options fns name opts st).result.delay,
        (parse_options fns name opts st).result.end_delay) =
        (last_set Opt.sets_delay opts).getD (st.result.delay, st.result.end_delay) :=
  ⟨parse_options_eq_foldl fns name opts st hacc,
    last_set_decides fns name (fun r => r.length) Opt.sets_length
      (parse_option_length fns name) opts st hone hacc,
    last_set_decides fns name (fun r => r.reps) Opt.sets_reps
      (parse_option_reps fns name) opts st hone hacc,
    last_set_decides fns name (fun r => (r.delay, r.end_delay)) Opt.sets_delay
      (parse_option_delay fns name) opts st hone hacc⟩

/-- C15 at `beep -l 50 -D 10 -r 4 -l 70 -d 20 -r 2`: length 70, 2
repetitions, delay 20 without trailing delay. -/
theorem C15_last_option_decides_witness :
    parse_options sample_fns "beep" overriding_options (ParseState.initial []) =
        overriding_options.foldl (parse_option sample_fns "beep") (ParseState.initial [])
    ∧ (parse_options sample_fns "beep" overriding_options (ParseState.initial [])).result.length =
        (last_set Opt.sets_length overriding_options).getD (ParseState.initial []).result.length
    ∧ (parse_options sample_fns "beep" overriding_options (ParseState.initial [])).result.reps =
        (last_set Opt.sets_reps overriding_options).getD (ParseState.initial []).result.reps
    ∧ ((parse_options sample_fns "beep" overriding_options (ParseState.initial [])).result.delay,
        (parse_options sample_fns "beep" overriding_options
          (ParseState.initial [])).result.end_delay) =
        (last_set Opt.sets_delay overriding_options).getD
          ((ParseState.initial []).result.delay, (ParseState.initial []).result.end_delay) :=
  C15_last_option_decides sample_fns "beep" overriding_options (ParseState.initial [])
    (by decide) (by decide)

/-! ## C16: defaults and chain length -/

theorem parse_option_linked (fns : FreqFns) (name : String) (st : ParseState) (o : Opt)
    (ho : o ≠ Opt.n) : (parse_option fns name st o).linked = st.linked := by
  cases o with
  | n => exact absurd rfl ho
  | F a => simp only [parse_option]; split_ifs <;> rfl
  | f a | k a | l a | r a | d a | D a =>
    cases a with
    | none => rfl
    | some v => simp only [parse_option]; split_ifs <;> rfl
  | N a | e a => rfl
  | s | c | X | V | h => rfl

theorem parse_options_linked_length (fns : FreqFns) (name : String) (opts : List Opt) :
    ∀ st : ParseState, (parse_options fns name opts st).proc.exited = none →
      (parse_options fns name opts st).linked.length = st.linked.length + opts.count Opt.n := by
  induction opts with
  | nil => intro st _; simp [parse_options]
  | cons o rest ih =>
    intro st h
    simp only [parse_options] at h ⊢
    cases hx : (parse_option fns name st o).proc.exited with
    | some v => rw [hx] at h; simp only [] at h; rw [hx] at h; cases h
    | none =>
      rw [hx] at h
      simp only [] at h ⊢
      rw [ih _ h]
      by_cases ho : o = Opt.n
      · subst ho
        simp [parse_option]
        omega
      · have hb : (o == Opt.n) = false := by simpa using ho
        rw [parse_option_linked fns name st o ho, List.count_cons, hb]
        simp

theorem chain_length (fns : FreqFns) (name : String) (opts : List Opt) (st : ParseState)
    (h : (parse_options fns name opts st).proc.exited = none) :
    (parse_options fns name opts st).chain.length = st.linked.length + opts.count Opt.n + 1 := by
  simp [ParseState.chain, h, parse_options_linked_length fns name opts st h]

/-- The request built from the options `b` given up to the next `-n` (or the
end) is the first request of what the parser links from there on. -/
theorem segment_head (fns : FreqFns) (name : String) (b c : List Opt) (s : ParseState)
    (hs : s.linked = []) (hs0 : s.proc.exited = none) (hb : ∀ o ∈ b, o ≠ Opt.n)
    (hc : c = [] ∨ ∃ c', c = Opt.n :: c')
    (hacc : (parse_options fns name (b ++ c) s).proc.exited = none) :
    (parse_options fns name b s).proc.exited = none
    ∧ (parse_options fns name (b ++ c) s).chain.head? =
        some (default_freq (parse_options fns name b s).result) := by
  have hbacc := parse_options_running_left fns name b c s hs0 hacc
  have hcount : b.count Opt.n = 0 := List.count_eq_zero.2 (fun h => hb _ h rfl)
  have hlen := parse_options_linked_length fns name b s hbacc
  rw [hs, hcount] at hlen
  have hlinked : (parse_options fns name b s).linked = [] := List.length_eq_zero.1 hlen
  have hchain : (parse_options fns name b s).chain =
      [default_freq (parse_options fns name b s).result] := by
    simp [ParseState.chain, hbacc, hlinked]
  refine ⟨hbacc, ?_⟩
  rcases hc with rfl | ⟨c', rfl⟩
  · rw [List.append_nil, hchain]; rfl
  · rw [parse_options_new fns name b c' s hs0 hbacc, hchain]; rfl

/-- A request parsed from a node with default fields has defaults wherever
its options set nothing. -/
theorem segment_request_has_defaults (fns : FreqFns) (name : String) (b : List Opt)
    (s : ParseState) (hb : ∀ o ∈ b, o ≠ Opt.n)
    (hacc : (parse_options fns name b s).proc.exited = none)
    (hf : s.result.freq = 0) (hl : s.result.length = DEFAULT_LENGTH)
    (hr : s.result.reps = DEFAULT_REPS) (hd : s.result.delay = DEFAULT_DELAY)
    (he : s.result.end_delay = DEFAULT_END_DELAY)
    (hi : s.result.stdin_beep = DEFAULT_STDIN_BEEP) :
    request_has_defaults b s.result.verbose
      (default_freq (parse_options fns name b s).result) := by
  have hdf : ∀ r : beep_parms_t, (default_freq r).length = r.length ∧
      (default_freq r).reps = r.reps ∧ (default_freq r).delay = r.delay ∧
      (default_freq r).end_delay = r.end_delay ∧ (default_freq r).stdin_beep = r.stdin_beep ∧
      (default_freq r).verbose = r.verbose := by
    intro r
    unfold default_freq
    split_ifs <;> exact ⟨rfl, rfl, rfl, rfl, rfl, rfl⟩
  obtain ⟨d1, d2, d3, d4, d5, d6⟩ := hdf (parse_options fns name b s).result
  refine ⟨?_, ?_, ?_, ?_, ?_, ?_⟩
  · rw [d1, last_set_decides fns name (fun r => r.length) Opt.sets_length
      (parse_option_length fns name) b s hb hacc, hl]
  · rw [d2, last_set_decides fns name (fun r => r.reps) Opt.sets_reps
      (parse_option_reps fns name) b s hb hacc, hr]
  · rw [d3, d4, last_set_decides fns name (fun r => (r.delay, r.end_delay)) Opt.sets_delay
      (parse_option_delay fns name) b s hb hacc, hd, he]
  · rw [d5, last_set_decides fns name (fun r => r.stdin_beep) Opt.sets_stdin_beep
      (parse_option_stdin_beep fns name) b s hb hacc, hi]
  · rw [d6, last_set_decides fns name (fun r => r.verbose) Opt.sets_verbose
      (parse_option_verbose fns name) b s hb hacc]
  · intro hnf
    have := parse_options_freq fns name b s hb hnf hacc
    simp [default_freq, this, hf]

/-- The state after `a ++ -n :: rest`, from the state after `a`. -/
theorem parse_options_new_state (fns : FreqFns) (name : String) (a rest : List Opt)
    (st : ParseState) (h0 : st.proc.exited = none)
    (ha : (parse_options fns name a st).proc.exited = none) :
    parse_options fns name (a ++ Opt.n :: rest) st =
      (parse_options fns name rest (parse_options fns name a st).after_new).shift
        ((parse_options fns name a st).linked ++
          [default_freq (parse_options fns name a st).result]) := by
  rw [parse_options_append fns name a _ st h0]
  simp only [ha]
  have hn : parse_option fns name (parse_options fns name a st) Opt.n =
      (parse_options fns name a st).after_new.shift
        ((parse_options fns name a st).linked ++
          [default_freq (parse_options fns name a st).result]) := by
    simp [parse_option, ParseState.shift, ParseState.after_new]
  have hx : (parse_option fns name (parse_options fns name a st) Opt.n).proc.exited = none := by
    rw [hn]; exact ha
  simp only [parse_options, hx]
  rw [hn, parse_options_shift]

/-- C16: a command line without options gives exactly one request, with
frequency 440 Hz, length 200 ms, 1 repetition, delay 100 ms, no trailing
delay, no stdin mode (and no verbose output); and for every accepted command
line the chain has one request more than there are `-n`, the first request
and the request after each `-n` have the default in every field that none of
their options sets (frequency 440 when none of them is `-f`, `-k` or `-N`),
and the request after a `-n` inherits the verbose flag of the request before
it unless `--verbose`/`--debug` is given for it. -/
theorem C16_defaults_and_chain_length (fns : FreqFns) (name : String) (opts : List Opt)
    (stdin : List String)
    (hacc : (parse_command_line fns name opts main_parms (Proc.start stdin)).2.exited = none) :
    (parse_command_line fns name [] main_parms (Proc.start stdin)).1 =
      [{ freq := 440, length := 200, reps := 1, delay := 100, end_delay := 0,
         stdin_beep := 0, verbose := 0 }]
    ∧ (parse_command_line fns name opts main_parms (Proc.start stdin)).1.length =
        opts.count Opt.n + 1
    ∧ (∀ b c, opts = b ++ c → (∀ o ∈ b, o ≠ Opt.n) → (c = [] ∨ ∃ c', c = Opt.n :: c') →
        ∃ r, (parse_command_line fns name opts main_parms (Proc.start stdin)).1[0]? = some r
          ∧ request_has_defaults b 0 r)
    ∧ (∀ a b c, opts = a ++ Opt.n :: (b ++ c) → (∀ o ∈ b, o ≠ Opt.n) →
        (c = [] ∨ ∃ c', c = Opt.n :: c') →
        ∃ prev r,
          (parse_command_line fns name opts main_parms (Proc.start stdin)).1[a.count Opt.n]?
            = some prev
          ∧ (parse_command_line fns name opts main_parms
              (Proc.start stdin)).1[a.count Opt.n + 1]? = some r
          ∧ request_has_defaults b prev.verbose r) := by
  have hacc' : (parse_options fns name opts (ParseState.initial stdin)).proc.exited = none := hacc
  refine ⟨?_, ?_, ?_, ?_⟩
  · simp [parse_command_line, parse_options, ParseState.chain, Proc.start, default_freq,
      main_parms, DEFAULT_FREQ, DEFAULT_LENGTH, DEFAULT_REPS, DEFAULT_DELAY, DEFAULT_END_DELAY,
      DEFAULT_STDIN_BEEP, NO_END_DELAY, NO_STDIN_BEEP]
  · have := chain_length fns name opts (ParseState.initial stdin) hacc'
    simpa [parse_command_line, ParseState.initial] using this
  · intro b c hbc hb hc
    subst hbc
    obtain ⟨hbacc, hhead⟩ := segment_head fns name b c (ParseState.initial stdin) rfl rfl hb hc
      hacc'
    refine ⟨default_freq (parse_options fns name b (ParseState.initial stdin)).result, ?_, ?_⟩
    · rw [← List.head?_eq_getElem?]; exact hhead
    · exact segment_request_has_defaults fns name b (ParseState.initial stdin) hb hbacc
        rfl rfl rfl rfl rfl rfl
  · intro a b c habc hb hc
    subst habc
    have haacc := parse_options_running_left fns name a (Opt.n :: (b ++ c))
      (ParseState.initial stdin) rfl hacc'
    have hsplit := parse_options_new fns name a (b ++ c) (ParseState.initial stdin) rfl haacc
    have halen := chain_length fns name a (ParseState.initial stdin) haacc
    have hrest : (parse_options fns name (b ++ c)
        (parse_options fns name a (ParseState.initial stdin)).after_new).proc.exited = none := by
      have h1 := parse_options_new_state fns name a (b ++ c) (ParseState.initial stdin) rfl haacc
      rw [h1] at hacc'
      exact hacc'
    obtain ⟨hbacc, hhead⟩ := segment_head fns name b c
      (parse_options fns name a (ParseState.initial stdin)).after_new rfl haacc hb hc hrest
    refine ⟨default_freq (parse_options fns name a (ParseState.initial stdin)).result,
      default_freq (parse_options fns name b
        (parse_options fns name a (ParseState.initial stdin)).after_new).result, ?_, ?_, ?_⟩
    · show (parse_options fns name (a ++ Opt.n :: (b ++ c)) (ParseState.initial stdin)).chain[
        a.count Opt.n]? = _
      have halen' : (parse_options fns name a (ParseState.initial stdin)).chain.length =
          a.count Opt.n + 1 := by
        simpa [ParseState.initial] using halen
      rw [hsplit, List.getElem?_append_left (by omega)]
      have hl : (parse_options fns name a (ParseState.initial stdin)).linked.length =
          a.count Opt.n := by
        simpa [ParseState.initial] using
          parse_options_linked_length fns name a (ParseState.initial stdin) haacc
      simp only [ParseState.chain, haacc]
      rw [List.getElem?_append_right (by omega), hl, Nat.sub_self]
      rfl
    · show (parse_options fns name (a ++ Opt.n :: (b ++ c)) (ParseState.initial stdin)).chain[
        a.count Opt.n + 1]? = _
      have halen' : (parse_options fns name a (ParseState.initial stdin)).chain.length =
          a.count Opt.n + 1 := by
        simpa [ParseState.initial] using halen
      rw [hsplit, List.getElem?_append_right (by omega), halen', Nat.sub_self,
        ← List.head?_eq_getElem?]
      exact hhead
    · have hv : (default_freq (parse_options fns name a (ParseState.initial stdin)).result).verbose
          = (parse_options fns name a (ParseState.initial stdin)).after_new.result.verbose := by
        unfold default_freq
        split_ifs <;> rfl
      rw [hv]
      exact segment_request_has_defaults fns name b
        (parse_options fns name a (ParseState.initial stdin)).after_new hb hbacc
        rfl rfl rfl rfl rfl rfl

/-- C16 at `beep -l 50 -n -r 2`. -/
theorem C16_defaults_and_chain_length_witness :
    (parse_command_line sample_fns "beep" [] main_parms (Proc.start [])).1 =
      [{ freq := 440, length := 200, reps := 1, delay := 100, end_delay := 0,
         stdin_beep := 0, verbose := 0 }]
    ∧ (parse_command_line sample_fns "beep" two_request_options main_parms (Proc.start [])).1.length =
        two_request_options.count Opt.n + 1
    ∧ (∀ b c, two_request_options = b ++ c → (∀ o ∈ b, o ≠ Opt.n) → (c = [] ∨ ∃ c', c = Opt.n :: c') →
        ∃ r, (parse_command_line sample_fns "beep" two_request_options main_parms (Proc.start [])).1[0]? = some r
          ∧ request_has_defaults b 0 r)
    ∧ (∀ a b c, two_request_options = a ++ Opt.n :: (b ++ c) → (∀ o ∈ b, o ≠ Opt.n) →
        (c = [] ∨ ∃ c', c = Opt.n :: c') →
        ∃ prev r,
          (parse_command_line sample_fns "beep" two_request_options main_parms (Proc.start [])).1[a.count Opt.n]?
            = some prev
          ∧ (parse_command_line sample_fns "beep" two_request_options main_parms
              (Proc.start [])).1[a.count Opt.n + 1]? = some r
          ∧ request_has_defaults b prev.verbose r) :=
  C16_defaults_and_chain_length sample_fns "beep" two_request_options [] (by decide)

/-! ## C13: the two GPIO branches -/

/-- C13: for every frequency and GPIO pin, the wiringPi calls of the
privileged branch request, call by call, the pin configuration steps
`gpio_ops`, and the command lines of the unprivileged branch are, line by
line, the `gpio` commands for the same steps in the same order; for a
frequency above 0 the steps are: pin to PWM output, PWM range 600000 / freq,
PWM value half the range, mark-space mode; for the frequency 0 the one step
is: pin to plain input. -/
theorem C13_gpio_branches_agree (gpio_pin freq : Int) :
    (gpio_privileged gpio_pin freq).map WiringPiCall.config = gpio_ops gpio_pin freq
    ∧ gpio_unprivileged gpio_pin freq = (gpio_ops gpio_pin freq).map gpio_command
    ∧ (0 < freq → gpio_ops gpio_pin freq =
        [.mode_pwm gpio_pin, .pwm_range (600000 / freq),
          .pwm_write gpio_pin (600000 / freq / 2), .pwm_mode_ms])
    ∧ gpio_ops gpio_pin 0 = [.mode_in gpio_pin] := by
  refine ⟨?_, ?_, ?_, ?_⟩
  · unfold gpio_privileged gpio_ops
    split_ifs <;> rfl
  · unfold gpio_unprivileged gpio_ops
    split_ifs <;> rfl
  · intro h
    have hne : freq ≠ 0 := by omega
    have h1 : Int.tdiv 600000 freq = 600000 / freq :=
      Int.tdiv_eq_ediv (by decide) (by omega)
    have h2 : Int.tdiv (600000 / freq) 2 = 600000 / freq / 2 :=
      Int.tdiv_eq_ediv (Int.ediv_nonneg (by decide) (by omega)) (by decide)
    simp [gpio_ops, hne, h1, h2]
  · simp [gpio_ops]

/-! ## C18: no division by zero in `do_beep` -/

/-- C18: for every integer frequency and every backend kind, `do_beep` with
checked divisions never meets a zero divisor: it ends in the state the
unchecked `do_beep` gives, every division it performs has a divisor other
than 0, and for the frequency 0 it performs no division at all and sends the
period 0 (console), the tone value 0 (input-event) or the pin mode input
(GPIO). -/
theorem C18_no_division_by_zero (env : Env) (freq : Int) (p : Proc) :
    (∃ divs, do_beep_checked env freq p = some (do_beep env freq p, divs)
      ∧ (∀ d ∈ divs, d.2 ≠ 0) ∧ (freq = 0 → divs = []))
    ∧ emission env p 0 =
        (match p.console_type with
          | BEEP_TYPE_CONSOLE => [Event.ioctl_KIOCSOUND p.console_fd 0]
          | BEEP_TYPE_EVDEV => [Event.write_SND_TONE p.console_fd 0]
          | BEEP_TYPE_WIRINGPI =>
            if env.HAVE_WIRINGPI = true then
              [if env.geteuid = 0 then Event.wiringPi (.mode_in p.gpio_pin)
                else Event.gpio_helper (.mode_in p.gpio_pin)]
            else [])
    ∧ (do_beep env 0 p).trace = p.trace ++ beep_events env p 0 p.n_emit := by
  refine ⟨?_, ?_, ?_⟩
  · by_cases hf : freq = 0
    · subst hf
      refine ⟨[], ?_, by simp, fun _ => rfl⟩
      cases hty : p.console_type <;>
        simp [do_beep_checked, do_beep, console_period, gpio_ops, hty, Proc.logs]
      by_cases hw : env.HAVE_WIRINGPI = true <;> by_cases hu : env.geteuid = 0 <;>
        simp [hw, hu]
    · cases hty : p.console_type
      · exact ⟨[(CLOCK_TICK_RATE, freq)],
          by simp [do_beep_checked, do_beep, console_period, c_div, hf, hty],
          by simp [hf], fun h => absurd h hf⟩
      · exact ⟨[(CLOCK_TICK_RATE, freq)],
          by simp [do_beep_checked, do_beep, console_period, c_div, hf, hty],
          by simp [hf], fun h => absurd h hf⟩
      · by_cases hw : env.HAVE_WIRINGPI = true
        · refine ⟨[(CLOCK_TICK_RATE, freq), (600000, freq), (Int.tdiv 600000 freq, 2)], ?_,
            by simp [hf], fun h => absurd h hf⟩
          by_cases hu : env.geteuid = 0 <;>
            simp [do_beep_checked, do_beep, console_period, c_div, gpio_ops, hf, hty, hw, hu]
        · exact ⟨[(CLOCK_TICK_RATE, freq)],
            by simp [do_beep_checked, do_beep, console_period, c_div, hf, hty, hw],
            by simp [hf], fun h => absurd h hf⟩
  · unfold emission
    cases p.console_type <;> simp [console_period, gpio_ops]
    by_cases hw : env.HAVE_WIRINGPI = true <;> by_cases hu : env.geteuid = 0 <;> simp [hw, hu]
  · rw [do_beep_eq]

/-! ## C12: what the parser validates -/

theorem parse_options_invariant (fns : FreqFns) (name : String) (I : ParseState → Prop)
    (allowed : Opt → Prop)
    (hstep : ∀ (st : ParseState) (o : Opt), allowed o → I st →
      (parse_option fns name st o).proc.exited = none → I (parse_option fns name st o))
    (opts : List Opt) :
    ∀ st : ParseState, (∀ o ∈ opts, allowed o) → I st →
      (parse_options fns name opts st).proc.exited = none →
      I (parse_options fns name opts st) := by
  induction opts with
  | nil => intro st _ hI _; exact hI
  | cons o rest ih =>
    intro st hall hI h
    simp only [parse_options] at h ⊢
    cases hx : (parse_option fns name st o).proc.exited with
    | some v => rw [hx] at h; simp only [] at h; rw [hx] at h; cases h
    | none =>
      rw [hx] at h
      simp only [] at h ⊢
      exact ih _ (fun q hq => hall q (List.mem_cons_of_mem _ hq))
        (hstep st o (hall o (List.mem_cons_self _ _)) hI hx) h

theorem default_freq_nonneg (r : beep_parms_t) (h : request_nonneg r) :
    request_nonneg (default_freq r) := by
  unfold default_freq
  split_ifs
  · exact h
  · exact h

theorem default_freq_in_range (r : beep_parms_t) (h : r.freq = 0 ∨ freq_in_range r) :
    freq_in_range (default_freq r) := by
  unfold default_freq
  split_ifs with h0
  · constructor <;> norm_num [DEFAULT_FREQ]
  · rcases h with h | h
    · exact absurd h h0
    · exact h

theorem parse_option_nonneg (fns : FreqFns) (name : String) (st : ParseState) (o : Opt)
    (hI : (∀ r ∈ st.linked, request_nonneg r) ∧ request_nonneg st.result)
    (h : (parse_option fns name st o).proc.exited = none) :
    (∀ r ∈ (parse_option fns name st o).linked, request_nonneg r) ∧
      request_nonneg (parse_option fns name st o).result := by
  obtain ⟨hl, hr⟩ := hI
  obtain ⟨h1, h2, h3⟩ := hr
  cases o with
  | n =>
    refine ⟨?_, by simp [parse_option, new_parms, request_nonneg, DEFAULT_LENGTH, DEFAULT_REPS,
      DEFAULT_DELAY]⟩
    intro r hr
    simp only [parse_option, List.mem_append, List.mem_singleton] at hr
    rcases hr with hr | hr
    · exact hl r hr
    · rw [hr]; exact default_freq_nonneg _ ⟨h1, h2, h3⟩
  | V => simp [parse_option] at h
  | h => simp [parse_option, usage_bail] at h
  | F a => simp only [parse_option]; split_ifs <;> exact ⟨hl, h1, h2, h3⟩
  | f a | k a =>
    cases a with
    | none => simp [parse_option, usage_bail] at h
    | some v =>
      simp only [parse_option] at h ⊢
      split_ifs at h ⊢
      · simp [usage_bail] at h
      · exact ⟨hl, h1, h2, h3⟩
  | l a | r a | d a | D a =>
    cases a with
    | none => simp [parse_option, usage_bail] at h
    | some v =>
      simp only [parse_option] at h ⊢
      split_ifs at h ⊢ with hv
      · simp [usage_bail] at h
      · refine ⟨hl, ?_⟩
        simp only [request_nonneg]
        omega
  | N a | e a => exact ⟨hl, h1, h2, h3⟩
  | s | c | X => exact ⟨hl, h1, h2, h3⟩

theorem parse_option_freq_in_range (fns : FreqFns) (name : String) (st : ParseState) (o : Opt)
    (ho : (∀ v, o ≠ Opt.k v) ∧ (∀ a, o ≠ Opt.N a))
    (hI : (∀ r ∈ st.linked, freq_in_range r) ∧ (st.result.freq = 0 ∨ freq_in_range st.result))
    (h : (parse_option fns name st o).proc.exited = none) :
    (∀ r ∈ (parse_option fns name st o).linked, freq_in_range r) ∧
      ((parse_option fns name st o).result.freq = 0 ∨
        freq_in_range (parse_option fns name st o).result) := by
  obtain ⟨hl, hr⟩ := hI
  cases o with
  | n =>
    refine ⟨?_, Or.inl rfl⟩
    intro r hr'
    simp only [parse_option, List.mem_append, List.mem_singleton] at hr'
    rcases hr' with hr' | hr'
    · exact hl r hr'
    · rw [hr']; exact default_freq_in_range _ hr
  | V => simp [parse_option] at h
  | h => simp [parse_option, usage_bail] at h
  | F a => simp only [parse_option]; split_ifs <;> exact ⟨hl, hr⟩
  | k a => exact absurd rfl (ho.1 a)
  | N a => exact absurd rfl (ho.2 a)
  | f a =>
    cases a with
    | none => simp [parse_option, usage_bail] at h
    | some v =>
      simp only [parse_option] at h ⊢
      split_ifs at h ⊢ with hv
      · simp [usage_bail] at h
      · refine ⟨hl, Or.inr ?_⟩
        simp only [not_or, not_le, ge_iff_le] at hv
        exact ⟨hv.2, hv.1⟩
  | l a | r a | d a | D a =>
    cases a with
    | none => simp [parse_option, usage_bail] at h
    | some v =>
      simp only [parse_option] at h ⊢
      split_ifs at h ⊢
      · simp [usage_bail] at h
      · exact ⟨hl, hr⟩
  | e a => exact ⟨hl, hr⟩
  | s | c | X => exact ⟨hl, hr⟩

/-- For every accepted command line, length, repetition count and delay of
every request are not negative; and when the frequency is given by `-f` or
defaulted (no `-k`, no `-N`), it lies strictly between 0 and 20000 Hz. -/
theorem accepted_requests_validated (fns : FreqFns) (name : String) (opts : List Opt)
    (stdin : List String)
    (hacc : (parse_command_line fns name opts main_parms (Proc.start stdin)).2.exited = none) :
    (∀ r ∈ (parse_command_line fns name opts main_parms (Proc.start stdin)).1, request_nonneg r)
    ∧ (((∀ o ∈ opts, (∀ v, o ≠ Opt.k v) ∧ (∀ a, o ≠ Opt.N a))) →
        ∀ r ∈ (parse_command_line fns name opts main_parms (Proc.start stdin)).1,
          freq_in_range r) := by
  have hacc' : (parse_options fns name opts (ParseState.initial stdin)).proc.exited = none := hacc
  constructor
  · have hinv := parse_options_invariant fns name
      (fun st => (∀ r ∈ st.linked, request_nonneg r) ∧ request_nonneg st.result)
      (fun _ => True) (fun st o _ hI h => parse_option_nonneg fns name st o hI h) opts
      (ParseState.initial stdin) (fun _ _ => trivial)
      ⟨by simp [ParseState.initial], by
        simp [ParseState.initial, main_parms, request_nonneg, DEFAULT_LENGTH, DEFAULT_REPS,
          DEFAULT_DELAY]⟩ hacc'
    intro r hr
    change r ∈ (parse_options fns name opts (ParseState.initial stdin)).chain at hr
    simp only [ParseState.chain, hacc', List.mem_append, List.mem_singleton] at hr
    rcases hr with hr | hr
    · exact hinv.1 r hr
    · rw [hr]; exact default_freq_nonneg _ hinv.2
  · intro hno
    have hinv := parse_options_invariant fns name
      (fun st => (∀ r ∈ st.linked, freq_in_range r) ∧
        (st.result.freq = 0 ∨ freq_in_range st.result))
      (fun o => (∀ v, o ≠ Opt.k v) ∧ (∀ a, o ≠ Opt.N a))
      (fun st o ho hI h => parse_option_freq_in_range fns name st o ho hI h) opts
      (ParseState.initial stdin) hno
      ⟨by simp [ParseState.initial], Or.inl rfl⟩ hacc'
    intro r hr
    change r ∈ (parse_options fns name opts (ParseState.initial stdin)).chain at hr
    simp only [ParseState.chain, hacc', List.mem_append, List.mem_singleton] at hr
    rcases hr with hr | hr
    · exact hinv.1 r hr
    · rw [hr]; exact default_freq_in_range _ hinv.2

set_option maxRecDepth 100000 in
/-- C12, at `beep -N X` and at `beep -k 116`: both command lines are
accepted; the first hands `play_beep` a request of frequency -1 (the note is
not parsed, `sci_note_to_freq` returns -1, and the parser stores it), which
`do_beep` turns into the console period -1193180; the second hands it a
request of 21096 Hz.  Neither frequency lies between 0 and 20000 Hz. -/
theorem C12_unvalidated_frequencies :
    (parse_command_line beep_fns "beep" bad_note_options main_parms (Proc.start [])).2.exited
      = none
    ∧ (parse_command_line beep_fns "beep" bad_note_options main_parms (Proc.start [])).1
      = [{ default_request with freq := -1 }]
    ∧ (main env_console beep_fns "beep" bad_note_options []).trace
      = [.open_dev "/dev/tty0" 3, .ioctl_EVIOCGSND 3,
         .ioctl_KIOCSOUND 3 (-1193180), .usleep 200000, .ioctl_KIOCSOUND 3 0, .close 3]
    ∧ (parse_command_line beep_fns "beep" high_key_options main_parms (Proc.start [])).2.exited
      = none
    ∧ (parse_command_line beep_fns "beep" high_key_options main_parms (Proc.start [])).1
      = [{ default_request with freq := 21096 }] := by
  decide

/-! ## C17, C19: scientific notation -/

theorem isDigit_facts (c : Char) (h : c.isDigit = true) :
    isspace c = false ∧ c ≠ '-' ∧ c ≠ '+' ∧ c ≠ '#' ∧ c ≠ 'b' := by
  refine ⟨?_, ?_, ?_, ?_, ?_⟩
  · have h1 : 48 ≤ c.toNat := by
      simp only [Char.isDigit, Bool.and_eq_true, decide_eq_true_eq] at h
      exact h.1
    simp [isspace]
    omega
  all_goals (rintro rfl; revert h; decide)

theorem c_int_of_range (x : Int) (h1 : -2147483648 ≤ x) (h2 : x ≤ 2147483647) :
    c_int x = x := by
  unfold c_int
  omega

theorem sscanf_d_digits (ds : List Char) (hds : ds ≠ [])
    (hdig : ∀ c ∈ ds, c.isDigit = true) :
    sscanf_d ds = .stored (digits_value ds 0 : Int) := by
  cases ds with
  | nil => exact absurd rfl hds
  | cons d rest =>
    have hd := hdig d (List.mem_cons_self _ _)
    obtain ⟨h1, h2, h3, _, _⟩ := isDigit_facts d hd
    simp [sscanf_d, List.dropWhile, h1, h2, h3, hd]

theorem note_letter_cases (L : Char) (hL : L ∈ note_letters) :
    L = 'C' ∨ L = 'D' ∨ L = 'E' ∨ L = 'F' ∨ L = 'G' ∨ L = 'A' ∨ L = 'B' := by
  simpa [note_letters] using hL

theorem note_to_index_letter (L : Char) (hL : L ∈ note_letters) :
    0 ≤ note_to_index L ∧ note_to_index L ≤ 11 := by
  rcases note_letter_cases L hL with h | h | h | h | h | h | h <;> subst h <;> decide

theorem note_to_index_not_letter (c : Char) (hc : c ∉ note_letters) :
    note_to_index c = -1 := by
  simp only [note_letters, List.mem_cons, List.mem_singleton, List.not_mem_nil, or_false,
    not_or] at hc
  obtain ⟨h1, h2, h3, h4, h5, h6, h7⟩ := hc
  simp [note_to_index, h1, h2, h3, h4, h5, h6, h7]

/-- The key that `sci_note_to_freq` computes for a letter, an accidental and
an octave of decimal digits. -/
theorem sci_note_key_digits (L : Char) (a : Accidental) (ds : List Char)
    (hL : L ∈ note_letters) (hds : ds ≠ []) (hdig : ∀ c ∈ ds, c.isDigit = true) :
    sci_note_key (L :: a.sci ++ ds)
      = some (c_int (-8 + 12 * (digits_value ds 0 : Int) + note_to_index L + a.adj)) := by
  have hi := note_to_index_letter L hL
  have hne : note_to_index L ≠ -1 := by omega
  have hs := sscanf_d_digits ds hds hdig
  obtain ⟨d, rest, rfl⟩ := List.exists_cons_of_ne_nil hds
  obtain ⟨_, _, _, h4, h5⟩ := isDigit_facts d (hdig d (List.mem_cons_self _ _))
  have hnn : ¬ ((digits_value (d :: rest) 0 : Int) < 0) := by omega
  have hor : ¬ (d = '#' ∨ d = 'b') := by simp [h4, h5]
  cases a
  · simp only [sci_note_key, Accidental.sci, Accidental.adj, c_head, List.headD_cons,
      List.tail_cons, List.cons_append, List.nil_append, if_neg hne, if_neg h4, if_neg h5, if_neg hor, hs, if_neg hnn]
  · simp only [sci_note_key, Accidental.sci, Accidental.adj, c_head, List.headD_cons,
      List.tail_cons, List.cons_append, List.nil_append, if_neg hne, if_true, true_or, hs,
      if_neg hnn]
  · have hb : ('b' : Char) ≠ '#' := by decide
    simp only [sci_note_key, Accidental.sci, Accidental.adj, c_head, List.headD_cons,
      List.tail_cons, List.cons_append, List.nil_append, if_neg hne, if_neg hb, if_true,
      or_true, hs, if_neg hnn]

theorem sci_resolves_of_key (note : String) (key : Int)
    (h : sci_note_key note.toList = some key) : sci_resolves note key := by
  refine ⟨h, ?_⟩
  unfold sci_note_to_freq
  rw [h]

theorem sci_resolves_digits (L : Char) (a : Accidental) (ds : List Char)
    (hL : L ∈ note_letters) (hds : ds ≠ []) (hdig : ∀ c ∈ ds, c.isDigit = true)
    (hrange : digits_value ds 0 ≤ 178956970) (key : Int)
    (hkey : key = -8 + 12 * (digits_value ds 0 : Int) + note_to_index L + a.adj) :
    sci_resolves (sci_note L a ds) key := by
  apply sci_resolves_of_key
  have hi := note_to_index_letter L hL
  have ha : -1 ≤ a.adj ∧ a.adj ≤ 1 := by cases a <;> decide
  have h := sci_note_key_digits L a ds hL hds hdig
  rw [c_int_of_range _ (by omega) (by omega)] at h
  rw [hkey]
  exact h

theorem abc_octave_eq (s : List Char) (octave : Int) :
    abc_octave s octave = octave + (s.count octave_up : Int) - (s.count octave_down : Int) := by
  induction s generalizing octave with
  | nil => simp [abc_octave]
  | cons c rest ih =>
    have hne : octave_up ≠ octave_down := by decide
    rw [abc_octave, ih]
    by_cases h1 : c = octave_up
    · subst h1
      have h2 : List.count octave_down (octave_up :: rest) = List.count octave_down rest :=
        List.count_cons_of_ne (Ne.symm hne) rest
      rw [List.count_cons_self, h2, if_pos (show octave_up = Char.ofNat 39 from rfl)]
      push_cast
      omega
    · by_cases h2 : c = octave_down
      · subst h2
        have h3 : List.count octave_up (octave_down :: rest) = List.count octave_up rest :=
          List.count_cons_of_ne hne rest
        rw [List.count_cons_self, h3, if_neg (show ¬ octave_down = Char.ofNat 39 by decide),
          if_pos (show octave_down = ',' from rfl)]
        push_cast
        omega
      · rw [List.count_cons_of_ne (Ne.symm h1), List.count_cons_of_ne (Ne.symm h2),
          if_neg (show ¬ c = Char.ofNat 39 from h1), if_neg (show ¬ c = ',' from h2)]

theorem abc_note_key_cons (a : Accidental) (X : Char) (marks : List Char)
    (hX : a = .natural → X ≠ '^' ∧ X ≠ '_') :
    abc_note_key (a.abc ++ X :: marks) =
      if (if X.isLower then note_to_index X.toUpper else note_to_index X) < 0 then none
      else some (c_int (-8 + 12 * abc_octave marks (if X.isLower then 2 + 1 else 2)
        + (if X.isLower then note_to_index X.toUpper else note_to_index X) + a.adj)) := by
  cases a
  · obtain ⟨h1, h2⟩ := hX rfl
    have hor : ¬ (X = '^' ∨ X = '_') := by simp [h1, h2]
    simp only [abc_note_key, Accidental.abc, Accidental.adj, c_head, List.nil_append,
      List.headD_cons, List.tail_cons, if_neg h1, if_neg h2, if_neg hor]
  · simp only [abc_note_key, Accidental.abc, Accidental.adj, c_head, List.cons_append,
      List.nil_append, List.headD_cons, List.tail_cons, if_true, true_or]
  · have hb : ('_' : Char) ≠ '^' := by decide
    simp only [abc_note_key, Accidental.abc, Accidental.adj, c_head, List.cons_append,
      List.nil_append, List.headD_cons, List.tail_cons, if_neg hb, if_true, or_true]

theorem note_letter_facts (L : Char) (hL : L ∈ note_letters) :
    L.isLower = false ∧ L.toLower.isLower = true ∧ L.toLower.toUpper = L
    ∧ L ≠ '^' ∧ L ≠ '_' ∧ L.toLower ≠ '^' ∧ L.toLower ≠ '_' := by
  rcases note_letter_cases L hL with h | h | h | h | h | h | h <;> subst h <;> decide

theorem lower_letter (X : Char) (h : X.isLower = true) (hi : X.toUpper ∈ note_letters) :
    X ∈ note_letters.map Char.toLower := by
  have hb : 97 ≤ X.toNat ∧ X.toNat ≤ 122 := by
    simpa [Char.isLower] using h
  have hx : X = Char.ofNat X.toNat := (Char.ofNat_toNat X).symm
  obtain ⟨h1, h2⟩ := hb
  generalize X.toNat = n at hx h1 h2
  subst hx
  interval_cases n <;> revert hi <;> decide

theorem abc_not_letter (X : Char) (hX : X ∉ abc_letters) :
    (if X.isLower then note_to_index X.toUpper else note_to_index X) < 0 := by
  have h1 : X ∉ note_letters := fun h => hX (List.mem_append_left _ h)
  have h2 : X ∉ note_letters.map Char.toLower := fun h => hX (List.mem_append_right _ h)
  by_cases hl : X.isLower = true
  · rw [if_pos hl, note_to_index_not_letter _ (fun h => h2 (lower_letter X hl h))]
    decide
  · rw [if_neg hl, note_to_index_not_letter _ h1]
    decide

theorem count_marks_le (marks : List Char) :
    marks.count octave_up + marks.count octave_down ≤ marks.length := by
  have hne : octave_up ≠ octave_down := by decide
  induction marks with
  | nil => simp
  | cons c rest ih =>
    by_cases h1 : c = octave_up
    · subst h1
      rw [List.count_cons_self, List.count_cons_of_ne (Ne.symm hne), List.length_cons]
      omega
    · by_cases h2 : c = octave_down
      · subst h2
        rw [List.count_cons_self, List.count_cons_of_ne hne, List.length_cons]
        omega
      · rw [List.count_cons_of_ne (Ne.symm h1), List.count_cons_of_ne (Ne.symm h2),
          List.length_cons]
        omega

theorem abc_resolves_of_key (note : String) (key : Int)
    (h : abc_note_key note.toList = some key) : abc_resolves note key := by
  refine ⟨h, ?_⟩
  unfold abc_note_to_freq
  rw [h]

/-- The key that `abc_note_to_freq` computes for an accidental, a letter and
the characters after it. -/
theorem abc_resolves_marks (a : Accidental) (L : Char) (lower : Bool) (marks : List Char)
    (hL : L ∈ note_letters) (hlen : marks.length ≤ 178956967) (key : Int)
    (hkey : key = -8 + 12 * (2 + (if lower = true then 1 else 0)
        + (marks.count octave_up : Int) - (marks.count octave_down : Int))
      + note_to_index L + a.adj) :
    abc_resolves (abc_note a L lower marks) key := by
  apply abc_resolves_of_key
  have hi := note_to_index_letter L hL
  have hni : ¬ note_to_index L < 0 := by omega
  have ha : -1 ≤ a.adj ∧ a.adj ≤ 1 := by cases a <;> decide
  obtain ⟨f1, f2, f3, f4, f5, f6, f7⟩ := note_letter_facts L hL
  have hu : (marks.count octave_up : Int) ≤ 178956967 := by
    have := List.count_le_length octave_up marks
    omega
  have hd : (marks.count octave_down : Int) ≤ 178956967 := by
    have := List.count_le_length octave_down marks
    omega
  have hud : (marks.count octave_up : Int) + (marks.count octave_down : Int) ≤ 178956967 := by
    have h1 := count_marks_le marks
    omega
  have h0u : (0 : Int) ≤ (marks.count octave_up : Int) := Int.natCast_nonneg _
  have h0d : (0 : Int) ≤ (marks.count octave_down : Int) := Int.natCast_nonneg _
  cases lower
  · have hk := abc_note_key_cons a L marks (fun _ => ⟨f4, f5⟩)
    rw [f1] at hk
    simp only [Bool.false_eq_true, if_false, if_neg hni, abc_octave_eq] at hk
    rw [c_int_of_range _ (by omega) (by omega)] at hk
    rw [hkey]
    simp only [abc_note, Bool.false_eq_true, if_false, String.toList]
    exact hk.trans (congrArg some (by omega))
  · have hk := abc_note_key_cons a L.toLower marks (fun _ => ⟨f6, f7⟩)
    rw [f2, f3] at hk
    simp only [if_true, if_neg hni, abc_octave_eq] at hk
    rw [c_int_of_range _ (by omega) (by omega)] at hk
    rw [hkey]
    simp only [abc_note, if_true, String.toList]
    exact hk.trans (congrArg some (by omega))

theorem count_up_append (marks extra : List Char) :
    ((marks ++ extra).count octave_up : Int) = marks.count octave_up + extra.count octave_up := by
  rw [List.count_append]
  push_cast
  rfl

theorem count_down_append (marks extra : List Char) :
    ((marks ++ extra).count octave_down : Int)
      = marks.count octave_down + extra.count octave_down := by
  rw [List.count_append]
  push_cast
  rfl

/-- C20: for an optional accidental (`^` = +1, `_` = -1), a letter of C, D, E,
F, G, A, B in upper or lower case and the characters after it (few enough for
the key to be an `int`), `abc_note_to_freq` computes the key
`-8 + 12*(2 + [lower case] + number of apostrophes - number of commas)
+ index(letter) + accidental` and returns `key_to_freq` of it.  The lower-case
letter is 12 keys above the upper-case one; an apostrophe more raises and a
comma more lowers the key by 12, and one of each, in either order, leaves it;
the upper-case letter alone is the key of that letter in octave 2 of the
scientific notation; and the function returns -1 when the character in the
place of the letter is none of A-G, a-g, or the string ends there. -/
theorem C20_abc_note_to_freq (a : Accidental) (L : Char) (lower : Bool) (marks : List Char)
    (hL : L ∈ note_letters) (hlen : marks.length ≤ 100000000) :
    abc_resolves (abc_note a L lower marks)
        (-8 + 12 * (2 + (if lower = true then 1 else 0)
            + (marks.count octave_up : Int) - (marks.count octave_down : Int))
          + note_to_index L + a.adj)
    ∧ (∃ k, abc_resolves (abc_note a L false marks) k
          ∧ abc_resolves (abc_note a L true marks) (k + 12))
    ∧ (∃ k, abc_resolves (abc_note a L lower marks) k
          ∧ abc_resolves (abc_note a L lower (marks ++ [octave_up])) (k + 12)
          ∧ abc_resolves (abc_note a L lower (marks ++ [octave_down])) (k - 12)
          ∧ abc_resolves (abc_note a L lower (marks ++ [octave_up, octave_down])) k
          ∧ abc_resolves (abc_note a L lower (marks ++ [octave_down, octave_up])) k)
    ∧ (∃ k, abc_resolves (abc_note a L false []) k ∧ sci_resolves (sci_note L a ['2']) k)
    ∧ (∀ (X : Char) (rest : List Char), X ∉ abc_letters →
          (a = .natural → X ≠ '^' ∧ X ≠ '_') →
          abc_note_to_freq (String.mk (a.abc ++ X :: rest)) = -1)
    ∧ abc_note_to_freq (String.mk a.abc) = -1 := by
  have c1 : ([octave_up].count octave_up : Int) = 1 := by decide
  have c2 : ([octave_up].count octave_down : Int) = 0 := by decide
  have c3 : ([octave_down].count octave_up : Int) = 0 := by decide
  have c4 : ([octave_down].count octave_down : Int) = 1 := by decide
  have c5 : ([octave_up, octave_down].count octave_up : Int) = 1 := by decide
  have c6 : ([octave_up, octave_down].count octave_down : Int) = 1 := by decide
  have c7 : ([octave_down, octave_up].count octave_up : Int) = 1 := by decide
  have c8 : ([octave_down, octave_up].count octave_down : Int) = 1 := by decide
  refine ⟨abc_resolves_marks a L lower marks hL (by omega) _ rfl,
    ⟨_, abc_resolves_marks a L false marks hL (by omega) _ rfl,
      abc_resolves_marks a L true marks hL (by omega) _ ?_⟩,
    ⟨_, abc_resolves_marks a L lower marks hL (by omega) _ rfl,
      abc_resolves_marks a L lower _ hL (by simp; omega) _ ?_,
      abc_resolves_marks a L lower _ hL (by simp; omega) _ ?_,
      abc_resolves_marks a L lower _ hL (by simp; omega) _ ?_,
      abc_resolves_marks a L lower _ hL (by simp; omega) _ ?_⟩,
    ⟨_, abc_resolves_marks a L false [] hL (by simp) _ rfl,
      sci_resolves_digits L a ['2'] hL (by decide) (by decide) (by decide) _ ?_⟩, ?_, ?_⟩
  · simp only [Bool.false_eq_true, if_false, if_true]
    omega
  · rw [count_up_append, count_down_append, c1, c2]
    omega
  · rw [count_up_append, count_down_append, c3, c4]
    omega
  · rw [count_up_append, count_down_append, c5, c6]
    omega
  · rw [count_up_append, count_down_append, c7, c8]
    omega
  · have hd : (digits_value ['2'] 0 : Int) = 2 := by decide
    rw [hd]
    simp
  · intro X rest hX hacc
    unfold abc_note_to_freq
    rw [show (String.mk (a.abc ++ X :: rest)).toList = a.abc ++ X :: rest from rfl,
      abc_note_key_cons a X rest hacc, if_pos (abc_not_letter X hX)]
  · cases a <;> decide

theorem C20_abc_note_to_freq_witness :
    abc_resolves (abc_note .sharp 'C' true [octave_up, octave_down, octave_up]) 41
    ∧ abc_note_to_freq (String.mk (Accidental.sharp.abc ++ 'H' :: [octave_up])) = -1 :=
  have h := C20_abc_note_to_freq .sharp 'C' true [octave_up, octave_down, octave_up]
    (by decide) (by decide)
  ⟨h.1, h.2.2.2.2.1 'H' [octave_up] (by decide) (by decide)⟩

end Beep
